import Mathlib

/-!
# Policy data ingestion service: scheduler and parse-job registry

A shallow embedding of `src/services/SchedulerService.js`,
`src/services/FileParserService.js`, `src/services/PolicyService.js` with the
repositories and models it stores through, and `src/master.js`, with the
properties proved about them.

Conventions of the embedding

* A JavaScript `Date` is its time value: `some ms` for a valid date, `none`
  for an Invalid Date (time value NaN).  A stored timestamp field is
  `Option Int` with `none` for a field that is `null` or missing.
* A 12-byte store identifier (`ObjectId`) is a natural number; turning it into
  its string form and parsing a string into an identifier are the two fields
  of `ObjectIdCodec`, because the library that does it is outside the
  repository.
* The Agenda collection is the list of its job documents, in insertion order.
* A finite JavaScript number is an exact rational: the services compare it
  with zero, copy it and add it up, and rounding is left out.
* The built-in functions `parseFloat`, `new Date(string)` and `toLowerCase`
  are the fields of `Builtins`; the theorems hold for every such runtime, and
  `sampleBuiltins` is one for concrete runs.
* In the import loop the two calls of `new Date()` read the same two times
  for every row.
-/

namespace PolicyIngestion

/-! ## JavaScript primitives used by the services -/

/-- Time value of a JavaScript `Date`: `none` is an Invalid Date. -/
abbrev DateValue := Option Int

/-- The relational operator `a <= b` on two `Date` objects: both are turned
into their time values and any comparison with NaN is false. -/
def dateLe (a b : DateValue) : Bool :=
  match a, b with
  | some x, some y => decide (x ≤ y)
  | _, _ => false

/-- The code points `String.prototype.trim` strips: ECMAScript WhiteSpace and
LineTerminator. -/
def isJsWhiteSpace (c : Char) : Bool :=
  let n := c.toNat
  n == 0x09 || n == 0x0A || n == 0x0B || n == 0x0C || n == 0x0D || n == 0x20 ||
  n == 0xA0 || n == 0x1680 || (0x2000 ≤ n && n ≤ 0x200A) || n == 0x2028 ||
  n == 0x2029 || n == 0x202F || n == 0x205F || n == 0x3000 || n == 0xFEFF

/-- The method `String.prototype.trim`. -/
def jsTrim (s : String) : String :=
  String.mk ((s.data.dropWhile isJsWhiteSpace).reverse.dropWhile isJsWhiteSpace).reverse

/-- Truthiness of a value that is `undefined`/`null` (`none`) or a string:
the empty string is falsy. -/
def truthyString : Option String → Bool
  | none => false
  | some s => s != ""

/-- Truthiness of a field that is `null`/missing (`none`) or a `Date` object:
every object is truthy. -/
def truthyDate : Option Int → Bool
  | none => false
  | some _ => true

/-! ## SchedulerService -/

namespace SchedulerService

/-- Store identifier of a job document (a 12-byte ObjectId, as a number). -/
abbrev ObjectId := Nat

/-- The two conversions of the identifier library: `toHexString` is
`ObjectId.prototype.toString`, `ofString` is `new mongoose.Types.ObjectId(s)`,
which throws (an error carrying the library's message) on a string that is not
an identifier. -/
structure ObjectIdCodec where
  toHexString : ObjectId → String
  ofString : String → Except String ObjectId

/-- Opaque metadata of a message: `none` when the caller gave none. -/
abbrev Metadata := Option (List (String × String))

/-- The `data` of an insert-message job. -/
structure JobData where
  message : String
  metadata : Metadata
deriving DecidableEq, Repr

/-- The attributes of an Agenda job document that the service reads or writes. -/
structure JobAttrs where
  _id : ObjectId
  name : String
  data : JobData
  nextRunAt : Option Int
  lastRunAt : Option Int
  lastFinishedAt : Option Int
  failReason : Option String
deriving DecidableEq, Repr

/-- The Agenda collection. -/
abbrev JobStore := List JobAttrs

/-- Source function `SchedulerService._getJobStatus`. -/
def _getJobStatus (attrs : JobAttrs) : String :=
  if truthyDate attrs.lastFinishedAt then
    if truthyString attrs.failReason then "failed" else "completed"
  else if truthyDate attrs.lastRunAt then
    "running"
  else if truthyDate attrs.nextRunAt then
    "scheduled"
  else
    "queued"

/-- The input of `scheduleMessage`: `message` is `none` when it is `undefined`
or `null`, `scheduledFor` is the time value of `new Date(scheduledFor)`. -/
structure MessageData where
  message : Option String
  scheduledFor : DateValue
  metadata : Metadata
deriving DecidableEq, Repr

/-- The value `scheduleMessage` returns. -/
structure ScheduleResult where
  jobId : String
  status : String
  scheduledFor : DateValue
  message : String
deriving DecidableEq, Repr

/-- Agenda `Job.schedule(time)`: a valid date becomes `nextRunAt`; an Invalid
Date is handed to Agenda's own date parser, whose answer is `onInvalid`. -/
def jobSchedule (onInvalid : Option Int) (time : DateValue) : Option Int :=
  match time with
  | some t => some t
  | none => onInvalid

/-- Source function `SchedulerService.scheduleMessage` at current time `now`; `newId` is the
identifier the store gives the saved document.  The first component is the
store after the call; an error is the message of the `Error` thrown, and both
validation errors are thrown before the store is touched. -/
def scheduleMessage (codec : ObjectIdCodec) (onInvalid : Option Int) (now : Int)
    (newId : ObjectId) (store : JobStore) (messageData : MessageData) :
    JobStore × Except String ScheduleResult :=
  match messageData.message with
  | none => (store, .error "Message cannot be empty")
  | some message =>
    if !truthyString (some message) || jsTrim message == "" then
      (store, .error "Message cannot be empty")
    else
      let scheduleTime := messageData.scheduledFor
      if dateLe scheduleTime (some now) then
        (store, .error "Scheduled time must be in the future")
      else
        let job : JobAttrs :=
          { _id := newId
            name := "insert-message"
            data := { message := message, metadata := messageData.metadata }
            nextRunAt := jobSchedule onInvalid scheduleTime
            lastRunAt := none
            lastFinishedAt := none
            failReason := none }
        (store ++ [job], .ok
          { jobId := codec.toHexString job._id
            status := "scheduled"
            scheduledFor := scheduleTime
            message := "Message scheduled successfully" })

/-- One entry of the list `getScheduledMessages` returns. -/
structure ScheduledMessage where
  jobId : String
  message : String
  scheduledFor : Option Int
  status : String
  metadata : Metadata
deriving DecidableEq, Repr

/-- The Mongo query `getScheduledMessages` builds: `name` is always
`insert-message`; with `filters.status === "scheduled"` it adds
`nextRunAt: {$ne: null}` and `lastFinishedAt: null`. -/
def scheduledQuery (status : Option String) (attrs : JobAttrs) : Bool :=
  attrs.name == "insert-message" &&
    (if status == some "scheduled" then
      attrs.nextRunAt.isSome && attrs.lastFinishedAt.isNone
    else true)

/-- Source function `SchedulerService.getScheduledMessages`; `status` is `filters.status`. -/
def getScheduledMessages (codec : ObjectIdCodec) (store : JobStore)
    (status : Option String) : List ScheduledMessage :=
  (store.filter (scheduledQuery status)).map fun attrs =>
    { jobId := codec.toHexString attrs._id
      message := attrs.data.message
      scheduledFor := attrs.nextRunAt
      status := _getJobStatus attrs
      metadata := attrs.data.metadata }

/-- Source function `SchedulerService.cancelScheduledMessage`: the store after the call and the
boolean returned.  A string that is no identifier makes the constructor throw
inside the `try`, and the `catch` returns false. -/
def cancelScheduledMessage (codec : ObjectIdCodec) (store : JobStore) (jobId : String) :
    JobStore × Bool :=
  match codec.ofString jobId with
  | .error _ => (store, false)
  | .ok oid =>
    let numRemoved := (store.filter fun attrs => attrs._id == oid).length
    (store.filter fun attrs => !(attrs._id == oid), decide (numRemoved > 0))

/-- The record `getJobStatus` returns for a job. -/
structure JobStatusRecord where
  jobId : String
  status : String
  scheduledFor : Option Int
  lastRun : Option Int
  lastFinished : Option Int
  failReason : Option String
deriving DecidableEq, Repr

/-- Source function `SchedulerService.getJobStatus`: `none` is the `null` of a job that is not
in the store; the identifier constructor is outside any `try`, so a string that
is no identifier raises. -/
def getJobStatus (codec : ObjectIdCodec) (store : JobStore) (jobId : String) :
    Except String (Option JobStatusRecord) :=
  match codec.ofString jobId with
  | .error e => .error e
  | .ok oid =>
    match store.filter fun attrs => attrs._id == oid with
    | [] => .ok none
    | job :: _ =>
      .ok (some
        { jobId := codec.toHexString job._id
          status := _getJobStatus job
          scheduledFor := job.nextRunAt
          lastRun := job.lastRunAt
          lastFinished := job.lastFinishedAt
          failReason := job.failReason })

end SchedulerService

/-! ## PolicyService: the import loop -/

namespace PolicyService

/-- One entry of `results.errors`: the row and the message of the error the
row raised. -/
structure RowError (ρ : Type) where
  row : ρ
  error : String
deriving DecidableEq, Repr

/-- The object `importPoliciesFromData` returns. -/
structure ImportResults (ρ : Type) where
  success : Bool
  imported : Nat
  failed : Nat
  errors : List (RowError ρ)
deriving DecidableEq, Repr

/-- Source function `PolicyService.importPoliciesFromData` over the rows `data`, from the
entity store `db`.  The body of the `try` for one row is `createFromRow`: it
gives the store after the attempt and, when the attempt threw, the message of
the error. -/
def importPoliciesFromData {ρ σ : Type} (createFromRow : ρ → σ → σ × Option String)
    (data : List ρ) (db : σ) : σ × ImportResults ρ :=
  data.foldl
    (fun acc row =>
      match createFromRow row acc.1 with
      | (db', none) => (db', { acc.2 with imported := acc.2.imported + 1 })
      | (db', some message) =>
        (db', { acc.2 with
                  failed := acc.2.failed + 1
                  errors := acc.2.errors ++ [{ row := row, error := message }] }))
    (db, { success := true, imported := 0, failed := 0, errors := [] })

end PolicyService

/-! ## FileParserService: the parse-job registry -/

namespace FileParserService

open PolicyService

/-- A value read from a property of the import result and kept in a job
record. -/
inductive JsField (ρ : Type) where
  | undefined
  | boolean (b : Bool)
  | number (n : Nat)
  | rowErrors (l : List (RowError ρ))
deriving DecidableEq, Repr

/-- Reading the property `key` of the object `importPoliciesFromData`
returned: a property the object does not have reads as `undefined`. -/
def getProperty {ρ : Type} (r : ImportResults ρ) (key : String) : JsField ρ :=
  if key = "success" then .boolean r.success
  else if key = "imported" then .number r.imported
  else if key = "failed" then .number r.failed
  else if key = "errors" then .rowErrors r.errors
  else .undefined

/-- A record of the in-memory job map; `errors` is `undefined` until an import
result is copied into it. -/
structure ParseJob (ρ : Type) where
  id : String
  filePath : String
  fileType : String
  status : String
  recordsProcessed : JsField ρ
  recordsFailed : JsField ρ
  startedAt : Int
  completedAt : Option Int
  error : Option String
  errors : JsField ρ
deriving DecidableEq, Repr

/-- The module-level `jobs` map, in insertion order. -/
abbrev JobMap (ρ : Type) := List (String × ParseJob ρ)

/-- The call `jobs.get(jobId)`. -/
def jobsGet {ρ : Type} (jobs : JobMap ρ) (jobId : String) : Option (ParseJob ρ) :=
  (jobs.find? fun entry => entry.1 == jobId).map Prod.snd

/-- The call `jobs.set(jobId, job)`. -/
def jobsSet {ρ : Type} (jobs : JobMap ρ) (jobId : String) (job : ParseJob ρ) : JobMap ρ :=
  if jobs.any fun entry => entry.1 == jobId then
    jobs.map fun entry => if entry.1 == jobId then (jobId, job) else entry
  else
    jobs ++ [(jobId, job)]

/-- The one message of the parsing worker: `{success: true, data}` or
`{success: false, error}`. -/
inductive ParseResult (ρ : Type) where
  | success (data : List ρ)
  | failure (error : String)
deriving DecidableEq, Repr

/-- What `await this.parseFile(...)` does: the promise never settles (the
worker exits with code 0 without a message), resolves with the worker's
message, or rejects (creating the worker threw). -/
inductive ParseOutcome (ρ : Type) where
  | unsettled
  | resolved (result : ParseResult ρ)
  | rejected (message : String)
deriving DecidableEq, Repr

/-- The record `startParsingJob` builds. -/
def newJob {ρ : Type} (jobId filePath fileType : String) (startedAt : Int) : ParseJob ρ :=
  { id := jobId
    filePath := filePath
    fileType := fileType
    status := "pending"
    recordsProcessed := .number 0
    recordsFailed := .number 0
    startedAt := startedAt
    completedAt := none
    error := none
    errors := .undefined }

/-- The assignment `job.status = 'processing'`, which `_processJob` makes
before its first `await`. -/
def markProcessing {ρ : Type} (job : ParseJob ρ) : ParseJob ρ :=
  { job with status := "processing" }

/-- The assignments `_processJob` makes to the job record once `parseFile` has
settled, in program order (`try` or `catch` branch, then `finally`), with the
entity store after the import. -/
def settleAssignments {ρ σ : Type} (createFromRow : ρ → σ → σ × Option String)
    (outcome : ParseOutcome ρ) (finishedAt : Int) (db : σ) :
    σ × List (ParseJob ρ → ParseJob ρ) :=
  match outcome with
  | .unsettled => (db, [])
  | .resolved (.success data) =>
    let imported := importPoliciesFromData createFromRow data db
    let importResult := imported.2
    (imported.1,
      [ fun job => { job with status := "completed" },
        fun job => { job with recordsProcessed := getProperty importResult "successful" },
        fun job => { job with recordsFailed := getProperty importResult "failed" },
        fun job => { job with errors := getProperty importResult "errors" },
        fun job => { job with completedAt := some finishedAt } ])
  | .resolved (.failure error) =>
    (db,
      [ fun job => { job with status := "failed" },
        fun job => { job with error := some error },
        fun job => { job with completedAt := some finishedAt } ])
  | .rejected message =>
    (db,
      [ fun job => { job with status := "failed" },
        fun job => { job with error := some message },
        fun job => { job with completedAt := some finishedAt } ])

/-- Source function `FileParserService._processJob` up to its first `await`: the lookup, the
early return for an unknown id, and `job.status = 'processing'`.  The record in
the map is the object the assignment changes. -/
def _processJobStart {ρ : Type} (jobs : JobMap ρ) (jobId : String) : JobMap ρ :=
  match jobsGet jobs jobId with
  | none => jobs
  | some job => jobsSet jobs jobId (markProcessing job)

/-- Source function `FileParserService._processJob` from the moment `parseFile` settles with
`outcome` to its end: the job map and the entity store afterwards. -/
def _processJobResume {ρ σ : Type} (createFromRow : ρ → σ → σ × Option String)
    (outcome : ParseOutcome ρ) (finishedAt : Int) (jobs : JobMap ρ) (jobId : String)
    (db : σ) : JobMap ρ × σ :=
  match jobsGet jobs jobId with
  | none => (jobs, db)
  | some job =>
    let settled := settleAssignments createFromRow outcome finishedAt db
    (jobsSet jobs jobId (settled.2.foldl (fun j assign => assign j) job), settled.1)

/-- Source function `FileParserService._processJob` run to its end for the given outcome of
`parseFile`. -/
def _processJob {ρ σ : Type} (createFromRow : ρ → σ → σ × Option String)
    (outcome : ParseOutcome ρ) (finishedAt : Int) (jobs : JobMap ρ) (jobId : String)
    (db : σ) : JobMap ρ × σ :=
  _processJobResume createFromRow outcome finishedAt (_processJobStart jobs jobId) jobId db

/-- Source function `FileParserService.startParsingJob` at the moment it returns: the record
is put in the map and `_processJob`, called without `await`, has run up to its
first `await`.  The identifier `jobId` is the one `uuidv4()` produced. -/
def startParsingJob {ρ : Type} (jobId : String) (startedAt : Int) (jobs : JobMap ρ)
    (filePath fileType : String) : JobMap ρ × String :=
  (_processJobStart (jobsSet jobs jobId (newJob jobId filePath fileType startedAt)) jobId,
    jobId)

/-- The successive values of a job record from its creation by
`startParsingJob` to the end of `_processJob`, one per assignment. -/
def recordHistory {ρ σ : Type} (createFromRow : ρ → σ → σ × Option String)
    (outcome : ParseOutcome ρ) (jobId filePath fileType : String)
    (startedAt finishedAt : Int) (db : σ) : List (ParseJob ρ) :=
  List.scanl (fun job assign => assign job) (newJob jobId filePath fileType startedAt)
    (markProcessing :: (settleAssignments createFromRow outcome finishedAt db).2)

/-- The object `getJobStatus` returns for a job. -/
structure JobStatus (ρ : Type) where
  jobId : String
  status : String
  recordsProcessed : JsField ρ
  recordsFailed : JsField ρ
  startedAt : Int
  completedAt : Option Int
  error : Option String
  errors : List (RowError ρ)
deriving DecidableEq, Repr

/-- Source function `FileParserService.getJobStatus`: `none` is the `null` of an unknown id;
`job.errors || []` is the list copied from the import result, or the empty
list. -/
def getJobStatus {ρ : Type} (jobs : JobMap ρ) (jobId : String) : Option (JobStatus ρ) :=
  match jobsGet jobs jobId with
  | none => none
  | some job =>
    some
      { jobId := job.id
        status := job.status
        recordsProcessed := job.recordsProcessed
        recordsFailed := job.recordsFailed
        startedAt := job.startedAt
        completedAt := job.completedAt
        error := job.error
        errors := match job.errors with
          | .rowErrors l => l
          | _ => [] }

end FileParserService

/-! ## Specification-side definitions and sample inputs -/

namespace SchedulerService

/-- The decision table of the specification read with "set" as "the field has
a value" (not `null`, not missing), the reading the list filter uses. -/
def statusTable (attrs : JobAttrs) : String :=
  if attrs.lastFinishedAt.isSome then
    if attrs.failReason.isSome then "failed" else "completed"
  else if attrs.lastRunAt.isSome then "running"
  else if attrs.nextRunAt.isSome then "scheduled"
  else "queued"

/-- A message `scheduleMessage` rejects as empty: missing, empty, or made of
white space only. -/
def isBlank : Option String → Bool
  | none => true
  | some s => s.data.all isJsWhiteSpace

/-- A finished job whose recorded fail reason is the empty string. -/
def finishedWithEmptyReason : JobAttrs :=
  { _id := 1
    name := "insert-message"
    data := { message := "hello", metadata := none }
    nextRunAt := none
    lastRunAt := some 1000
    lastFinishedAt := some 2000
    failReason := some "" }

/-- An identifier codec for concrete runs: the identifier `n` is written as
`n` letters `a`, and only such strings are identifiers. -/
def unaryCodec : ObjectIdCodec :=
  { toHexString := fun n => String.mk (List.replicate n 'a')
    ofString := fun s =>
      if s.data.all (fun c => c == 'a') then .ok s.length else .error "not an identifier" }

/-- A store of three jobs for concrete runs: two scheduled jobs and one that a
poller has claimed. -/
def sampleStore : JobStore :=
  [ { _id := 1, name := "insert-message", data := { message := "first", metadata := none }
      nextRunAt := some 5000, lastRunAt := none, lastFinishedAt := none, failReason := none },
    { _id := 2, name := "insert-message", data := { message := "second", metadata := none }
      nextRunAt := some 6000, lastRunAt := none, lastFinishedAt := none, failReason := none },
    { _id := 3, name := "insert-message", data := { message := "third", metadata := none }
      nextRunAt := some 7000, lastRunAt := some 7001, lastFinishedAt := none,
      failReason := none } ]

end SchedulerService

namespace FileParserService

/-- Position of a status on the path pending, processing, terminal. -/
def statusRank (status : String) : Nat :=
  if status = "pending" then 0 else if status = "processing" then 1 else 2

/-- An import step that accepts every row: the entity store is the number of
policies created. -/
def acceptEveryRow (_row : String) (db : Nat) : Nat × Option String :=
  (db + 1, none)

end FileParserService

/-! ## Entity store: models and repositories

The Mongoose models are described by what `save` does with a candidate
document: the schema setters (`trim`, `lowercase`) are applied, the schema
validators (`required`, `enum`, `min`, casting) are run, then the `pre('save')`
hooks, then the insert, which a unique index can refuse.  Setters are applied to
the values of a query filter as well.  The text of a library error is
shortened to its first words.
-/

namespace Store

/-- A JavaScript number as the service meets it: `undefined` for a missing
property, NaN, or a finite value. -/
inductive JsNumber where
  | undefined
  | nan
  | finite (v : ℚ)
deriving DecidableEq, Repr

/-- The comparison `x <= 0`: `undefined` becomes NaN, and a comparison with
NaN is false. -/
def JsNumber.leZero : JsNumber → Bool
  | .finite v => decide (v ≤ 0)
  | _ => false

/-- A value handed to `new Date(...)`: a missing property, a string, or a
`Date` object. -/
inductive DateInput where
  | undefined
  | text (s : String)
  | date (t : DateValue)
deriving DecidableEq, Repr

/-- The built-in functions of the runtime the pipeline calls on strings. -/
structure Builtins where
  parseFloat : String → JsNumber
  parseDate : String → DateValue
  toLowerCase : String → String

/-- The constructor call `new Date(value)`. -/
def newDate (b : Builtins) : DateInput → DateValue
  | .undefined => none
  | .text s => b.parseDate s
  | .date t => t

/-- The expression `a || b` on two values that are strings or missing. -/
def jsOr (a c : Option String) : Option String :=
  if truthyString a then a else c

/-- A document of the Agent, PolicyCategory or PolicyCarrier collection: its
identifier and its key field (`name`, `categoryName`, `companyName`). -/
structure Entity where
  _id : Nat
  name : String
deriving DecidableEq, Repr

/-- A document of the User collection. -/
structure User where
  _id : Nat
  name : String
  email : String
  gender : Option String
deriving DecidableEq, Repr

/-- A document of the Policy collection. -/
structure Policy where
  _id : Nat
  policyNumber : String
  policyMode : String
  producer : String
  premiumAmount : ℚ
  policyType : String
  csr : Option String
  startDate : Int
  endDate : Int
  agent : Nat
  user : Nat
  policyCategory : Nat
  policyCarrier : Nat
deriving DecidableEq, Repr

/-- The entity store: the five collections in insertion order and the next
identifier the store hands out. -/
structure Db where
  agents : List Entity
  users : List User
  categories : List Entity
  carriers : List Entity
  policies : List Policy
  nextId : Nat
deriving DecidableEq, Repr

/-- A `required`, trimmed string path: the value stored, or `none` when
validation fails (missing, or empty once trimmed). -/
def requiredString (v : Option String) : Option String :=
  match v with
  | none => none
  | some s => if jsTrim s == "" then none else some (jsTrim s)

/-- The call `Model.findOne({key: value})` on a collection keyed by a trimmed
string: the first document whose key is the trimmed value; a missing value is
sent as `null` and matches no document. -/
def findOneByKey (coll : List Entity) (key : Option String) : Option Entity :=
  match key with
  | none => none
  | some k => coll.find? fun e => e.name == jsTrim k

/-- The call `new Model({key}).save()` on such a collection: the store of
identifiers and the collection afterwards, and the document or the validation
error, whose text starts with `label`. -/
def saveKeyed (label : String) (nextId : Nat) (coll : List Entity) (key : Option String) :
    (Nat × List Entity) × Except String Entity :=
  match requiredString key with
  | none => ((nextId, coll), .error (label ++ " validation failed"))
  | some k => ((nextId + 1, coll ++ [{ _id := nextId, name := k }]), .ok { _id := nextId, name := k })

end Store

namespace AgentRepository

open Store

/-- Source function `AgentRepository.findByName`. -/
def findByName (db : Db) (name : Option String) : Option Entity :=
  findOneByKey db.agents name

/-- Source function `AgentRepository.create` with `{ name }`. -/
def create (db : Db) (name : Option String) : Db × Except String Entity :=
  let saved := saveKeyed "Agent" db.nextId db.agents name
  ({ db with nextId := saved.1.1, agents := saved.1.2 }, saved.2)

/-- Source function `AgentRepository.findOrCreate`. -/
def findOrCreate (db : Db) (name : Option String) : Db × Except String Entity :=
  match findByName db name with
  | some agent => (db, .ok agent)
  | none => create db name

end AgentRepository

namespace PolicyCategoryRepository

open Store

/-- Source function `PolicyCategoryRepository.findByCategoryName`. -/
def findByCategoryName (db : Db) (categoryName : Option String) : Option Entity :=
  findOneByKey db.categories categoryName

/-- Modelled from the spec: `models/PolicyCategory.js` is missing; the
category is a business entity resolved by its natural key, taken here with the
schema of `Agent` (a required, trimmed key).  Source function
`PolicyCategoryRepository.create` with `{ categoryName }`. -/
def create (db : Db) (categoryName : Option String) : Db × Except String Entity :=
  let saved := saveKeyed "PolicyCategory" db.nextId db.categories categoryName
  ({ db with nextId := saved.1.1, categories := saved.1.2 }, saved.2)

/-- Source function `PolicyCategoryRepository.findOrCreate`. -/
def findOrCreate (db : Db) (categoryName : Option String) : Db × Except String Entity :=
  match findByCategoryName db categoryName with
  | some category => (db, .ok category)
  | none => create db categoryName

end PolicyCategoryRepository

namespace PolicyCarrierRepository

open Store

/-- Source function `PolicyCarrierRepository.findByCompanyName`. -/
def findByCompanyName (db : Db) (companyName : Option String) : Option Entity :=
  findOneByKey db.carriers companyName

/-- Modelled from the spec: `models/PolicyCarrier.js` is missing; the carrier
is a business entity resolved by its natural key, taken here with the schema
of `Agent` (a required, trimmed key).  Source function
`PolicyCarrierRepository.create` with `{ companyName }`. -/
def create (db : Db) (companyName : Option String) : Db × Except String Entity :=
  let saved := saveKeyed "PolicyCarrier" db.nextId db.carriers companyName
  ({ db with nextId := saved.1.1, carriers := saved.1.2 }, saved.2)

/-- Source function `PolicyCarrierRepository.findOrCreate`. -/
def findOrCreate (db : Db) (companyName : Option String) : Db × Except String Entity :=
  match findByCompanyName db companyName with
  | some carrier => (db, .ok carrier)
  | none => create db companyName

end PolicyCarrierRepository

namespace UserRepository

open Store

/-- The object handed to `UserRepository.create` and `findOrCreate`. -/
structure UserData where
  name : Option String
  email : Option String
  gender : Option String
deriving DecidableEq, Repr

/-- The setters of the `email` path, in the order the schema declares them:
`trim`, then `lowercase`. -/
def emailSetter (b : Builtins) (s : String) : String :=
  b.toLowerCase (jsTrim s)

/-- Source function `UserRepository.findByEmail`: `email.toLowerCase()` throws
a TypeError on a missing email. -/
def findByEmail (b : Builtins) (db : Db) (email : Option String) : Except String (Option User) :=
  match email with
  | none => .error "Cannot read properties of undefined (reading 'toLowerCase')"
  | some e => .ok (db.users.find? fun u => u.email == emailSetter b (b.toLowerCase e))

/-- The validators of the User schema on a candidate document: `name` and
`email` required, `gender` one of the enumerated values or missing. -/
def validate (b : Builtins) (userData : UserData) : Option (String × String × Option String) :=
  match requiredString userData.name, userData.email with
  | some name, some e =>
    if emailSetter b e == "" then none
    else
      match userData.gender with
      | none => some (name, emailSetter b e, none)
      | some g =>
        if g == "Male" || g == "Female" || g == "" then some (name, emailSetter b e, some g)
        else none
  | _, _ => none

/-- Source function `UserRepository.create`: validation, then the insert,
which the unique index on `email` refuses for an email already stored. -/
def create (b : Builtins) (db : Db) (userData : UserData) : Db × Except String User :=
  match validate b userData with
  | none => (db, .error "User validation failed")
  | some (name, email, gender) =>
    if db.users.any fun u => u.email == email then
      (db, .error "E11000 duplicate key error")
    else
      let user : User := { _id := db.nextId, name := name, email := email, gender := gender }
      ({ db with nextId := db.nextId + 1, users := db.users ++ [user] }, .ok user)

/-- Source function `UserRepository.findOrCreate`. -/
def findOrCreate (b : Builtins) (db : Db) (userData : UserData) : Db × Except String User :=
  match findByEmail b db userData.email with
  | .error e => (db, .error e)
  | .ok (some user) => (db, .ok user)
  | .ok none => create b db userData

end UserRepository

namespace PolicyRepository

open Store

/-- The object handed to `PolicyRepository.create`: the dates are `Date`
objects, the four references are identifiers of stored entities. -/
structure PolicyInput where
  policyNumber : Option String
  policyMode : Option String
  producer : Option String
  premiumAmount : JsNumber
  policyType : Option String
  csr : Option String
  startDate : DateValue
  endDate : DateValue
  agent : Nat
  user : Nat
  policyCategory : Nat
  policyCarrier : Nat
deriving DecidableEq, Repr

/-- The validators of the Policy schema on a candidate document, which gets
the identifier `id`: the required trimmed strings, a premium that is a number
(`required`, and NaN does not cast) and at least 0 (`min: 0`), and two dates
that are valid. -/
def validate (id : Nat) (data : PolicyInput) : Option Policy :=
  match requiredString data.policyNumber, requiredString data.policyMode,
    requiredString data.producer, data.premiumAmount, requiredString data.policyType,
    data.startDate, data.endDate with
  | some policyNumber, some policyMode, some producer, .finite premium, some policyType,
    some startDate, some endDate =>
    if premium < 0 then none
    else
      some
        { _id := id
          policyNumber := policyNumber
          policyMode := policyMode
          producer := producer
          premiumAmount := premium
          policyType := policyType
          csr := data.csr.map jsTrim
          startDate := startDate
          endDate := endDate
          agent := data.agent
          user := data.user
          policyCategory := data.policyCategory
          policyCarrier := data.policyCarrier }
  | _, _, _, _, _, _, _ => none

/-- The hook `policySchema.pre('save')`: the error it passes to `next`, if
any. -/
def preSave (policy : Policy) : Option String :=
  if dateLe (some policy.endDate) (some policy.startDate) then
    some "End date must be after start date"
  else none

/-- Source function `PolicyRepository.create`: `new Policy(data).save()` runs
the validators, then the `pre('save')` hook, then the insert, which the
unique index on `policyNumber` refuses for a number already stored. -/
def create (db : Db) (data : PolicyInput) : Db × Except String Policy :=
  match validate db.nextId data with
  | none => (db, .error "Policy validation failed")
  | some policy =>
    match preSave policy with
    | some message => (db, .error message)
    | none =>
      if db.policies.any fun p => p.policyNumber == policy.policyNumber then
        (db, .error "E11000 duplicate key error")
      else
        ({ db with nextId := db.nextId + 1, policies := db.policies ++ [policy] }, .ok policy)

/-- One document of `Policy.insertMany(policies, { ordered: false })`: a
candidate that fails validation is left out, `save` hooks are not run, and a
duplicate policy number is refused by the unique index and counted. -/
def insertOne (acc : Db × Nat × Nat) (data : PolicyInput) : Db × Nat × Nat :=
  match validate acc.1.nextId data with
  | none => acc
  | some policy =>
    if acc.1.policies.any fun p => p.policyNumber == policy.policyNumber then
      (acc.1, acc.2.1, acc.2.2 + 1)
    else
      ({ acc.1 with nextId := acc.1.nextId + 1, policies := acc.1.policies ++ [policy] },
        acc.2.1 + 1, acc.2.2)

/-- Source function `PolicyRepository.bulkCreate`: the store afterwards and
`{ insertedCount }`, or the bulk write error when the index refused a
document. -/
def bulkCreate (db : Db) (policies : List PolicyInput) : Db × Except String Nat :=
  let done := policies.foldl insertOne (db, 0, 0)
  if done.2.2 = 0 then (done.1, .ok done.2.1)
  else (done.1, .error "E11000 duplicate key error")

end PolicyRepository

namespace PolicyService

open Store

/-- The object handed to `createPolicy`: every property is a string or
missing, except the premium (a number or missing) and the two dates (anything
`new Date` takes). -/
structure PolicyData where
  agentName : Option String
  userName : Option String
  userEmail : Option String
  gender : Option String
  policyMode : Option String
  producer : Option String
  policyNumber : Option String
  premiumAmount : JsNumber
  policyType : Option String
  companyName : Option String
  categoryName : Option String
  startDate : DateInput
  endDate : DateInput
  csr : Option String
deriving DecidableEq, Repr

/-- Source function `PolicyService.createPolicy`: the store afterwards and the
policy created, or the message of the error thrown. -/
def createPolicy (b : Builtins) (db : Db) (policyData : PolicyData) : Db × Except String Policy :=
  if policyData.premiumAmount.leZero then
    (db, .error "Premium amount must be positive")
  else
    let startDate := newDate b policyData.startDate
    let endDate := newDate b policyData.endDate
    if dateLe endDate startDate then
      (db, .error "End date must be after start date")
    else
      match AgentRepository.findOrCreate db policyData.agentName with
      | (db1, .error e) => (db1, .error e)
      | (db1, .ok agent) =>
        match UserRepository.findOrCreate b db1
            { name := jsOr policyData.userName policyData.userEmail
              email := policyData.userEmail
              gender := policyData.gender } with
        | (db2, .error e) => (db2, .error e)
        | (db2, .ok user) =>
          match PolicyCategoryRepository.findOrCreate db2 policyData.categoryName with
          | (db3, .error e) => (db3, .error e)
          | (db3, .ok category) =>
            match PolicyCarrierRepository.findOrCreate db3 policyData.companyName with
            | (db4, .error e) => (db4, .error e)
            | (db4, .ok carrier) =>
              PolicyRepository.create db4
                { policyNumber := policyData.policyNumber
                  policyMode := policyData.policyMode
                  producer := policyData.producer
                  premiumAmount := policyData.premiumAmount
                  policyType := policyData.policyType
                  csr := policyData.csr
                  startDate := startDate
                  endDate := endDate
                  agent := agent._id
                  user := user._id
                  policyCategory := category._id
                  policyCarrier := carrier._id }

/-- A parsed row: the cells of one line under the header names of the file. -/
abbrev Row := List (String × String)

/-- Reading the property `key` of a row: `none` when the row has no such
property. -/
def Row.get (row : Row) (key : String) : Option String :=
  (row.find? fun cell => cell.1 == key).map Prod.snd

/-- The argument of `parseFloat` in the import loop,
`row.premium_amount_written || row.premium_amount || 0`, parsed: the number 0
when both properties are missing or empty. -/
def rowPremium (b : Builtins) (row : Row) : JsNumber :=
  match jsOr (row.get "premium_amount_written") (row.get "premium_amount") with
  | some s => if truthyString (some s) then b.parseFloat s else .finite 0
  | none => .finite 0

/-- The expression `row[key] || new Date()` at time `now`. -/
def rowDate (row : Row) (key : String) (now : Int) : DateInput :=
  match row.get key with
  | some s => if truthyString (some s) then .text s else .date (some now)
  | none => .date (some now)

/-- The object the import loop builds from a row for `createPolicy`; the two
calls of `new Date()` happen at `nowStart` and `nowEnd`. -/
def rowPolicyData (b : Builtins) (nowStart nowEnd : Int) (row : Row) : PolicyData :=
  { agentName := jsOr (row.get "agent") (some "Unknown Agent")
    userName := jsOr (jsOr (row.get "firstname") (row.get "account_name")) (some "Unknown User")
    userEmail := jsOr (row.get "email") (some "")
    gender := jsOr (row.get "gender") (some "")
    policyMode := jsOr (row.get "policy_mode") (some "Standard")
    producer := jsOr (jsOr (row.get "producer") (row.get "agent")) (some "Unknown Producer")
    policyNumber := jsOr (row.get "policy_number") (some "")
    premiumAmount := rowPremium b row
    policyType := jsOr (row.get "policy_type") (some "Individual")
    companyName := jsOr (row.get "company_name") (some "Unknown Company")
    categoryName := jsOr (row.get "category_name") (some "General")
    startDate := rowDate row "policy_start_date" nowStart
    endDate := rowDate row "policy_end_date" nowEnd
    csr := jsOr (row.get "csr") (some "") }

/-- The body of the `try` of the import loop for one row: the store
afterwards and the message of the error caught, if any. -/
def createFromRow (b : Builtins) (nowStart nowEnd : Int) (row : Row) (db : Db) :
    Db × Option String :=
  match createPolicy b db (rowPolicyData b nowStart nowEnd row) with
  | (db', .ok _) => (db', none)
  | (db', .error message) => (db', some message)

end PolicyService

/-! ## Sample inputs of the import pipeline -/

namespace PolicyService

open Store

/-- One turn of the loop of `importPoliciesFromData`, as a function of the
store and summary so far. -/
def importStep {ρ σ : Type} (createFromRow : ρ → σ → σ × Option String)
    (acc : σ × ImportResults ρ) (row : ρ) : σ × ImportResults ρ :=
  match createFromRow row acc.1 with
  | (db', none) => (db', { acc.2 with imported := acc.2.imported + 1 })
  | (db', some message) =>
    (db', { acc.2 with
              failed := acc.2.failed + 1
              errors := acc.2.errors ++ [{ row := row, error := message }] })

/-- Value of a decimal digit. -/
def digitValue (c : Char) : Option Nat :=
  if '0' ≤ c ∧ c ≤ '9' then some (c.toNat - '0'.toNat) else none

/-- Value of a string of decimal digits. -/
def digitsValue (cs : List Char) : Option Nat :=
  cs.foldl
    (fun acc c =>
      match acc, digitValue c with
      | some n, some d => some (10 * n + d)
      | _, _ => none)
    (some 0)

/-- Days from 1970-01-01 to a date of the proleptic Gregorian calendar. -/
def daysFromCivil (y m d : Int) : Int :=
  let y' := if m ≤ 2 then y - 1 else y
  let era := y' / 400
  let yoe := y' - era * 400
  let mp := if m > 2 then m - 3 else m + 9
  let doy := (153 * mp + 2) / 5 + d - 1
  let doe := yoe * 365 + yoe / 4 - yoe / 100 + doy
  era * 146097 + doe - 719468

/-- Number of days of a month. -/
def daysInMonth (y m : Nat) : Nat :=
  if m = 2 then (if (y % 4 = 0 ∧ y % 100 ≠ 0) ∨ y % 400 = 0 then 29 else 28)
  else if m = 4 ∨ m = 6 ∨ m = 9 ∨ m = 11 then 30 else 31

/-- The time value of `new Date(s)` for a string of the form `YYYY-MM-DD`
naming a day of the calendar (midnight UTC); other strings are not handled
and give an Invalid Date here. -/
def isoParseDate (s : String) : DateValue :=
  match s.data with
  | [y1, y2, y3, y4, '-', m1, m2, '-', d1, d2] =>
    match digitsValue [y1, y2, y3, y4], digitsValue [m1, m2], digitsValue [d1, d2] with
    | some y, some m, some d =>
      if 1 ≤ m ∧ m ≤ 12 ∧ 1 ≤ d ∧ d ≤ daysInMonth y m then
        some (daysFromCivil y m d * 86400000)
      else none
    | _, _, _ => none
  | _ => none

/-- The value of `parseFloat(s)` for a string of decimal digits with an
optional minus sign; other strings are not handled and give NaN here. -/
def decimalParseFloat (s : String) : JsNumber :=
  match s.data with
  | [] => .nan
  | '-' :: cs =>
    if cs = [] then .nan
    else
      match digitsValue cs with
      | some n => .finite (-(n : ℚ))
      | none => .nan
  | cs =>
    match digitsValue cs with
    | some n => .finite (n : ℚ)
    | none => .nan

/-- Built-ins for concrete runs: they agree with the runtime on decimal
integers, on `YYYY-MM-DD` dates and on ASCII text. -/
def sampleBuiltins : Builtins :=
  { parseFloat := decimalParseFloat
    parseDate := isoParseDate
    toLowerCase := fun s => String.mk (s.data.map Char.toLower) }

/-- An empty entity store. -/
def emptyDb : Db :=
  { agents := [], users := [], categories := [], carriers := [], policies := [], nextId := 1 }

/-- The header names of the files the tests parse. -/
def headerNames : List String :=
  ["Agent", "User", "Email", "Gender", "Policy Mode", "Producer", "Policy Number",
    "Premium Amount", "Policy Type", "Company", "Category", "Start Date", "End Date", "CSR"]

/-- The batch of the unit test `should handle partial failures gracefully`:
a complete row and a row with only a policy number. -/
def partialFailureBatch : List Row :=
  [ [ ("Agent", "Valid Agent"), ("User", "Valid User"), ("Email", "valid@example.com"),
      ("Policy Mode", "Online"), ("Producer", "Producer"), ("Policy Number", "POL-VALID"),
      ("Premium Amount", "1000"), ("Policy Type", "Auto"), ("Company", "Valid Company"),
      ("Category", "Valid Category"), ("Start Date", "2024-01-01"),
      ("End Date", "2025-01-01") ],
    [ ("Policy Number", "POL-INVALID") ] ]

/-- The batch of the unit test `should import multiple policies from parsed
data`. -/
def importBatch : List Row :=
  [ [ ("Agent", "John Doe"), ("User", "Alice Smith"), ("Email", "alice@import.com"),
      ("Gender", "Female"), ("Policy Mode", "Online"), ("Producer", "Producer A"),
      ("Policy Number", "POL-IMPORT-1"), ("Premium Amount", "1500"), ("Policy Type", "Auto"),
      ("Company", "ABC Insurance"), ("Category", "Vehicle"), ("Start Date", "2024-01-01"),
      ("End Date", "2025-01-01"), ("CSR", "High") ],
    [ ("Agent", "Jane Smith"), ("User", "Bob Williams"), ("Email", "bob@import.com"),
      ("Gender", "Male"), ("Policy Mode", "Offline"), ("Producer", "Producer B"),
      ("Policy Number", "POL-IMPORT-2"), ("Premium Amount", "2000"), ("Policy Type", "Home"),
      ("Company", "XYZ Insurance"), ("Category", "Property"), ("Start Date", "2024-02-01"),
      ("End Date", "2025-02-01"), ("CSR", "Medium") ] ]

/-- The first row of `partialFailureBatch` under the property names that
the loop of the import reads. -/
def validRow : Row :=
  [ ("agent", "Valid Agent"), ("firstname", "Valid User"), ("email", "valid@example.com"),
    ("policy_mode", "Online"), ("producer", "Producer"), ("policy_number", "POL-VALID"),
    ("premium_amount", "1000"), ("policy_type", "Auto"), ("company_name", "Valid Company"),
    ("category_name", "Valid Category"), ("policy_start_date", "2024-01-01"),
    ("policy_end_date", "2025-01-01") ]

/-- The input of the unit test `should create a policy with valid data`
without its premium. -/
def missingPremiumData : PolicyData :=
  { agentName := some "Test Agent"
    userName := none
    userEmail := some "test@example.com"
    gender := none
    policyMode := some "Online"
    producer := some "Test Producer"
    policyNumber := some "POL-SERVICE-001"
    premiumAmount := .undefined
    policyType := some "Auto"
    companyName := some "Test Carrier"
    categoryName := some "Test Category"
    startDate := .text "2024-01-01"
    endDate := .text "2025-01-01"
    csr := some "High" }

/-- A policy document whose end date is a year before its start date, valid
for the schema. -/
def reversedDatesInput : PolicyRepository.PolicyInput :=
  { policyNumber := some "POL-BULK-1"
    policyMode := some "Online"
    producer := some "Producer"
    premiumAmount := .finite 1000
    policyType := some "Auto"
    csr := none
    startDate := some 1735689600000
    endDate := some 1704067200000
    agent := 1
    user := 2
    policyCategory := 3
    policyCarrier := 4 }

end PolicyService

/-! ## FileParserService with an import call that may raise -/

namespace FileParserService

open PolicyService

/-- The assignments of `_processJob` after `parseFile` has settled, for any
behaviour of the call `await PolicyService.importPoliciesFromData(result.data)`
inside the `try`: `importer` gives the store afterwards and the summary, or the
message of the error the call raised, which the `catch` records like any
other. -/
def settleAssignmentsWith {ρ σ : Type}
    (importer : List ρ → σ → σ × Except String (ImportResults ρ))
    (outcome : ParseOutcome ρ) (finishedAt : Int) (db : σ) :
    σ × List (ParseJob ρ → ParseJob ρ) :=
  match outcome with
  | .unsettled => (db, [])
  | .resolved (.success data) =>
    match importer data db with
    | (db', .ok importResult) =>
      (db',
        [ fun job => { job with status := "completed" },
          fun job => { job with recordsProcessed := getProperty importResult "successful" },
          fun job => { job with recordsFailed := getProperty importResult "failed" },
          fun job => { job with errors := getProperty importResult "errors" },
          fun job => { job with completedAt := some finishedAt } ])
    | (db', .error message) =>
      (db',
        [ fun job => { job with status := "failed" },
          fun job => { job with error := some message },
          fun job => { job with completedAt := some finishedAt } ])
  | .resolved (.failure error) =>
    (db,
      [ fun job => { job with status := "failed" },
        fun job => { job with error := some error },
        fun job => { job with completedAt := some finishedAt } ])
  | .rejected message =>
    (db,
      [ fun job => { job with status := "failed" },
        fun job => { job with error := some message },
        fun job => { job with completedAt := some finishedAt } ])

/-- The function `_processJobResume` for any behaviour of the import call. -/
def _processJobResumeWith {ρ σ : Type}
    (importer : List ρ → σ → σ × Except String (ImportResults ρ))
    (outcome : ParseOutcome ρ) (finishedAt : Int) (jobs : JobMap ρ) (jobId : String)
    (db : σ) : JobMap ρ × σ :=
  match jobsGet jobs jobId with
  | none => (jobs, db)
  | some job =>
    let settled := settleAssignmentsWith importer outcome finishedAt db
    (jobsSet jobs jobId (settled.2.foldl (fun j assign => assign j) job), settled.1)

/-- The import call of the source: `importPoliciesFromData`, which returns. -/
def sourceImporter {ρ σ : Type} (createFromRow : ρ → σ → σ × Option String)
    (data : List ρ) (db : σ) : σ × Except String (ImportResults ρ) :=
  ((importPoliciesFromData createFromRow data db).1,
    .ok (importPoliciesFromData createFromRow data db).2)

/-- The error text `_processJob` captures: the `error` of a failure message,
the message of the error `parseFile` rejected with, or the message of the
error the import call raised; `none` when the job does not fail. -/
def capturedError {ρ σ : Type} (importer : List ρ → σ → σ × Except String (ImportResults ρ))
    (outcome : ParseOutcome ρ) (db : σ) : Option String :=
  match outcome with
  | .unsettled => none
  | .resolved (.failure error) => some error
  | .rejected message => some message
  | .resolved (.success data) =>
    match (importer data db).2 with
    | .ok _ => none
    | .error message => some message

/-- An import call that raises on every batch. -/
def raisingImporter (data : List String) (db : Nat) : Nat × Except String (ImportResults String) :=
  (db + data.length, .error "data is not iterable")

end FileParserService

/-! ## MasterProcess: the worker supervisor

The supervisor is driven by events: calls of its methods, the delivery of a
child's `exit` event, and the firing of an interval.  A child process is named
by its position in the order of forking.  The listeners of a child's `exit`
event are kept in the order they were registered, the order in which the
event emitter calls them.
-/

namespace MasterProcess

/-- A listener of a child's `exit` event. -/
inductive ExitListener where
  /-- Registered by `startWorker` with `on`: logs and calls `stopMonitoring`. -/
  | stopMonitoring
  /-- Registered by `restartWorker` with `once`: calls `startWorker`, then
  resolves the promise of that call. -/
  | restart (promise : Nat)
deriving DecidableEq, Repr

/-- Whether a listener is one `restartWorker` registered. -/
def ExitListener.isRestart : ExitListener → Bool
  | .stopMonitoring => false
  | .restart _ => true

/-- A child process object: its pid, whether `kill` has signalled it, whether
its `exit` event has been emitted, and the listeners of that event. -/
structure Worker where
  pid : Option Nat
  killed : Bool
  exited : Bool
  exitListeners : List ExitListener
deriving DecidableEq, Repr

/-- The supervisor and its surroundings: the children forked so far,
`this.worker`, `this.monitoringInterval`, the intervals set and not cleared,
the promises of `restartWorker` resolved so far, and the number of CPU samples
asked of `pidusage`. -/
structure State where
  children : List Worker
  worker : Option Nat
  monitoringInterval : Option Nat
  liveTimers : List Nat
  nextTimer : Nat
  nextPromise : Nat
  resolved : List Nat
  samples : Nat
deriving DecidableEq, Repr

/-- The supervisor after its constructor. -/
def initial : State :=
  { children := [], worker := none, monitoringInterval := none, liveTimers := [],
    nextTimer := 0, nextPromise := 0, resolved := [], samples := 0 }

/-- Change the element at a position of a list. -/
def modifyAt {α : Type} (f : α → α) : Nat → List α → List α
  | _, [] => []
  | 0, x :: xs => f x :: xs
  | n + 1, x :: xs => x :: modifyAt f n xs

/-- Source function `MasterProcess.startMonitoring`: a new interval is set and
kept in `monitoringInterval`; an interval already there is not cleared. -/
def startMonitoring (s : State) : State :=
  { s with
    monitoringInterval := some s.nextTimer
    liveTimers := s.liveTimers ++ [s.nextTimer]
    nextTimer := s.nextTimer + 1 }

/-- Source function `MasterProcess.stopMonitoring`. -/
def stopMonitoring (s : State) : State :=
  match s.monitoringInterval with
  | some timer =>
    { s with liveTimers := s.liveTimers.filter (fun t => t != timer), monitoringInterval := none }
  | none => s

/-- Source function `MasterProcess.startWorker`: the fork gives the child the
pid `pidOf` names for it. -/
def startWorker (pidOf : Nat → Option Nat) (s : State) : State :=
  startMonitoring
    { s with
      children := s.children ++
        [{ pid := pidOf s.children.length, killed := false, exited := false,
           exitListeners := [.stopMonitoring] }]
      worker := some s.children.length }

/-- The method `kill` of a child: a child whose `exit` event has been emitted
is not signalled. -/
def kill (w : Worker) : Worker :=
  if w.exited then w else { w with killed := true }

/-- Source function `MasterProcess.restartWorker`: the state after the call
and the promise it returned. -/
def restartWorker (pidOf : Nat → Option Nat) (s : State) : State × Nat :=
  match s.worker with
  | some id =>
    ({ s with
        nextPromise := s.nextPromise + 1
        children :=
          modifyAt
            (fun w => kill { w with exitListeners := w.exitListeners ++ [.restart s.nextPromise] })
            id s.children },
      s.nextPromise)
  | none =>
    let started := startWorker pidOf { s with nextPromise := s.nextPromise + 1 }
    ({ started with resolved := started.resolved ++ [s.nextPromise] }, s.nextPromise)

/-- One listener of an `exit` event being called. -/
def runExitListener (pidOf : Nat → Option Nat) (s : State) : ExitListener → State
  | .stopMonitoring => stopMonitoring s
  | .restart promise =>
    let started := startWorker pidOf s
    { started with resolved := started.resolved ++ [promise] }

/-- The delivery of the `exit` event of the child `id`: the `once` listeners
are taken off, and the listeners registered at that moment are called in
order.  A child emits the event once. -/
def exitEvent (pidOf : Nat → Option Nat) (s : State) (id : Nat) : State :=
  match s.children.get? id with
  | none => s
  | some w =>
    if w.exited then s
    else
      w.exitListeners.foldl (runExitListener pidOf)
        { s with
          children :=
            modifyAt
              (fun c =>
                { c with
                  exited := true
                  exitListeners := c.exitListeners.filter fun l => !l.isRestart })
              id s.children }

/-- The callback of `startMonitoring` when the interval `timer` fires; `sample`
is the CPU usage `pidusage` reports, or `none` when it fails. -/
def tick (pidOf : Nat → Option Nat) (threshold : ℚ) (s : State) (timer : Nat)
    (sample : Option ℚ) : State :=
  if s.liveTimers.contains timer then
    match s.worker with
    | none => s
    | some id =>
      match (s.children.get? id).bind fun w => w.pid with
      | none => s
      | some pid =>
        if pid = 0 then s
        else
          match sample with
          | none => { s with samples := s.samples + 1 }
          | some cpu =>
            if cpu ≥ threshold then
              (restartWorker pidOf { s with samples := s.samples + 1 }).1
            else { s with samples := s.samples + 1 }
  else s

/-- Source function `MasterProcess.shutdown`. -/
def shutdown (s : State) : State :=
  let stopped := stopMonitoring s
  match stopped.worker with
  | some id => { stopped with children := modifyAt kill id stopped.children }
  | none => stopped

/-- What can happen to the supervisor. -/
inductive Event where
  | startWorker
  | restartWorker
  | exit (id : Nat)
  | tick (timer : Nat) (sample : Option ℚ)
  | shutdown
deriving DecidableEq, Repr

/-- One event. -/
def step (pidOf : Nat → Option Nat) (threshold : ℚ) (s : State) : Event → State
  | .startWorker => startWorker pidOf s
  | .restartWorker => (restartWorker pidOf s).1
  | .exit id => exitEvent pidOf s id
  | .tick timer sample => tick pidOf threshold s timer sample
  | .shutdown => shutdown s

/-- A sequence of events from a state. -/
def run (pidOf : Nat → Option Nat) (threshold : ℚ) (s : State) (events : List Event) : State :=
  events.foldl (step pidOf threshold) s

/-- Number of restarts waiting for the `exit` event of a child. -/
def pendingRestarts (w : Worker) : Nat :=
  (w.exitListeners.filter fun l => l.isRestart).length

/-- The pids of concrete runs: child `id` gets pid `100 + id`. -/
def samplePid (id : Nat) : Option Nat :=
  some (100 + id)

/-- The supervisor after a start, two calls of `restartWorker` before the
exit of the first child, and that exit. -/
def afterOverlappingRestarts : State :=
  run samplePid 70 initial [.startWorker, .restartWorker, .restartWorker, .exit 0]

end MasterProcess

/-! ## The parsing worker: spreadsheets

A worksheet is given by what the spreadsheet library iterates over: `eachRow`
visits the rows that have values, in row order, and `eachCell` visits the
cells of a row that are not empty, in column order, with their column number
(columns count from 1).  Cell values are texts.
-/

namespace FileParserWorker

open PolicyService

/-- A row of a worksheet that has values: its number and its non-empty cells,
each with its column number. -/
structure SheetRow where
  number : Nat
  cells : List (Nat × String)
deriving DecidableEq, Repr

/-- The rows of a worksheet that have values, in row order. -/
abbrev Worksheet := List SheetRow

/-- The call `worksheet.getRow(1)`: the cells of the first row, none when the
row has no values. -/
def firstRowCells (sheet : Worksheet) : List (Nat × String) :=
  match sheet.find? fun row => row.number == 1 with
  | some row => row.cells
  | none => []

/-- The element `headers[colNumber - 1]` as a property key: an index outside
the array reads `undefined`, which as a key is the text `undefined`. -/
def headerKey (headers : List String) (colNumber : Nat) : String :=
  if colNumber = 0 then "undefined"
  else
    match headers.get? (colNumber - 1) with
    | some header => header
    | none => "undefined"

/-- The assignment `rowData[key] = value` on an object: a property that exists
keeps its place and takes the new value, a new one is added last. -/
def setProperty (rowData : Row) (key value : String) : Row :=
  if rowData.any fun cell => cell.1 == key then
    rowData.map fun cell => if cell.1 == key then (key, value) else cell
  else rowData ++ [(key, value)]

/-- Source function `parseXLSX` on the first worksheet of the workbook: the
headers are pushed one after the other for the non-empty cells of row 1, and
each cell of a later row is stored under `headers[colNumber - 1]`. -/
def parseXLSX (sheet : Worksheet) : List Row :=
  let headers := (firstRowCells sheet).map Prod.snd
  (sheet.filter fun row => row.number != 1).map fun row =>
    row.cells.foldl (fun rowData cell => setProperty rowData (headerKey headers cell.1) cell.2) []

/-- The worksheet of the unit test `should parse XLSX file using worker
thread`. -/
def testSheet : Worksheet :=
  [ { number := 1, cells := [(1, "Agent"), (2, "User"), (3, "Email"), (4, "Policy Number")] },
    { number := 2,
      cells := [(1, "John Doe"), (2, "Alice Smith"), (3, "alice@example.com"), (4, "POL-001")] } ]

/-- The same worksheet with the header of column 2 left empty and no value in
column 2 of the data row. -/
def gapSheet : Worksheet :=
  [ { number := 1, cells := [(1, "Agent"), (3, "Email"), (4, "Policy Number")] },
    { number := 2, cells := [(1, "John Doe"), (3, "alice@example.com"), (4, "POL-001")] } ]

end FileParserWorker

/-! ## Aggregation of a user's policies -/

namespace PolicyRepository

open Store

/-- Source function `PolicyRepository.findByUser`. -/
def findByUser (db : Db) (userId : Nat) : List Policy :=
  db.policies.filter fun p => p.user == userId

/-- The object `PolicyRepository.aggregateByUser` returns. -/
structure UserAggregate where
  totalPolicies : Nat
  totalPremium : ℚ
  policies : List Policy
deriving DecidableEq, Repr

/-- Source function `PolicyRepository.aggregateByUser`. -/
def aggregateByUser (db : Db) (userId : Nat) : UserAggregate :=
  let policies := findByUser db userId
  { totalPolicies := policies.length
    totalPremium := policies.foldl (fun sum policy => sum + policy.premiumAmount) 0
    policies := policies }

end PolicyRepository

namespace PolicyService

open Store

/-- The value of `byType[type]` that the loop fills. -/
structure TypeTotals where
  count : Nat
  totalPremium : ℚ
deriving DecidableEq, Repr

/-- The own properties of the object `byType`, in the order they were added. -/
abbrev ByType := List (String × TypeTotals)

/-- The properties every plain object inherits from `Object.prototype`: each
reads as a function or an object, which is truthy. -/
def objectPrototypeNames : List String :=
  ["constructor", "__defineGetter__", "__defineSetter__", "hasOwnProperty", "__lookupGetter__",
    "__lookupSetter__", "isPrototypeOf", "propertyIsEnumerable", "toString", "valueOf",
    "__proto__", "toLocaleString"]

/-- Whether `byType[key]` is truthy: an own property is an object, and so is
an inherited one. -/
def truthyProperty (byType : ByType) (key : String) : Bool :=
  (byType.any fun entry => entry.1 == key) || objectPrototypeNames.contains key

/-- The two updates `byType[key].count++` and `byType[key].totalPremium +=
premium`: they change the own property `key`; without an own property they
land on the inherited object and leave the own properties as they are. -/
def addToProperty (byType : ByType) (key : String) (premium : ℚ) : ByType :=
  byType.map fun entry =>
    if entry.1 == key then
      (entry.1, { count := entry.2.count + 1, totalPremium := entry.2.totalPremium + premium })
    else entry

/-- One turn of the loop `result.policies.forEach` of `aggregatePoliciesByUser`. -/
def groupByType (byType : ByType) (policy : Policy) : ByType :=
  let withProperty :=
    if !truthyProperty byType policy.policyType then
      byType ++ [(policy.policyType, { count := 0, totalPremium := 0 })]
    else byType
  addToProperty withProperty policy.policyType policy.premiumAmount

/-- The object `aggregatePoliciesByUser` returns. -/
structure PolicySummary where
  userName : String
  userEmail : String
  totalPolicies : Nat
  totalPremium : ℚ
  byType : ByType
  policies : List Policy
deriving DecidableEq, Repr

/-- Source function `PolicyService.aggregatePoliciesByUser`: the summary, or
the message of the error thrown. -/
def aggregatePoliciesByUser (b : Builtins) (db : Db) (userEmail : Option String) :
    Except String PolicySummary :=
  match UserRepository.findByEmail b db userEmail with
  | .error e => .error e
  | .ok none => .error "User not found"
  | .ok (some user) =>
    let result := PolicyRepository.aggregateByUser db user._id
    .ok
      { userName := user.name
        userEmail := user.email
        totalPolicies := result.totalPolicies
        totalPremium := result.totalPremium
        byType := result.policies.foldl groupByType []
        policies := result.policies }

/-- Reading the own property `key` of `byType`. -/
def ownProperty (byType : ByType) (key : String) : Option TypeTotals :=
  (byType.find? fun entry => entry.1 == key).map Prod.snd

/-- The totals the policies of type `key` among `policies` should give: their
number and the sum of their premiums. -/
def typeTotals (policies : List Policy) (key : String) : TypeTotals :=
  { count := (policies.filter fun p => p.policyType == key).length
    totalPremium := ((policies.filter fun p => p.policyType == key).map fun p => p.premiumAmount).sum }

/-- A policy of the user 2 for concrete runs. -/
def samplePolicy (id : Nat) (policyNumber policyType : String) (premium : ℚ) : Policy :=
  { _id := id, policyNumber := policyNumber, policyMode := "Online", producer := "Producer",
    premiumAmount := premium, policyType := policyType, csr := none,
    startDate := 1704067200000, endDate := 1735689600000,
    agent := 1, user := 2, policyCategory := 3, policyCarrier := 4 }

/-- The store of the aggregation tests: the user `test@example.com` with an
Auto policy of 1000 and a Home policy of 1500. -/
def aggregateDb : Db :=
  { agents := [{ _id := 1, name := "Test Agent" }]
    users := [{ _id := 2, name := "Test User", email := "test@example.com", gender := none }]
    categories := [{ _id := 3, name := "Test Category" }]
    carriers := [{ _id := 4, name := "Test Carrier" }]
    policies := [samplePolicy 5 "POL-AGG-1" "Auto" 1000, samplePolicy 6 "POL-AGG-2" "Home" 1500]
    nextId := 7 }

/-- The same store with one more policy of the user, whose policy type is the
text `constructor`. -/
def constructorTypeDb : Db :=
  { aggregateDb with
    policies := aggregateDb.policies ++ [samplePolicy 7 "POL-AGG-3" "constructor" 500]
    nextId := 8 }

/-- The input of the unit test `should create a policy with valid data` with
the premium of the test `should throw error for negative premium`. -/
def negativePremiumData : PolicyData :=
  { missingPremiumData with premiumAmount := .finite (-100) }

/-- The same input with a premium of 1000 and the dates of the test `should
throw error when end date is before start date`. -/
def reversedDatesData : PolicyData :=
  { missingPremiumData with
    premiumAmount := .finite 1000
    startDate := .text "2025-01-01"
    endDate := .text "2024-01-01" }

/-- The error entries `importPoliciesFromData` should return for `data` from
the store `db`: one for each row whose attempt fails, in the order of the rows,
each attempt made on the store the earlier attempts left. -/
def failures {ρ σ : Type} (createFromRow : ρ → σ → σ × Option String) :
    List ρ → σ → List (RowError ρ)
  | [], _ => []
  | row :: rest, db =>
    match createFromRow row db with
    | (db', none) => failures createFromRow rest db'
    | (db', some message) => { row := row, error := message } :: failures createFromRow rest db'

end PolicyService

/-! ## MasterProcess: promises waiting for an exit -/

namespace MasterProcess

/-- The promise `p` of a restart waits for the exit of child `id`: it is not
resolved, it is older than the next promise, and no child but `id` has its
listener. -/
def awaitsExit (p id : Nat) (t : State) : Prop :=
  p ∉ t.resolved ∧ p < t.nextPromise ∧
    ∀ j c, t.children.get? j = some c → ExitListener.restart p ∈ c.exitListeners → j = id

/-- The child `id` has not exited and the listener of the promise `p` is
registered on its `exit` event. -/
def listensFor (p id : Nat) (t : State) : Prop :=
  ∃ c, t.children.get? id = some c ∧ c.exited = false ∧
    ExitListener.restart p ∈ c.exitListeners

/-- The child `id` has emitted its `exit` event. -/
def hasExited (id : Nat) (t : State) : Prop :=
  ∃ c, t.children.get? id = some c ∧ c.exited = true

/-- The supervisor after a start, a call of `restartWorker` and a call of
`shutdown`, the first child not yet exited. -/
def shutdownDuringRestart : State :=
  run samplePid 70 initial [.startWorker, .restartWorker, .shutdown]

/-- The supervisor after a start and the exit of its only child. -/
def afterUnexpectedExit : State :=
  run samplePid 70 initial [.startWorker, .exit 0]

end MasterProcess

/-! ## Properties of SchedulerService -/

namespace SchedulerService

theorem all_of_all_dropWhile (p : Char → Bool) (l : List Char)
    (h : ∀ c ∈ l.dropWhile p, p c = true) : ∀ c ∈ l, p c = true := by
  induction l with
  | nil => simp
  | cons a l ih =>
    by_cases ha : p a = true
    · simp only [List.dropWhile_cons, ha, if_true] at h
      intro c hc
      rcases List.mem_cons.mp hc with rfl | hc
      · exact ha
      · exact ih h c hc
    · simp only [List.dropWhile_cons, ha] at h
      exact h

theorem jsTrim_eq_empty_iff (s : String) :
    jsTrim s = "" ↔ ∀ c ∈ s.data, isJsWhiteSpace c = true := by
  unfold jsTrim
  constructor
  · intro h
    have h1 : ((s.data.dropWhile isJsWhiteSpace).reverse.dropWhile isJsWhiteSpace).reverse = [] := by
      have := congrArg String.data h
      simpa using this
    have h2 : (s.data.dropWhile isJsWhiteSpace).reverse.dropWhile isJsWhiteSpace = [] := by
      simpa using h1
    have h3 : ∀ c ∈ (s.data.dropWhile isJsWhiteSpace).reverse, isJsWhiteSpace c = true :=
      List.dropWhile_eq_nil_iff.mp h2
    apply all_of_all_dropWhile
    intro c hc
    exact h3 c (List.mem_reverse.mpr hc)
  · intro h
    have h1 : s.data.dropWhile isJsWhiteSpace = [] := List.dropWhile_eq_nil_iff.mpr h
    rw [h1]
    rfl

theorem rejects_empty_iff (message : String) :
    (!truthyString (some message) || jsTrim message == "") = isBlank (some message) := by
  have h := jsTrim_eq_empty_iff message
  by_cases hb : isBlank (some message) = true
  · have hall : ∀ c ∈ message.data, isJsWhiteSpace c = true := by
      simpa [isBlank] using hb
    have := h.mpr hall
    simp [hb, this]
  · have hnall : ¬ ∀ c ∈ message.data, isJsWhiteSpace c = true := by
      simpa [isBlank] using hb
    have hne : jsTrim message ≠ "" := fun e => hnall (h.mp e)
    have hne2 : message ≠ "" := by
      rintro rfl
      exact hnall (by simp)
    simp [hb, hne, hne2, truthyString]

/-- C1, as stated, fails: for a job whose lastFinishedAt and failReason both
have a value, the fail reason being the empty string, the table gives
`failed` and `_getJobStatus` returns `completed`. -/
theorem getJobStatus_table_counterexample :
    finishedWithEmptyReason.lastFinishedAt ≠ none ∧
    finishedWithEmptyReason.failReason ≠ none ∧
    statusTable finishedWithEmptyReason = "failed" ∧
    _getJobStatus finishedWithEmptyReason = "completed" := by
  refine ⟨by decide, by decide, by decide, by decide⟩

/-- C1, amended: `_getJobStatus` follows the decision table with a fail reason
counted as set only when it is a non-empty string: `failed` when
lastFinishedAt is set and failReason is a non-empty string, `completed` when
lastFinishedAt is set and failReason is missing or empty, otherwise `running`
when lastRunAt is set, otherwise `scheduled` when nextRunAt is set, otherwise
`queued`. -/
theorem getJobStatus_decision_table (attrs : JobAttrs) :
    _getJobStatus attrs =
      match attrs.lastFinishedAt, attrs.failReason, attrs.lastRunAt, attrs.nextRunAt with
      | some _, some reason, _, _ => if reason = "" then "completed" else "failed"
      | some _, none, _, _ => "completed"
      | none, _, some _, _ => "running"
      | none, _, none, some _ => "scheduled"
      | none, _, none, none => "queued" := by
  obtain ⟨i, n, d, nr, lr, lf, fr⟩ := attrs
  cases lf <;> cases lr <;> cases nr <;> cases fr <;>
    simp [_getJobStatus, truthyDate, truthyString]

theorem unaryCodec_roundtrip (o : ObjectId) :
    unaryCodec.ofString (unaryCodec.toHexString o) = .ok o := by
  have h : (List.replicate o 'a').all (fun c => c == 'a') = true := by
    rw [List.all_eq_true]
    intro c hc
    rw [List.eq_of_mem_replicate hc]
    rfl
  simp only [unaryCodec, h, if_true, String.length, List.length_replicate]

/-- C2, as stated, fails twice: a message of one blank, which is not empty,
with a due time in the future is rejected with a validation error; and a
message with a due time that is not a valid date is not rejected, a job is
saved. -/
theorem scheduleMessage_iff_counterexample :
    ((some " " : Option String) ≠ none ∧ " " ≠ "" ∧ (1000 : Int) < 5000 ∧
      scheduleMessage unaryCodec none 1000 7 []
          { message := some " ", scheduledFor := some 5000, metadata := none } =
        ([], .error "Message cannot be empty")) ∧
    ((scheduleMessage unaryCodec none 1000 7 []
          { message := some "hello", scheduledFor := none, metadata := none }).2 =
        .ok { jobId := "aaaaaaa", status := "scheduled", scheduledFor := none,
              message := "Message scheduled successfully" } ∧
      (scheduleMessage unaryCodec none 1000 7 []
          { message := some "hello", scheduledFor := none, metadata := none }).1.length = 1) := by
  refine ⟨⟨by decide, by decide, by decide, ?_⟩, ?_, ?_⟩
  · rfl
  · rfl
  · rfl

/-- C2, amended: `scheduleMessage` fails with `Message cannot be empty` exactly
when the message is missing, empty or white space only; it fails with
`Scheduled time must be in the future` exactly when the message is not blank
and the due time is a valid date at or before the current time; these are its
only failures, so a due time that is not a valid date is not rejected; and for
a message that is not blank and a valid due time strictly in the future it
appends one job carrying that message and metadata with nextRunAt equal to the
due time and returns that job's id. -/
theorem scheduleMessage_validation (codec : ObjectIdCodec) (onInvalid : Option Int)
    (now : Int) (newId : ObjectId) (store : JobStore) (md : MessageData) :
    ((scheduleMessage codec onInvalid now newId store md).2 = .error "Message cannot be empty" ↔
      isBlank md.message = true) ∧
    ((scheduleMessage codec onInvalid now newId store md).2 =
        .error "Scheduled time must be in the future" ↔
      isBlank md.message = false ∧ ∃ t, md.scheduledFor = some t ∧ t ≤ now) ∧
    ((∃ e, (scheduleMessage codec onInvalid now newId store md).2 = .error e) ↔
      isBlank md.message = true ∨ ∃ t, md.scheduledFor = some t ∧ t ≤ now) ∧
    (∀ m t, md.message = some m → isBlank (some m) = false → md.scheduledFor = some t →
      now < t →
      scheduleMessage codec onInvalid now newId store md =
        (store ++
          [{ _id := newId
             name := "insert-message"
             data := { message := m, metadata := md.metadata }
             nextRunAt := some t
             lastRunAt := none
             lastFinishedAt := none
             failReason := none }],
         .ok { jobId := codec.toHexString newId
               status := "scheduled"
               scheduledFor := some t
               message := "Message scheduled successfully" })) := by
  obtain ⟨msg, due, meta⟩ := md
  cases msg with
  | none => simp [scheduleMessage, isBlank]
  | some m =>
    simp only [scheduleMessage, rejects_empty_iff]
    cases hb : isBlank (some m) with
    | true =>
      simp
      intro m' t' hm' hb'
      subst hm'
      simp [hb] at hb'
    | false =>
      cases due with
      | none => simp [dateLe]
      | some t =>
        by_cases ht : t ≤ now
        · simp [dateLe, ht]
        · simp [dateLe, ht, jobSchedule]

/-- C3, as stated, fails: a message of one blank is not empty, and with a due
time before the current time the error raised is `Message cannot be empty`,
not `Scheduled time must be in the future`. -/
theorem scheduleMessage_past_due_counterexample :
    " " ≠ "" ∧ (940000 : Int) ≤ 1000000 ∧
    scheduleMessage unaryCodec none 1000000 7 []
        { message := some " ", scheduledFor := some 940000, metadata := none } =
      ([], .error "Message cannot be empty") := by
  refine ⟨by decide, by decide, ?_⟩
  rfl

/-- C3, amended: for every message with at least one character that is not
white space and every due time at or before the current time,
`scheduleMessage` raises `Scheduled time must be in the future` and the job
store is left as it was. -/
theorem scheduleMessage_past_due (codec : ObjectIdCodec) (onInvalid : Option Int)
    (now : Int) (newId : ObjectId) (store : JobStore) (m : String) (t : Int)
    (metadata : Metadata) (hm : ∃ c ∈ m.data, isJsWhiteSpace c = false) (ht : t ≤ now) :
    scheduleMessage codec onInvalid now newId store
        { message := some m, scheduledFor := some t, metadata := metadata } =
      (store, .error "Scheduled time must be in the future") := by
  have hb : isBlank (some m) = false := by
    obtain ⟨c, hc, hw⟩ := hm
    simp only [isBlank, List.all_eq_false]
    exact ⟨c, hc, by simp [hw]⟩
  simp [scheduleMessage, rejects_empty_iff, hb, dateLe, ht]

/-- C3 at the input of the unit test: `Test message`, one minute ago. -/
theorem scheduleMessage_past_due_witness :
    scheduleMessage unaryCodec none 1000000 7 []
        { message := some "Test message", scheduledFor := some 940000, metadata := none } =
      ([], .error "Scheduled time must be in the future") :=
  scheduleMessage_past_due unaryCodec none 1000000 7 [] "Test message" 940000 none
    ⟨'T', by decide, by decide⟩ (by decide)

/-- C4: after a successful `scheduleMessage` with a valid due time, the value
it returned has status `scheduled` and the requested due time, the due time is
in the future, and `getJobStatus` on the returned id, on the store as the call
left it, returns a record with status `scheduled` whose scheduledFor is the
requested due time.  The store gives the new job an identifier no other job
has, and the identifier library reads back the strings it writes. -/
theorem getJobStatus_after_schedule (codec : ObjectIdCodec)
    (hcodec : ∀ o, codec.ofString (codec.toHexString o) = .ok o)
    (onInvalid : Option Int) (now : Int) (newId : ObjectId) (store store' : JobStore)
    (md : MessageData) (res : ScheduleResult) (t : Int)
    (hfresh : ∀ j ∈ store, j._id ≠ newId)
    (hs : scheduleMessage codec onInvalid now newId store md = (store', .ok res))
    (ht : md.scheduledFor = some t) :
    res.status = "scheduled" ∧ res.scheduledFor = some t ∧ now < t ∧
    ∃ r, getJobStatus codec store' res.jobId = .ok (some r) ∧
      r.jobId = res.jobId ∧ r.status = "scheduled" ∧ r.scheduledFor = some t ∧
      r.lastRun = none ∧ r.lastFinished = none := by
  obtain ⟨msg, due, meta⟩ := md
  simp only at ht
  subst ht
  cases msg with
  | none => simp [scheduleMessage] at hs
  | some m =>
    simp only [scheduleMessage] at hs
    split at hs
    · simp at hs
    · split at hs
      · simp at hs
      · rename_i hle
        simp only [Prod.mk.injEq, Except.ok.injEq] at hs
        obtain ⟨hstore, hres⟩ := hs
        subst hstore hres
        have hlt : now < t := by
          simp [dateLe] at hle
          exact hle
        have hfilter : (store.filter fun attrs => attrs._id == newId) = [] := by
          rw [List.filter_eq_nil_iff]
          intro j hj
          simpa using hfresh j hj
        refine ⟨rfl, rfl, hlt, ?_⟩
        simp [getJobStatus, hcodec, List.filter_append, hfilter, _getJobStatus, truthyDate,
          jobSchedule]

/-- C4 on an empty store: `Status check`, due one minute from now. -/
theorem getJobStatus_after_schedule_witness :
    ∃ r, getJobStatus unaryCodec
        (scheduleMessage unaryCodec none 1000 3 []
          { message := some "Status check", scheduledFor := some 61000, metadata := none }).1
        "aaa" = .ok (some r) ∧ r.status = "scheduled" ∧ r.scheduledFor = some 61000 :=
  have h := getJobStatus_after_schedule unaryCodec unaryCodec_roundtrip none 1000 3 []
    (scheduleMessage unaryCodec none 1000 3 []
      { message := some "Status check", scheduledFor := some 61000, metadata := none }).1
    { message := some "Status check", scheduledFor := some 61000, metadata := none }
    { jobId := "aaa", status := "scheduled", scheduledFor := some 61000,
      message := "Message scheduled successfully" }
    61000 (by simp) rfl rfl
  let ⟨r, hr, _, hst, hsf, _, _⟩ := h.2.2.2
  ⟨r, hr, hst, hsf⟩

theorem length_filter_ne_of_nodup (oid : ObjectId) (store : JobStore)
    (hnodup : (store.map fun attrs => attrs._id).Nodup)
    (hin : ∃ j ∈ store, j._id = oid) :
    (store.filter fun attrs => !(attrs._id == oid)).length + 1 = store.length := by
  induction store with
  | nil => simp at hin
  | cons a l ih =>
    rw [List.map_cons, List.nodup_cons] at hnodup
    obtain ⟨hnot, hl⟩ := hnodup
    by_cases ha : a._id = oid
    · have hkeep : (l.filter fun attrs => !(attrs._id == oid)) = l := by
        rw [List.filter_eq_self]
        intro j hj
        have : j._id ≠ oid := by
          intro e
          apply hnot
          rw [ha, ← e]
          exact List.mem_map_of_mem (fun attrs : JobAttrs => attrs._id) hj
        simpa using this
      simp [List.filter_cons, ha, hkeep]
    · have hin' : ∃ j ∈ l, j._id = oid := by
        obtain ⟨j, hj, hjo⟩ := hin
        rcases List.mem_cons.mp hj with rfl | hj
        · exact absurd hjo ha
        · exact ⟨j, hj, hjo⟩
      have := ih hl hin'
      simp [List.filter_cons, ha]
      omega

/-- C5: when the store holds a job with the identifier `jobId` stands for,
`cancelScheduledMessage` returns true and the store afterwards is the store
without the jobs of that identifier: `getJobStatus` on the same id returns
null, every other job is still there, in the same order, nothing was added,
and when identifiers are unique exactly one job is gone. -/
theorem cancel_removes_job (codec : ObjectIdCodec) (store : JobStore) (jobId : String)
    (oid : ObjectId) (hparse : codec.ofString jobId = .ok oid)
    (hin : ∃ j ∈ store, j._id = oid) :
    (cancelScheduledMessage codec store jobId).2 = true ∧
    getJobStatus codec (cancelScheduledMessage codec store jobId).1 jobId = .ok none ∧
    (cancelScheduledMessage codec store jobId).1 =
      store.filter (fun attrs => decide (attrs._id ≠ oid)) ∧
    (∀ k ∈ store, k._id ≠ oid → k ∈ (cancelScheduledMessage codec store jobId).1) ∧
    (∀ k ∈ (cancelScheduledMessage codec store jobId).1, k ∈ store ∧ k._id ≠ oid) ∧
    List.Sublist (cancelScheduledMessage codec store jobId).1 store ∧
    ((store.map fun attrs => attrs._id).Nodup →
      (cancelScheduledMessage codec store jobId).1.length + 1 = store.length) := by
  have hstore : (cancelScheduledMessage codec store jobId).1 =
      store.filter (fun attrs => !(attrs._id == oid)) := by
    simp [cancelScheduledMessage, hparse]
  have hfun : (fun attrs : JobAttrs => !(attrs._id == oid)) =
      (fun attrs => decide (attrs._id ≠ oid)) := by
    funext attrs
    by_cases h : attrs._id = oid <;> simp [h]
  refine ⟨?_, ?_, ?_, ?_, ?_, ?_, ?_⟩
  · obtain ⟨j, hj, hjo⟩ := hin
    have hmem : j ∈ store.filter (fun attrs => attrs._id == oid) := by
      simp [List.mem_filter, hj, hjo]
    have hpos : 0 < (store.filter (fun attrs => attrs._id == oid)).length :=
      List.length_pos_of_mem hmem
    simp only [cancelScheduledMessage, hparse]
    exact decide_eq_true hpos
  · rw [hstore]
    simp [getJobStatus, hparse, List.filter_filter]
  · rw [hstore, hfun]
  · intro k hk hne
    rw [hstore]
    simp [List.mem_filter, hk, hne]
  · intro k hk
    rw [hstore] at hk
    simpa [List.mem_filter] using hk
  · rw [hstore]
    exact List.filter_sublist store
  · intro hnodup
    rw [hstore]
    exact length_filter_ne_of_nodup oid store hnodup hin

/-- C5 on the sample store: cancelling job 2 leaves jobs 1 and 3. -/
theorem cancel_removes_job_witness :
    (cancelScheduledMessage unaryCodec sampleStore "aa").2 = true ∧
    getJobStatus unaryCodec (cancelScheduledMessage unaryCodec sampleStore "aa").1 "aa" =
      .ok none ∧
    (cancelScheduledMessage unaryCodec sampleStore "aa").1.length + 1 = sampleStore.length :=
  have h := cancel_removes_job unaryCodec sampleStore "aa" 2 rfl
    ⟨sampleStore.get ⟨1, by decide⟩, by decide, rfl⟩
  ⟨h.1, h.2.1, h.2.2.2.2.2.2 (by decide)⟩

/-- C6: `cancelScheduledMessage` raises nothing and returns whether a job was
removed.  It returns true exactly when `jobId` is an identifier and the store
held a job with it, and exactly when the store afterwards has lost a job (it
is shorter than before, and so not the store it was).  After a true result the
store is the old one without the jobs of that identifier: a job that was held
is gone, every other job is kept, and with unique identifiers exactly one job
is gone.  Nothing is ever added.  When it returns false the store is left as it
was, and it returns false for a string that is not an identifier and for an
identifier no job has. -/
theorem cancel_returns_whether_removed (codec : ObjectIdCodec) (store : JobStore)
    (jobId : String) :
    ((cancelScheduledMessage codec store jobId).2 = true ↔
      ∃ oid, codec.ofString jobId = .ok oid ∧ ∃ j ∈ store, j._id = oid) ∧
    ((cancelScheduledMessage codec store jobId).2 = true ↔
      (cancelScheduledMessage codec store jobId).1.length < store.length) ∧
    ((cancelScheduledMessage codec store jobId).2 = true ↔
      (cancelScheduledMessage codec store jobId).1 ≠ store) ∧
    ((cancelScheduledMessage codec store jobId).2 = true →
      ∃ oid, codec.ofString jobId = .ok oid ∧
        (cancelScheduledMessage codec store jobId).1 =
          store.filter (fun attrs => decide (attrs._id ≠ oid)) ∧
        (∃ j ∈ store, j._id = oid ∧ j ∉ (cancelScheduledMessage codec store jobId).1) ∧
        (∀ k ∈ (cancelScheduledMessage codec store jobId).1, k._id ≠ oid) ∧
        (∀ k ∈ store, k._id ≠ oid → k ∈ (cancelScheduledMessage codec store jobId).1) ∧
        ((store.map fun attrs => attrs._id).Nodup →
          (cancelScheduledMessage codec store jobId).1.length + 1 = store.length)) ∧
    List.Sublist (cancelScheduledMessage codec store jobId).1 store ∧
    ((cancelScheduledMessage codec store jobId).2 = false →
      (cancelScheduledMessage codec store jobId).1 = store) ∧
    ((∀ oid, codec.ofString jobId ≠ .ok oid) →
      cancelScheduledMessage codec store jobId = (store, false)) ∧
    (∀ oid, codec.ofString jobId = .ok oid → (∀ j ∈ store, j._id ≠ oid) →
      cancelScheduledMessage codec store jobId = (store, false)) := by
  cases hparse : codec.ofString jobId with
  | error e => simp [cancelScheduledMessage, hparse]
  | ok oid =>
    have hlen : store.length =
        (store.filter fun attrs => attrs._id == oid).length +
          (store.filter fun attrs => !(attrs._id == oid)).length :=
      List.length_eq_length_filter_add _
    have hsub : List.Sublist (store.filter fun attrs => !(attrs._id == oid)) store :=
      List.filter_sublist store
    have hfun : (fun attrs : JobAttrs => !(attrs._id == oid)) =
        (fun attrs => decide (attrs._id ≠ oid)) := by
      funext attrs
      by_cases h : attrs._id = oid <;> simp [h]
    simp only [cancelScheduledMessage, hparse]
    refine ⟨?_, ?_, ?_, ?_, hsub, ?_, ?_, ?_⟩
    · simp [List.length_pos_iff_exists_mem]
    · rw [decide_eq_true_iff]
      omega
    · rw [decide_eq_true_iff]
      constructor
      · intro hpos heq
        rw [heq] at hlen
        omega
      · intro hne
        by_contra hzero
        apply hne
        exact hsub.eq_of_length (by omega)
    · intro hpos
      rw [decide_eq_true_iff] at hpos
      obtain ⟨j, hj⟩ := List.exists_mem_of_length_pos hpos
      rw [List.mem_filter] at hj
      have hjo : j._id = oid := by simpa using hj.2
      refine ⟨oid, rfl, by rw [hfun], ⟨j, hj.1, hjo, ?_⟩, ?_, ?_, ?_⟩
      · simp [List.mem_filter, hjo]
      · intro k hk
        simpa [List.mem_filter] using (List.mem_filter.mp hk).2
      · intro k hk hne
        simp [List.mem_filter, hk, hne]
      · intro hnodup
        exact length_filter_ne_of_nodup oid store hnodup ⟨j, hj.1, hjo⟩
    · intro h
      simp only [decide_eq_false_iff_not, not_lt, Nat.le_zero_eq, gt_iff_lt,
        List.length_eq_zero, List.filter_eq_nil_iff] at h
      rw [List.filter_eq_self]
      intro j hj
      simpa using h j hj
    · intro h
      exact absurd rfl (h oid)
    · intro oid' hoid hnone
      simp only [Except.ok.injEq] at hoid
      subst hoid
      have h1 : (store.filter fun attrs => attrs._id == oid) = [] := by
        rw [List.filter_eq_nil_iff]
        intro j hj
        simpa using hnone j hj
      have h2 : (store.filter fun attrs => !(attrs._id == oid)) = store := by
        rw [List.filter_eq_self]
        intro j hj
        simpa using hnone j hj
      simp [h1, h2]

/-- C7: with the filter status `scheduled`, `getScheduledMessages` returns, in
store order, one entry for each `insert-message` job whose nextRunAt is set
and whose lastFinishedAt is unset, and with no filter one entry for every
`insert-message` job; an entry carries the job's id, message, nextRunAt as
scheduledFor, the derived status of the job's attributes, and the metadata. -/
theorem getScheduledMessages_spec (codec : ObjectIdCodec) (store : JobStore) :
    getScheduledMessages codec store (some "scheduled") =
      (store.filter fun attrs =>
          decide (attrs.name = "insert-message" ∧ attrs.nextRunAt ≠ none ∧
            attrs.lastFinishedAt = none)).map
        (fun attrs =>
          { jobId := codec.toHexString attrs._id
            message := attrs.data.message
            scheduledFor := attrs.nextRunAt
            status := _getJobStatus attrs
            metadata := attrs.data.metadata }) ∧
    getScheduledMessages codec store none =
      (store.filter fun attrs => decide (attrs.name = "insert-message")).map
        (fun attrs =>
          { jobId := codec.toHexString attrs._id
            message := attrs.data.message
            scheduledFor := attrs.nextRunAt
            status := _getJobStatus attrs
            metadata := attrs.data.metadata }) := by
  constructor
  · unfold getScheduledMessages
    congr 2
    funext attrs
    by_cases hname : attrs.name = "insert-message" <;>
      cases hn : attrs.nextRunAt <;> cases hl : attrs.lastFinishedAt <;>
      simp [scheduledQuery, hn, hl, hname]
  · unfold getScheduledMessages
    congr 2
    funext attrs
    by_cases hname : attrs.name = "insert-message" <;> simp [scheduledQuery, hname]

/-- C8 at the sample store: job 3 is an `insert-message` job with nextRunAt
set, lastFinishedAt unset and lastRunAt set.  The query of the filter status
`scheduled` does not read lastRunAt, so the job is returned, and
`_getJobStatus` reads lastRunAt before nextRunAt, so the derived status of the
returned message is `running`, neither `scheduled` nor `queued`. -/
theorem scheduled_filter_returns_running :
    (∃ attrs ∈ sampleStore, attrs._id = 3 ∧ attrs.name = "insert-message" ∧
      attrs.nextRunAt = some 7000 ∧ attrs.lastRunAt = some 7001 ∧
      attrs.lastFinishedAt = none) ∧
    (getScheduledMessages unaryCodec sampleStore (some "scheduled")).map
        (fun m => (m.jobId, m.status)) =
      [("a", "scheduled"), ("aa", "scheduled"), ("aaa", "running")] ∧
    ∃ m ∈ getScheduledMessages unaryCodec sampleStore (some "scheduled"),
      m.jobId = "aaa" ∧ m.status = "running" ∧ m.status ≠ "scheduled" ∧
        m.status ≠ "queued" :=
  ⟨⟨{ _id := 3, name := "insert-message", data := { message := "third", metadata := none }
      nextRunAt := some 7000, lastRunAt := some 7001, lastFinishedAt := none,
      failReason := none }, by decide, rfl, rfl, rfl, rfl, rfl⟩,
    by decide,
    ⟨{ jobId := "aaa", message := "third", scheduledFor := some 7000, status := "running",
       metadata := none }, by decide, rfl, rfl, by decide, by decide⟩⟩

/-- What the filter status `scheduled` lets through: a message returned by
`getScheduledMessages` under it comes from a job of the store with nextRunAt
set and lastFinishedAt unset, and its derived status is `scheduled` when the
job's lastRunAt is unset and `running` when it is set; it is never `queued`,
`completed` or `failed`. -/
theorem scheduled_filter_status (codec : ObjectIdCodec) (store : JobStore)
    (m : ScheduledMessage) (hm : m ∈ getScheduledMessages codec store (some "scheduled")) :
    (m.status = "scheduled" ∨ m.status = "running") ∧
    ∃ attrs ∈ store, attrs.nextRunAt ≠ none ∧ attrs.lastFinishedAt = none ∧
      m.jobId = codec.toHexString attrs._id ∧ m.status = _getJobStatus attrs ∧
      _getJobStatus attrs = (if attrs.lastRunAt = none then "scheduled" else "running") := by
  simp only [getScheduledMessages, List.mem_map, List.mem_filter] at hm
  obtain ⟨attrs, ⟨hmem, hq⟩, rfl⟩ := hm
  have hq2 : attrs.nextRunAt ≠ none ∧ attrs.lastFinishedAt = none := by
    cases hn : attrs.nextRunAt <;> cases hl : attrs.lastFinishedAt <;>
      simp [scheduledQuery, hn, hl] at hq ⊢
  obtain ⟨hn, hl⟩ := hq2
  have hst : _getJobStatus attrs =
      (if attrs.lastRunAt = none then "scheduled" else "running") := by
    cases hr : attrs.lastRunAt <;> cases hn2 : attrs.nextRunAt <;>
      simp [_getJobStatus, truthyDate, hl, hr, hn2] at hn ⊢
  refine ⟨?_, attrs, hmem, hn, hl, rfl, rfl, hst⟩
  show _getJobStatus attrs = "scheduled" ∨ _getJobStatus attrs = "running"
  rw [hst]
  by_cases hr : attrs.lastRunAt = none <;> simp [hr]

/-- On the sample store the entry of job 1, whose lastRunAt is unset, has
status `scheduled`. -/
theorem scheduled_filter_status_witness :
    (ScheduledMessage.mk "a" "first" (some 5000) "scheduled" none).status = "scheduled" ∨
    (ScheduledMessage.mk "a" "first" (some 5000) "scheduled" none).status = "running" :=
  (scheduled_filter_status unaryCodec sampleStore
    { jobId := "a", message := "first", scheduledFor := some 5000, status := "scheduled",
      metadata := none } (by decide)).1

end SchedulerService

/-! ## Properties of FileParserService -/

namespace FileParserService

open PolicyService

theorem jobsGet_jobsSet {ρ : Type} (jobs : JobMap ρ) (jobId : String) (job : ParseJob ρ) :
    jobsGet (jobsSet jobs jobId job) jobId = some job := by
  unfold jobsGet jobsSet
  by_cases h : (jobs.any fun entry => entry.1 == jobId) = true
  · rw [if_pos h]
    induction jobs with
    | nil => simp at h
    | cons e l ih =>
      by_cases he : e.1 = jobId
      · simp [List.find?_cons, he]
      · have hl : (l.any fun entry => entry.1 == jobId) = true := by
          simpa [he] using h
        simpa [List.find?_cons, he] using ih hl
  · rw [if_neg h]
    have hnone : jobs.find? (fun entry => entry.1 == jobId) = none := by
      rw [List.find?_eq_none]
      intro e he hk
      apply h
      rw [List.any_eq_true]
      exact ⟨e, he, hk⟩
    simp [List.find?_append, hnone]

/-- C9: from its creation by `startParsingJob` through `_processJob`, whatever
parsing and importing do, the statuses a job record takes are `pending`, then
`processing`, then, if parsing settles, one terminal status repeated; so
without repetitions they form a subsequence of pending, processing,
completed or failed, no status is followed by one earlier on that path, and a
terminal status is followed only by itself.  The record in the job map when
`startParsingJob` returns is the second of these values and the record after
`_processJob` is the last. -/
theorem status_sequence_monotone {ρ σ : Type} (createFromRow : ρ → σ → σ × Option String)
    (outcome : ParseOutcome ρ) (jobs : JobMap ρ) (jobId filePath fileType : String)
    (startedAt finishedAt : Int) (db : σ) :
    (∃ final n, (final = "completed" ∨ final = "failed") ∧
      (recordHistory createFromRow outcome jobId filePath fileType startedAt finishedAt db).map
          (fun job => job.status) =
        ["pending", "processing"] ++ List.replicate n final ∧
      List.Sublist
        (List.destutter (fun a b => a ≠ b)
          ((recordHistory createFromRow outcome jobId filePath fileType startedAt finishedAt
            db).map fun job => job.status))
        ["pending", "processing", final]) ∧
    List.Pairwise
      (fun a b => statusRank a ≤ statusRank b ∧ (a = "completed" ∨ a = "failed" → b = a))
      ((recordHistory createFromRow outcome jobId filePath fileType startedAt finishedAt
        db).map fun job => job.status) ∧
    jobsGet (startParsingJob jobId startedAt jobs filePath fileType).1 jobId =
      (recordHistory createFromRow outcome jobId filePath fileType startedAt finishedAt db).get?
        1 ∧
    jobsGet
        (_processJobResume createFromRow outcome finishedAt
          (startParsingJob jobId startedAt jobs filePath fileType).1 jobId db).1 jobId =
      (recordHistory createFromRow outcome jobId filePath fileType startedAt finishedAt
        db).getLast? := by
  have hstart : jobsGet (startParsingJob jobId startedAt jobs filePath fileType).1 jobId =
      some (markProcessing (newJob jobId filePath fileType startedAt)) := by
    simp [startParsingJob, _processJobStart, jobsGet_jobsSet]
  have hresume : jobsGet
      (_processJobResume createFromRow outcome finishedAt
        (startParsingJob jobId startedAt jobs filePath fileType).1 jobId db).1 jobId =
      some ((settleAssignments createFromRow outcome finishedAt db).2.foldl
        (fun j assign => assign j) (markProcessing (newJob jobId filePath fileType startedAt))) := by
    simp [_processJobResume, hstart, jobsGet_jobsSet]
  rw [hstart, hresume]
  rcases outcome with _ | ⟨data | error⟩ | message
  · refine ⟨⟨"completed", 0, Or.inl rfl, ?_, ?_⟩, ?_, ?_, ?_⟩
    · simp [recordHistory, settleAssignments, markProcessing, newJob]
    · simp [recordHistory, settleAssignments, markProcessing, newJob]
    · simp [recordHistory, settleAssignments, markProcessing, newJob]
      decide
    · simp [recordHistory, settleAssignments]
    · simp [recordHistory, settleAssignments]
  · refine ⟨⟨"completed", 5, Or.inl rfl, ?_, ?_⟩, ?_, ?_, ?_⟩
    · simp [recordHistory, settleAssignments, markProcessing, newJob, List.replicate]
    · simp [recordHistory, settleAssignments, markProcessing, newJob]
      decide
    · simp [recordHistory, settleAssignments, markProcessing, newJob]
      decide
    · simp [recordHistory, settleAssignments]
    · simp [recordHistory, settleAssignments]
  · refine ⟨⟨"failed", 3, Or.inr rfl, ?_, ?_⟩, ?_, ?_, ?_⟩
    · simp [recordHistory, settleAssignments, markProcessing, newJob, List.replicate]
    · simp [recordHistory, settleAssignments, markProcessing, newJob]
      decide
    · simp [recordHistory, settleAssignments, markProcessing, newJob]
      decide
    · simp [recordHistory, settleAssignments]
    · simp [recordHistory, settleAssignments]
  · refine ⟨⟨"failed", 3, Or.inr rfl, ?_, ?_⟩, ?_, ?_, ?_⟩
    · simp [recordHistory, settleAssignments, markProcessing, newJob, List.replicate]
    · simp [recordHistory, settleAssignments, markProcessing, newJob]
      decide
    · simp [recordHistory, settleAssignments, markProcessing, newJob]
      decide
    · simp [recordHistory, settleAssignments]
    · simp [recordHistory, settleAssignments]

/-- After a successful parse the job is finalized as `completed`, with
recordsFailed the number of rows the import rejected and errors its error
list, and recordsProcessed is read from the property `successful`, which
the import result does not have: it is `undefined` whatever was imported. -/
theorem processJob_success_record {ρ σ : Type} (createFromRow : ρ → σ → σ × Option String)
    (data : List ρ) (jobs : JobMap ρ) (jobId filePath fileType : String)
    (startedAt finishedAt : Int) (db : σ) :
    jobsGet
        (_processJobResume createFromRow (.resolved (.success data)) finishedAt
          (startParsingJob jobId startedAt jobs filePath fileType).1 jobId db).1 jobId =
      some
        { id := jobId
          filePath := filePath
          fileType := fileType
          status := "completed"
          recordsProcessed := .undefined
          recordsFailed := .number (importPoliciesFromData createFromRow data db).2.failed
          startedAt := startedAt
          completedAt := some finishedAt
          error := none
          errors := .rowErrors (importPoliciesFromData createFromRow data db).2.errors } := by
  have hstart : jobsGet (startParsingJob jobId startedAt jobs filePath fileType).1 jobId =
      some (markProcessing (newJob jobId filePath fileType startedAt)) := by
    simp [startParsingJob, _processJobStart, jobsGet_jobsSet]
  simp [_processJobResume, hstart, jobsGet_jobsSet, settleAssignments, markProcessing, newJob,
    getProperty]

/-- C10 at a parsed file of one importable row: the import pipeline imports
the row (imported is 1, failed is 0), the job is finalized as `completed`, and
the recordsProcessed that `getJobStatus` reports is `undefined`, not 1. -/
theorem processJob_recordsProcessed_undefined :
    (importPoliciesFromData acceptEveryRow ["POL-001"] 0).2.imported = 1 ∧
    (importPoliciesFromData acceptEveryRow ["POL-001"] 0).2.failed = 0 ∧
    (getJobStatus
        (_processJobResume acceptEveryRow (.resolved (.success ["POL-001"])) 2000
          (startParsingJob "job-1" 1000 [] "completion-test.csv" "csv").1 "job-1" 0).1
        "job-1").map (fun st => (st.status, st.recordsProcessed, st.recordsFailed)) =
      some ("completed", JsField.undefined, JsField.number 0) := by
  refine ⟨rfl, rfl, ?_⟩
  simp only [getJobStatus, processJob_success_record]
  rfl

end FileParserService

/-! ## Properties of the import pipeline -/

namespace PolicyService

open Store

theorem importPoliciesFromData_eq_foldl {ρ σ : Type} (createFromRow : ρ → σ → σ × Option String)
    (data : List ρ) (db : σ) :
    importPoliciesFromData createFromRow data db =
      data.foldl (importStep createFromRow)
        (db, { success := true, imported := 0, failed := 0, errors := [] }) := rfl

theorem importStep_spec {ρ σ : Type} (createFromRow : ρ → σ → σ × Option String)
    (acc : σ × ImportResults ρ) (row : ρ) :
    (importStep createFromRow acc row).2.imported + (importStep createFromRow acc row).2.failed =
        acc.2.imported + acc.2.failed + 1 ∧
    (importStep createFromRow acc row).2.errors.length + acc.2.failed =
        acc.2.errors.length + (importStep createFromRow acc row).2.failed ∧
    acc.2.errors <+: (importStep createFromRow acc row).2.errors := by
  unfold importStep
  rcases h : createFromRow row acc.1 with ⟨db', _ | message⟩
  · simp
    omega
  · simp
    omega

theorem foldl_importStep_spec {ρ σ : Type} (createFromRow : ρ → σ → σ × Option String)
    (rows : List ρ) (acc : σ × ImportResults ρ) :
    (rows.foldl (importStep createFromRow) acc).2.imported +
        (rows.foldl (importStep createFromRow) acc).2.failed =
      acc.2.imported + acc.2.failed + rows.length ∧
    (rows.foldl (importStep createFromRow) acc).2.errors.length + acc.2.failed =
      acc.2.errors.length + (rows.foldl (importStep createFromRow) acc).2.failed ∧
    acc.2.errors <+: (rows.foldl (importStep createFromRow) acc).2.errors := by
  induction rows generalizing acc with
  | nil => simp
  | cons row rest ih =>
    obtain ⟨h1, h2, h3⟩ := importStep_spec createFromRow acc row
    obtain ⟨i1, i2, i3⟩ := ih (importStep createFromRow acc row)
    simp only [List.foldl_cons, List.length_cons]
    refine ⟨by omega, by omega, h3.trans i3⟩

/-- C12: `importPoliciesFromData` is total, so it returns a summary for every
list of rows, and a row whose policy creation fails, with any error message,
does not stop the loop: the failure adds one to `failed` and one `{row,
error}` entry after the entries of the earlier rows, the remaining rows are
processed from the store the failed attempt left, every row of the batch is
counted as imported or failed, and there are as many entries as failures. -/
theorem import_records_row_failure {ρ σ : Type} (createFromRow : ρ → σ → σ × Option String)
    (pre post : List ρ) (row : ρ) (db db' : σ) (message : String)
    (hfail : createFromRow row (importPoliciesFromData createFromRow pre db).1 =
      (db', some message)) :
    importPoliciesFromData createFromRow (pre ++ row :: post) db =
      post.foldl (importStep createFromRow)
        (db',
          { (importPoliciesFromData createFromRow pre db).2 with
            failed := (importPoliciesFromData createFromRow pre db).2.failed + 1
            errors := (importPoliciesFromData createFromRow pre db).2.errors ++
              [{ row := row, error := message }] }) ∧
    ((importPoliciesFromData createFromRow pre db).2.errors ++ [{ row := row, error := message }]) <+:
      (importPoliciesFromData createFromRow (pre ++ row :: post) db).2.errors ∧
    (importPoliciesFromData createFromRow (pre ++ row :: post) db).2.failed ≥
      (importPoliciesFromData createFromRow pre db).2.failed + 1 ∧
    (importPoliciesFromData createFromRow (pre ++ row :: post) db).2.imported +
        (importPoliciesFromData createFromRow (pre ++ row :: post) db).2.failed =
      (pre ++ row :: post).length ∧
    (importPoliciesFromData createFromRow (pre ++ row :: post) db).2.errors.length =
      (importPoliciesFromData createFromRow (pre ++ row :: post) db).2.failed := by
  have hstep : importPoliciesFromData createFromRow (pre ++ row :: post) db =
      post.foldl (importStep createFromRow)
        (db',
          { (importPoliciesFromData createFromRow pre db).2 with
            failed := (importPoliciesFromData createFromRow pre db).2.failed + 1
            errors := (importPoliciesFromData createFromRow pre db).2.errors ++
              [{ row := row, error := message }] }) := by
    rw [importPoliciesFromData_eq_foldl, List.foldl_append, List.foldl_cons,
      ← importPoliciesFromData_eq_foldl]
    congr 1
    simp only [importStep, hfail]
  obtain ⟨a1, a2, a3⟩ := foldl_importStep_spec createFromRow post
    (db',
      { (importPoliciesFromData createFromRow pre db).2 with
        failed := (importPoliciesFromData createFromRow pre db).2.failed + 1
        errors := (importPoliciesFromData createFromRow pre db).2.errors ++
          [{ row := row, error := message }] })
  obtain ⟨b1, b2, _⟩ := foldl_importStep_spec createFromRow (pre ++ row :: post)
    (db, { success := true, imported := 0, failed := 0, errors := [] })
  rw [← importPoliciesFromData_eq_foldl] at b1 b2
  refine ⟨hstep, ?_, ?_, ?_, ?_⟩
  · rw [hstep]
    exact a3
  · obtain ⟨_, c2, _⟩ := foldl_importStep_spec createFromRow pre
      (db, { success := true, imported := 0, failed := 0, errors := [] })
    rw [← importPoliciesFromData_eq_foldl] at c2
    rw [hstep]
    have hlen := a3.length_le
    dsimp only at a2 c2 hlen ⊢
    simp only [List.length_append, List.length_singleton, List.length_nil] at a2 c2 hlen
    omega
  · simpa using b1
  · simpa using b2

/-- C12 on a batch of three rows whose second row is refused: the summary has
two imported rows, one failure and the entry of the second row. -/
theorem import_records_row_failure_witness :
    importPoliciesFromData
        (fun (row : String) (db : Nat) =>
          if row = "bad" then (db, some "Premium amount must be positive") else (db + 1, none))
        (["first"] ++ "bad" :: ["third"]) 0 =
      (2,
        { success := true, imported := 2, failed := 1,
          errors := [{ row := "bad", error := "Premium amount must be positive" }] }) := by
  have h := (import_records_row_failure
    (fun (row : String) (db : Nat) =>
      if row = "bad" then (db, some "Premium amount must be positive") else (db + 1, none))
    ["first"] ["third"] "bad" 0 1 "Premium amount must be positive" (by decide)).1
  rw [h]
  decide

theorem createFromRow_without_premium (b : Builtins) (nowStart nowEnd : Int) (row : Row) (db : Db)
    (h1 : row.get "premium_amount_written" = none) (h2 : row.get "premium_amount" = none) :
    createFromRow b nowStart nowEnd row db = (db, some "Premium amount must be positive") := by
  have hp : rowPremium b row = .finite 0 := by
    simp [rowPremium, h1, h2, jsOr, truthyString]
  have hle : (rowPolicyData b nowStart nowEnd row).premiumAmount.leZero = true := by
    simp [rowPolicyData, hp, JsNumber.leZero]
  simp [createFromRow, createPolicy, hle]

/-- C13 on the batch of the unit test: the loop reads the premium from the
properties `premium_amount_written` and `premium_amount`, which neither row
has, so both rows are refused with `Premium amount must be positive`:
imported is 0, failed is 2, there are two error entries, and no agent, user,
category or carrier has been stored. -/
theorem partial_failure_batch_result (b : Builtins) (nowStart nowEnd : Int) :
    importPoliciesFromData (createFromRow b nowStart nowEnd) partialFailureBatch emptyDb =
      (emptyDb,
        { success := true
          imported := 0
          failed := 2
          errors :=
            [ { row := partialFailureBatch.get ⟨0, by decide⟩,
                error := "Premium amount must be positive" },
              { row := partialFailureBatch.get ⟨1, by decide⟩,
                error := "Premium amount must be positive" } ] }) := by
  simp only [importPoliciesFromData, partialFailureBatch, List.foldl_cons, List.foldl_nil]
  rw [createFromRow_without_premium b nowStart nowEnd _ _ (by decide) (by decide)]
  simp only []
  rw [createFromRow_without_premium b nowStart nowEnd _ _ (by decide) (by decide)]
  rfl

theorem foldl_importStep_all_fail {ρ σ : Type} (createFromRow : ρ → σ → σ × Option String)
    (message : String) (rows : List ρ) (db : σ) (acc : ImportResults ρ)
    (h : ∀ row ∈ rows, createFromRow row db = (db, some message)) :
    rows.foldl (importStep createFromRow) (db, acc) =
      (db,
        { acc with
          failed := acc.failed + rows.length
          errors := acc.errors ++ rows.map fun row => { row := row, error := message } }) := by
  induction rows generalizing acc with
  | nil => simp
  | cons row rest ih =>
    have hrow := h row (List.mem_cons_self row rest)
    have hrest : ∀ r ∈ rest, createFromRow r db = (db, some message) :=
      fun r hr => h r (List.mem_cons_of_mem row hr)
    simp only [List.foldl_cons, importStep, hrow]
    rw [ih _ hrest]
    simp [Nat.add_assoc, Nat.add_comm 1]

theorem get_eq_none_of_keys (row : Row) (key : String) (keys : List String)
    (hkeys : ∀ cell ∈ row, cell.1 ∈ keys) (hkey : key ∉ keys) : row.get key = none := by
  unfold Row.get
  rw [Option.map_eq_none', List.find?_eq_none]
  intro cell hcell hk
  have : cell.1 = key := by simpa using hk
  exact hkey (this ▸ hkeys cell hcell)

/-- C14 on the code: for every batch of rows keyed by the header names of the
parsed files, the loop finds no premium property and refuses every row with
`Premium amount must be positive`: imported is 0, failed is the number of
rows, and the store is left as it was. -/
theorem header_named_rows_all_fail (b : Builtins) (nowStart nowEnd : Int) (data : List Row)
    (db : Db) (hkeys : ∀ row ∈ data, ∀ cell ∈ row, cell.1 ∈ headerNames) :
    importPoliciesFromData (createFromRow b nowStart nowEnd) data db =
      (db,
        { success := true
          imported := 0
          failed := data.length
          errors := data.map fun row =>
            { row := row, error := "Premium amount must be positive" } }) := by
  rw [importPoliciesFromData_eq_foldl,
    foldl_importStep_all_fail (createFromRow b nowStart nowEnd) "Premium amount must be positive"]
  · simp
  · intro row hrow
    exact createFromRow_without_premium b nowStart nowEnd row db
      (get_eq_none_of_keys row _ headerNames (hkeys row hrow) (by decide))
      (get_eq_none_of_keys row _ headerNames (hkeys row hrow) (by decide))

/-- C14 at the batch of the unit test `should import multiple policies from
parsed data`: imported is 0 and failed is 2. -/
theorem header_named_rows_all_fail_witness :
    (importPoliciesFromData (createFromRow sampleBuiltins 1000 1000) importBatch emptyDb).2.imported
        = 0 ∧
    (importPoliciesFromData (createFromRow sampleBuiltins 1000 1000) importBatch emptyDb).2.failed
        = 2 := by
  have h := header_named_rows_all_fail sampleBuiltins 1000 1000 importBatch emptyDb (by decide)
  rw [h]
  exact ⟨rfl, rfl⟩

/-- With the first row under the property names the loop reads, the batch of
C13 gives what the claim says: one row imported, one refused, one error
entry, and the agent, user, category and carrier of the first row stored. -/
theorem partial_failure_with_read_names :
    importPoliciesFromData (createFromRow sampleBuiltins 1000 1000)
        [validRow, [("policy_number", "POL-INVALID")]] emptyDb =
      ({ agents := [{ _id := 1, name := "Valid Agent" }]
         users := [{ _id := 2, name := "Valid User", email := "valid@example.com",
                     gender := some "" }]
         categories := [{ _id := 3, name := "Valid Category" }]
         carriers := [{ _id := 4, name := "Valid Company" }]
         policies :=
           [{ _id := 5, policyNumber := "POL-VALID", policyMode := "Online",
              producer := "Producer", premiumAmount := 1000, policyType := "Auto",
              csr := some "", startDate := 1704067200000, endDate := 1735689600000,
              agent := 1, user := 2, policyCategory := 3, policyCarrier := 4 }]
         nextId := 6 },
        { success := true
          imported := 1
          failed := 1
          errors := [{ row := [("policy_number", "POL-INVALID")],
                       error := "Premium amount must be positive" }] }) := by
  decide

theorem saveKeyed_error (label : String) (n : Nat) (coll : List Entity) (key : Option String)
    (st : Nat × List Entity) (e : String) (h : saveKeyed label n coll key = (st, .error e)) :
    st = (n, coll) ∧ e = label ++ " validation failed" := by
  unfold saveKeyed at h
  split at h
  · simp only [Prod.mk.injEq, Except.error.injEq] at h
    exact ⟨h.1.symm, h.2.symm⟩
  · simp at h

theorem agent_findOrCreate_spec (db db1 : Db) (name : Option String) (r : Except String Entity)
    (h : AgentRepository.findOrCreate db name = (db1, r)) :
    db1.policies = db.policies ∧ ∀ e, r = .error e → e = "Agent validation failed" := by
  unfold AgentRepository.findOrCreate at h
  split at h
  · simp only [Prod.mk.injEq] at h
    obtain ⟨rfl, rfl⟩ := h
    simp
  · simp only [AgentRepository.create, Prod.mk.injEq] at h
    obtain ⟨rfl, rfl⟩ := h
    refine ⟨rfl, ?_⟩
    intro e he
    exact (saveKeyed_error "Agent" db.nextId db.agents name _ e (Prod.ext rfl he)).2

theorem category_findOrCreate_spec (db db1 : Db) (name : Option String)
    (r : Except String Entity) (h : PolicyCategoryRepository.findOrCreate db name = (db1, r)) :
    db1.policies = db.policies ∧ ∀ e, r = .error e → e = "PolicyCategory validation failed" := by
  unfold PolicyCategoryRepository.findOrCreate at h
  split at h
  · simp only [Prod.mk.injEq] at h
    obtain ⟨rfl, rfl⟩ := h
    simp
  · simp only [PolicyCategoryRepository.create, Prod.mk.injEq] at h
    obtain ⟨rfl, rfl⟩ := h
    refine ⟨rfl, ?_⟩
    intro e he
    exact (saveKeyed_error "PolicyCategory" db.nextId db.categories name _ e (Prod.ext rfl he)).2

theorem carrier_findOrCreate_spec (db db1 : Db) (name : Option String)
    (r : Except String Entity) (h : PolicyCarrierRepository.findOrCreate db name = (db1, r)) :
    db1.policies = db.policies ∧ ∀ e, r = .error e → e = "PolicyCarrier validation failed" := by
  unfold PolicyCarrierRepository.findOrCreate at h
  split at h
  · simp only [Prod.mk.injEq] at h
    obtain ⟨rfl, rfl⟩ := h
    simp
  · simp only [PolicyCarrierRepository.create, Prod.mk.injEq] at h
    obtain ⟨rfl, rfl⟩ := h
    refine ⟨rfl, ?_⟩
    intro e he
    exact (saveKeyed_error "PolicyCarrier" db.nextId db.carriers name _ e (Prod.ext rfl he)).2

theorem user_findOrCreate_spec (b : Builtins) (db db1 : Db) (userData : UserRepository.UserData)
    (r : Except String User) (h : UserRepository.findOrCreate b db userData = (db1, r)) :
    db1.policies = db.policies ∧
    ∀ e, r = .error e →
      e = "Cannot read properties of undefined (reading 'toLowerCase')" ∨
      e = "User validation failed" ∨ e = "E11000 duplicate key error" := by
  unfold UserRepository.findOrCreate at h
  split at h
  · simp only [Prod.mk.injEq] at h
    obtain ⟨rfl, rfl⟩ := h
    rename_i e' he'
    refine ⟨rfl, ?_⟩
    intro e he
    simp only [Except.error.injEq] at he
    subst he
    simp only [UserRepository.findByEmail] at he'
    split at he'
    · simp only [Except.error.injEq] at he'
      exact Or.inl he'.symm
    · simp at he'
  · simp only [Prod.mk.injEq] at h
    obtain ⟨rfl, rfl⟩ := h
    simp
  · unfold UserRepository.create at h
    split at h
    · simp only [Prod.mk.injEq] at h
      obtain ⟨rfl, rfl⟩ := h
      simp
    · split at h
      · simp only [Prod.mk.injEq] at h
        obtain ⟨rfl, rfl⟩ := h
        simp
      · simp only [Prod.mk.injEq] at h
        obtain ⟨rfl, rfl⟩ := h
        simp

theorem policy_create_spec (db db1 : Db) (data : PolicyRepository.PolicyInput)
    (r : Except String Policy) (h : PolicyRepository.create db data = (db1, r)) :
    (∀ e, r = .error e →
      db1 = db ∧
      (e = "Policy validation failed" ∨ e = "End date must be after start date" ∨
        e = "E11000 duplicate key error")) ∧
    (∀ p, r = .ok p →
      PolicyRepository.validate db.nextId data = some p ∧ p.startDate < p.endDate ∧
      db1.policies = db.policies ++ [p]) := by
  unfold PolicyRepository.create at h
  split at h
  · simp only [Prod.mk.injEq] at h
    obtain ⟨rfl, rfl⟩ := h
    simp
  · rename_i policy hv
    split at h
    · rename_i message hm
      simp only [Prod.mk.injEq] at h
      obtain ⟨rfl, rfl⟩ := h
      simp only [PolicyRepository.preSave] at hm
      split at hm
      · simp only [Option.some.injEq] at hm
        subst hm
        simp
      · simp at hm
    · rename_i hm
      have hlt : policy.startDate < policy.endDate := by
        simp only [PolicyRepository.preSave] at hm
        split at hm
        · simp at hm
        · rename_i hle
          simpa [dateLe] using hle
      split at h
      · simp only [Prod.mk.injEq] at h
        obtain ⟨rfl, rfl⟩ := h
        simp
      · simp only [Prod.mk.injEq] at h
        obtain ⟨rfl, rfl⟩ := h
        simp [hv, hlt]

theorem validate_premium (id : Nat) (data : PolicyRepository.PolicyInput) (p : Policy)
    (h : PolicyRepository.validate id data = some p) :
    data.premiumAmount = .finite p.premiumAmount ∧ 0 ≤ p.premiumAmount := by
  unfold PolicyRepository.validate at h
  split at h
  · rename_i premium _ _ _ _ _ _ _ _ hp _ _ _
    split at h
    · simp at h
    · rename_i hneg
      simp only [Option.some.injEq] at h
      subst h
      exact ⟨hp, not_lt.mp hneg⟩
  · simp at h

theorem createPolicy_after_premium_check (b : Builtins) (db : Db) (pd : PolicyData)
    (hle : pd.premiumAmount.leZero = false) :
    (∀ e, (createPolicy b db pd).2 = .error e →
      e ≠ "Premium amount must be positive" ∧ (createPolicy b db pd).1.policies = db.policies) ∧
    (∀ p, (createPolicy b db pd).2 = .ok p →
      pd.premiumAmount = .finite p.premiumAmount ∧ 0 ≤ p.premiumAmount ∧
        p.startDate < p.endDate) := by
  unfold createPolicy
  simp only [hle, Bool.false_eq_true, if_false]
  split
  · simp
  · rcases hA : AgentRepository.findOrCreate db pd.agentName with ⟨db1, rA⟩
    obtain ⟨pA, eA⟩ := agent_findOrCreate_spec db db1 _ rA hA
    cases rA with
    | error e =>
      have := eA e rfl
      subst this
      simp only [Except.error.injEq, reduceCtorEq, false_implies, implies_true, and_true]
      intro e he
      subst he
      exact ⟨by decide, pA⟩
    | ok agent =>
      simp only []
      rcases hU : UserRepository.findOrCreate b db1
        { name := jsOr pd.userName pd.userEmail, email := pd.userEmail, gender := pd.gender }
        with ⟨db2, rU⟩
      obtain ⟨pU, eU⟩ := user_findOrCreate_spec b db1 db2 _ rU hU
      cases rU with
      | error e =>
        simp only [Except.error.injEq, reduceCtorEq, false_implies, implies_true, and_true]
        intro e' he'
        subst he'
        refine ⟨?_, pU.trans pA⟩
        rcases eU e rfl with h | h | h <;> subst h <;> decide
      | ok user =>
        simp only []
        rcases hC : PolicyCategoryRepository.findOrCreate db2 pd.categoryName with ⟨db3, rC⟩
        obtain ⟨pC, eC⟩ := category_findOrCreate_spec db2 db3 _ rC hC
        cases rC with
        | error e =>
          have := eC e rfl
          subst this
          simp only [Except.error.injEq, reduceCtorEq, false_implies, implies_true, and_true]
          intro e he
          subst he
          exact ⟨by decide, pC.trans (pU.trans pA)⟩
        | ok category =>
          simp only []
          rcases hK : PolicyCarrierRepository.findOrCreate db3 pd.companyName with ⟨db4, rK⟩
          obtain ⟨pK, eK⟩ := carrier_findOrCreate_spec db3 db4 _ rK hK
          cases rK with
          | error e =>
            have := eK e rfl
            subst this
            simp only [Except.error.injEq, reduceCtorEq, false_implies, implies_true, and_true]
            intro e he
            subst he
            exact ⟨by decide, pK.trans (pC.trans (pU.trans pA))⟩
          | ok carrier =>
            simp only []
            rcases hP : PolicyRepository.create db4
              { policyNumber := pd.policyNumber
                policyMode := pd.policyMode
                producer := pd.producer
                premiumAmount := pd.premiumAmount
                policyType := pd.policyType
                csr := pd.csr
                startDate := newDate b pd.startDate
                endDate := newDate b pd.endDate
                agent := agent._id
                user := user._id
                policyCategory := category._id
                policyCarrier := carrier._id } with ⟨db5, rP⟩
            obtain ⟨eP, oP⟩ := policy_create_spec db4 db5 _ rP hP
            constructor
            · intro e he
              simp only at he
              obtain ⟨hdb, hmsg⟩ := eP e he
              subst hdb
              refine ⟨?_, pK.trans (pC.trans (pU.trans pA))⟩
              rcases hmsg with h | h | h <;> subst h <;> decide
            · intro p hp
              simp only at hp
              obtain ⟨hv, hlt, _⟩ := oP p hp
              obtain ⟨hprem, hnonneg⟩ := validate_premium _ _ p hv
              exact ⟨hprem, hnonneg, hlt⟩

/-- C15, as stated, fails: with the premium missing, the check
`premiumAmount <= 0` is false and `createPolicy` goes on; the error raised is
the validation error of the Policy schema, not `Premium amount must be
positive`, and the agent, user, category and carrier have been stored by
then. -/
theorem createPolicy_missing_premium_counterexample :
    missingPremiumData.premiumAmount = .undefined ∧
    (createPolicy sampleBuiltins emptyDb missingPremiumData).2 = .error "Policy validation failed" ∧
    (createPolicy sampleBuiltins emptyDb missingPremiumData).1.agents =
      [{ _id := 1, name := "Test Agent" }] ∧
    (createPolicy sampleBuiltins emptyDb missingPremiumData).1.users.length = 1 ∧
    (createPolicy sampleBuiltins emptyDb missingPremiumData).1.policies = [] := by
  refine ⟨rfl, ?_, ?_, ?_, ?_⟩
  · rfl
  · decide
  · decide
  · decide

/-- C15, amended: `createPolicy` accepts a policy only if its premium amount is
a number strictly greater than 0, and for every input whose premium amount is
a number less than or equal to 0 it raises `Premium amount must be positive`
and leaves the store as it was.  For a premium that is missing or NaN the
check does not fire: `createPolicy` still raises and stores no policy, but
the error is another one. -/
theorem createPolicy_premium_check (b : Builtins) (db : Db) (pd : PolicyData) :
    (∀ p, (createPolicy b db pd).2 = .ok p →
      ∃ v, pd.premiumAmount = .finite v ∧ 0 < v ∧ p.premiumAmount = v) ∧
    (∀ v, pd.premiumAmount = .finite v → v ≤ 0 →
      createPolicy b db pd = (db, .error "Premium amount must be positive")) ∧
    (pd.premiumAmount = .undefined ∨ pd.premiumAmount = .nan →
      (∃ e, (createPolicy b db pd).2 = .error e ∧ e ≠ "Premium amount must be positive") ∧
      (createPolicy b db pd).1.policies = db.policies) := by
  refine ⟨?_, ?_, ?_⟩
  · intro p hp
    cases hle : pd.premiumAmount.leZero with
    | true => simp [createPolicy, hle] at hp
    | false =>
      obtain ⟨hprem, _, _⟩ := (createPolicy_after_premium_check b db pd hle).2 p hp
      refine ⟨p.premiumAmount, hprem, ?_, rfl⟩
      rw [hprem] at hle
      simpa [JsNumber.leZero] using hle
  · intro v hv hle
    simp [createPolicy, hv, JsNumber.leZero, hle]
  · intro hmissing
    have hle : pd.premiumAmount.leZero = false := by
      rcases hmissing with h | h <;> rw [h] <;> rfl
    obtain ⟨herr, hok⟩ := createPolicy_after_premium_check b db pd hle
    cases hr : (createPolicy b db pd).2 with
    | error e =>
      obtain ⟨hne, hpol⟩ := herr e hr
      exact ⟨⟨e, rfl, hne⟩, hpol⟩
    | ok p =>
      obtain ⟨hprem, _, _⟩ := hok p hr
      rcases hmissing with h | h <;> rw [h] at hprem <;> cases hprem

/-- For every input with a strictly positive premium whose end date is equal
to or earlier than its start date, `createPolicy` raises `End date must be
after start date` and leaves the store as it was. -/
theorem createPolicy_dates_check (b : Builtins) (db : Db) (pd : PolicyData) (v : ℚ)
    (startDate endDate : Int) (hprem : pd.premiumAmount = .finite v) (hv : 0 < v)
    (hs : newDate b pd.startDate = some startDate) (he : newDate b pd.endDate = some endDate)
    (hle : endDate ≤ startDate) :
    createPolicy b db pd = (db, .error "End date must be after start date") := by
  have hpos : pd.premiumAmount.leZero = false := by
    rw [hprem]
    simpa [JsNumber.leZero] using hv
  simp [createPolicy, hpos, hs, he, dateLe, hle]

/-- Saving through `PolicyRepository.create` keeps every stored policy with
its end date after its start date: the `pre('save')` hook refuses the
others. -/
theorem create_keeps_dates_ordered (db : Db) (data : PolicyRepository.PolicyInput)
    (hinv : ∀ p ∈ db.policies, p.startDate < p.endDate) :
    ∀ p ∈ (PolicyRepository.create db data).1.policies, p.startDate < p.endDate := by
  rcases h : PolicyRepository.create db data with ⟨db1, r⟩
  obtain ⟨herr, hok⟩ := policy_create_spec db db1 data r h
  cases r with
  | error e =>
    obtain ⟨hdb, _⟩ := herr e rfl
    subst hdb
    exact hinv
  | ok p =>
    obtain ⟨_, hlt, hpol⟩ := hok p rfl
    intro q hq
    simp only [hpol, List.mem_append, List.mem_singleton] at hq
    rcases hq with hq | rfl
    · exact hinv q hq
    · exact hlt

/-- C16 at a policy document whose end date is a year before its start date:
`PolicyRepository.create` refuses it through the `pre('save')` hook, and
`PolicyRepository.bulkCreate`, which inserts without running `save` hooks,
stores it: a stored policy has its end date before its start date. -/
theorem bulkCreate_stores_reversed_dates :
    PolicyRepository.create emptyDb reversedDatesInput =
      (emptyDb, .error "End date must be after start date") ∧
    PolicyRepository.bulkCreate emptyDb [reversedDatesInput] =
      ({ emptyDb with
          nextId := 2
          policies :=
            [{ _id := 1, policyNumber := "POL-BULK-1", policyMode := "Online",
               producer := "Producer", premiumAmount := 1000, policyType := "Auto",
               csr := none, startDate := 1735689600000, endDate := 1704067200000,
               agent := 1, user := 2, policyCategory := 3, policyCarrier := 4 }] },
        .ok 1) ∧
    ∃ p ∈ (PolicyRepository.bulkCreate emptyDb [reversedDatesInput]).1.policies,
      p.endDate ≤ p.startDate := by
  refine ⟨rfl, rfl, ?_⟩
  decide

theorem findOneByKey_append_saved (coll : List Entity) (key : Option String) (label : String)
    (n : Nat) (st : Nat × List Entity) (e : Entity)
    (hnone : findOneByKey coll key = none)
    (hsave : saveKeyed label n coll key = (st, .ok e)) :
    findOneByKey st.2 key = some e := by
  cases key with
  | none => simp [saveKeyed, requiredString] at hsave
  | some k =>
    by_cases hk : (jsTrim k == "") = true
    · simp [saveKeyed, requiredString, hk] at hsave
    · simp only [saveKeyed, requiredString, hk, Bool.false_eq_true, if_false, Prod.mk.injEq,
        Except.ok.injEq] at hsave
      obtain ⟨rfl, rfl⟩ := hsave
      simp only [findOneByKey] at hnone ⊢
      simp [List.find?_append, hnone]

theorem findOneByKey_of_exists (coll : List Entity) (k : String)
    (h : ∃ x ∈ coll, x.name = jsTrim k) :
    ∃ a ∈ coll, a.name = jsTrim k ∧ findOneByKey coll (some k) = some a := by
  obtain ⟨x, hx, hname⟩ := h
  cases hf : coll.find? (fun e => e.name == jsTrim k) with
  | none =>
    rw [List.find?_eq_none] at hf
    exact absurd (by simpa using hname) (hf x hx)
  | some a =>
    refine ⟨a, List.mem_of_find?_eq_some hf, ?_, by simpa [findOneByKey] using hf⟩
    simpa using List.find?_some hf

theorem agent_findOrCreate_twice (db db1 : Db) (key : Option String) (a : Entity)
    (h : AgentRepository.findOrCreate db key = (db1, .ok a)) :
    AgentRepository.findOrCreate db1 key = (db1, .ok a) := by
  unfold AgentRepository.findOrCreate at h ⊢
  cases hf : AgentRepository.findByName db key with
  | some x =>
    simp only [hf, Prod.mk.injEq, Except.ok.injEq] at h
    obtain ⟨rfl, rfl⟩ := h
    simp [hf]
  | none =>
    simp only [hf, AgentRepository.create, Prod.mk.injEq] at h
    obtain ⟨rfl, hr⟩ := h
    have hsaved := findOneByKey_append_saved db.agents key _ db.nextId _ a hf (Prod.ext rfl hr)
    simp only [AgentRepository.findByName] at hsaved ⊢
    simp [hsaved]

theorem agent_findOrCreate_existing (db : Db) (k : String)
    (h : ∃ x ∈ db.agents, x.name = jsTrim k) :
    ∃ a ∈ db.agents, a.name = jsTrim k ∧ AgentRepository.findOrCreate db (some k) = (db, .ok a) := by
  obtain ⟨a, ha, hname, hfind⟩ := findOneByKey_of_exists db.agents k h
  exact ⟨a, ha, hname, by simp [AgentRepository.findOrCreate, AgentRepository.findByName, hfind]⟩

theorem category_findOrCreate_twice (db db1 : Db) (key : Option String) (a : Entity)
    (h : PolicyCategoryRepository.findOrCreate db key = (db1, .ok a)) :
    PolicyCategoryRepository.findOrCreate db1 key = (db1, .ok a) := by
  unfold PolicyCategoryRepository.findOrCreate at h ⊢
  cases hf : PolicyCategoryRepository.findByCategoryName db key with
  | some x =>
    simp only [hf, Prod.mk.injEq, Except.ok.injEq] at h
    obtain ⟨rfl, rfl⟩ := h
    simp [hf]
  | none =>
    simp only [hf, PolicyCategoryRepository.create, Prod.mk.injEq] at h
    obtain ⟨rfl, hr⟩ := h
    have hsaved := findOneByKey_append_saved db.categories key _ db.nextId _ a hf (Prod.ext rfl hr)
    simp only [PolicyCategoryRepository.findByCategoryName] at hsaved ⊢
    simp [hsaved]

theorem category_findOrCreate_existing (db : Db) (k : String)
    (h : ∃ x ∈ db.categories, x.name = jsTrim k) :
    ∃ a ∈ db.categories, a.name = jsTrim k ∧ PolicyCategoryRepository.findOrCreate db (some k) = (db, .ok a) := by
  obtain ⟨a, ha, hname, hfind⟩ := findOneByKey_of_exists db.categories k h
  exact ⟨a, ha, hname, by simp [PolicyCategoryRepository.findOrCreate, PolicyCategoryRepository.findByCategoryName, hfind]⟩

theorem carrier_findOrCreate_twice (db db1 : Db) (key : Option String) (a : Entity)
    (h : PolicyCarrierRepository.findOrCreate db key = (db1, .ok a)) :
    PolicyCarrierRepository.findOrCreate db1 key = (db1, .ok a) := by
  unfold PolicyCarrierRepository.findOrCreate at h ⊢
  cases hf : PolicyCarrierRepository.findByCompanyName db key with
  | some x =>
    simp only [hf, Prod.mk.injEq, Except.ok.injEq] at h
    obtain ⟨rfl, rfl⟩ := h
    simp [hf]
  | none =>
    simp only [hf, PolicyCarrierRepository.create, Prod.mk.injEq] at h
    obtain ⟨rfl, hr⟩ := h
    have hsaved := findOneByKey_append_saved db.carriers key _ db.nextId _ a hf (Prod.ext rfl hr)
    simp only [PolicyCarrierRepository.findByCompanyName] at hsaved ⊢
    simp [hsaved]

theorem carrier_findOrCreate_existing (db : Db) (k : String)
    (h : ∃ x ∈ db.carriers, x.name = jsTrim k) :
    ∃ a ∈ db.carriers, a.name = jsTrim k ∧ PolicyCarrierRepository.findOrCreate db (some k) = (db, .ok a) := by
  obtain ⟨a, ha, hname, hfind⟩ := findOneByKey_of_exists db.carriers k h
  exact ⟨a, ha, hname, by simp [PolicyCarrierRepository.findOrCreate, PolicyCarrierRepository.findByCompanyName, hfind]⟩

theorem validate_email (b : Builtins) (name : Option String) (gender : Option String)
    (e : String) (r : String × String × Option String)
    (h : UserRepository.validate b { name := name, email := some e, gender := gender } = some r) :
    r.2.1 = UserRepository.emailSetter b e := by
  unfold UserRepository.validate at h
  cases hn : requiredString name with
  | none => simp [hn] at h
  | some n =>
    simp only [hn] at h
    by_cases he : (UserRepository.emailSetter b e == "") = true
    · simp [he] at h
    · simp only [he, Bool.false_eq_true, if_false] at h
      cases gender with
      | none =>
        simp only [Option.some.injEq] at h
        rw [← h]
      | some g =>
        by_cases hg : (g == "Male" || g == "Female" || g == "") = true
        · simp only [hg, if_true, Option.some.injEq] at h
          rw [← h]
        · simp [hg] at h

theorem user_findOrCreate_twice (b : Builtins) (db db1 : Db) (userData : UserRepository.UserData)
    (u : User)
    (hlower : ∀ e, userData.email = some e →
      UserRepository.emailSetter b (b.toLowerCase e) = UserRepository.emailSetter b e)
    (h : UserRepository.findOrCreate b db userData = (db1, .ok u)) :
    UserRepository.findOrCreate b db1 userData = (db1, .ok u) := by
  obtain ⟨name, email, gender⟩ := userData
  unfold UserRepository.findOrCreate at h ⊢
  cases email with
  | none => simp [UserRepository.findByEmail] at h
  | some e =>
    have hl := hlower e rfl
    simp only [UserRepository.findByEmail] at h ⊢
    rw [hl] at h ⊢
    cases hf : db.users.find? (fun x => x.email == UserRepository.emailSetter b e) with
    | some x =>
      simp only [hf, Prod.mk.injEq, Except.ok.injEq] at h
      obtain ⟨rfl, rfl⟩ := h
      simp [hf]
    | none =>
      simp only [hf, UserRepository.create] at h
      cases hv : UserRepository.validate b { name := name, email := some e, gender := gender } with
      | none => simp [hv] at h
      | some r =>
        obtain ⟨n, em, g⟩ := r
        have hmail : em = UserRepository.emailSetter b e := validate_email b name gender e _ hv
        subst hmail
        simp only [hv] at h
        split at h
        · simp at h
        · simp only [Prod.mk.injEq, Except.ok.injEq] at h
          obtain ⟨rfl, rfl⟩ := h
          simp [List.find?_append, hf]

theorem user_findOrCreate_existing (b : Builtins) (db : Db) (userData : UserRepository.UserData)
    (e : String) (hemail : userData.email = some e)
    (h : ∃ x ∈ db.users, x.email = UserRepository.emailSetter b (b.toLowerCase e)) :
    ∃ u ∈ db.users, u.email = UserRepository.emailSetter b (b.toLowerCase e) ∧
      UserRepository.findOrCreate b db userData = (db, .ok u) := by
  obtain ⟨x, hx, hname⟩ := h
  cases hf : db.users.find? (fun x => x.email == UserRepository.emailSetter b (b.toLowerCase e)) with
  | none =>
    rw [List.find?_eq_none] at hf
    exact absurd (by simpa using hname) (hf x hx)
  | some u =>
    refine ⟨u, List.mem_of_find?_eq_some hf, by simpa using List.find?_some hf, ?_⟩
    simp [UserRepository.findOrCreate, UserRepository.findByEmail, hemail, hf]

/-- C17: find-or-create is idempotent in each of the four repositories (agent
by name, user by email, category by category name, carrier by company name):
when a first call returns an entity, a second call with the same key on the
store the first call left returns the same entity and leaves that store as it
is; and when the store already holds an entity with the key, the first call
returns such an entity and leaves the store as it was.  For users the
lower-casing of the runtime is taken to give the same stored email whether
applied once or twice. -/
theorem findOrCreate_idempotent (b : Builtins) (db : Db) (name categoryName companyName : String)
    (userData : UserRepository.UserData)
    (hlower : ∀ e, userData.email = some e →
      UserRepository.emailSetter b (b.toLowerCase e) = UserRepository.emailSetter b e) :
    ((∀ db1 a, AgentRepository.findOrCreate db (some name) = (db1, .ok a) →
        AgentRepository.findOrCreate db1 (some name) = (db1, .ok a)) ∧
      ((∃ x ∈ db.agents, x.name = jsTrim name) →
        ∃ a ∈ db.agents, a.name = jsTrim name ∧
          AgentRepository.findOrCreate db (some name) = (db, .ok a))) ∧
    ((∀ db1 u, UserRepository.findOrCreate b db userData = (db1, .ok u) →
        UserRepository.findOrCreate b db1 userData = (db1, .ok u)) ∧
      (∀ e, userData.email = some e →
        (∃ x ∈ db.users, x.email = UserRepository.emailSetter b (b.toLowerCase e)) →
        ∃ u ∈ db.users, u.email = UserRepository.emailSetter b (b.toLowerCase e) ∧
          UserRepository.findOrCreate b db userData = (db, .ok u))) ∧
    ((∀ db1 c, PolicyCategoryRepository.findOrCreate db (some categoryName) = (db1, .ok c) →
        PolicyCategoryRepository.findOrCreate db1 (some categoryName) = (db1, .ok c)) ∧
      ((∃ x ∈ db.categories, x.name = jsTrim categoryName) →
        ∃ c ∈ db.categories, c.name = jsTrim categoryName ∧
          PolicyCategoryRepository.findOrCreate db (some categoryName) = (db, .ok c))) ∧
    ((∀ db1 c, PolicyCarrierRepository.findOrCreate db (some companyName) = (db1, .ok c) →
        PolicyCarrierRepository.findOrCreate db1 (some companyName) = (db1, .ok c)) ∧
      ((∃ x ∈ db.carriers, x.name = jsTrim companyName) →
        ∃ c ∈ db.carriers, c.name = jsTrim companyName ∧
          PolicyCarrierRepository.findOrCreate db (some companyName) = (db, .ok c))) :=
  ⟨⟨fun db1 a h => agent_findOrCreate_twice db db1 _ a h,
      agent_findOrCreate_existing db name⟩,
    ⟨fun db1 u h => user_findOrCreate_twice b db db1 userData u hlower h,
      fun e he h => user_findOrCreate_existing b db userData e he h⟩,
    ⟨fun db1 c h => category_findOrCreate_twice db db1 _ c h,
      category_findOrCreate_existing db categoryName⟩,
    ⟨fun db1 c h => carrier_findOrCreate_twice db db1 _ c h,
      carrier_findOrCreate_existing db companyName⟩⟩

/-- C17 on an empty store: two calls for the agent `New Agent` and two calls
for the user `NewUser@Example.com` return the entities with identifiers 1 and
2, and the second calls add nothing. -/
theorem findOrCreate_idempotent_witness :
    AgentRepository.findOrCreate (AgentRepository.findOrCreate emptyDb (some "New Agent")).1
        (some "New Agent") =
      ((AgentRepository.findOrCreate emptyDb (some "New Agent")).1,
        .ok { _id := 1, name := "New Agent" }) ∧
    UserRepository.findOrCreate sampleBuiltins
        (UserRepository.findOrCreate sampleBuiltins
          (AgentRepository.findOrCreate emptyDb (some "New Agent")).1
          { name := some "New User", email := some "NewUser@Example.com", gender := none }).1
        { name := some "New User", email := some "NewUser@Example.com", gender := none } =
      ((UserRepository.findOrCreate sampleBuiltins
          (AgentRepository.findOrCreate emptyDb (some "New Agent")).1
          { name := some "New User", email := some "NewUser@Example.com", gender := none }).1,
        .ok { _id := 2, name := "New User", email := "newuser@example.com", gender := none }) :=
  ⟨(findOrCreate_idempotent sampleBuiltins emptyDb "New Agent" "New Category" "New Company"
      { name := some "New User", email := some "NewUser@Example.com", gender := none }
      (fun e he => by
        simp only [Option.some.injEq] at he
        subst he
        decide)).1.1 _ _ rfl,
   (findOrCreate_idempotent sampleBuiltins
      (AgentRepository.findOrCreate emptyDb (some "New Agent")).1
      "New Agent" "New Category" "New Company"
      { name := some "New User", email := some "NewUser@Example.com", gender := none }
      (fun e he => by
        simp only [Option.some.injEq] at he
        subst he
        decide)).2.1.1 _ _ rfl⟩

end PolicyService

/-! ## Properties of FileParserService on failure -/

namespace FileParserService

open PolicyService

theorem settleAssignments_eq_with {ρ σ : Type} (createFromRow : ρ → σ → σ × Option String)
    (outcome : ParseOutcome ρ) (finishedAt : Int) (db : σ) :
    settleAssignments createFromRow outcome finishedAt db =
      settleAssignmentsWith (sourceImporter createFromRow) outcome finishedAt db := by
  rcases outcome with _ | ⟨data | error⟩ | message <;> rfl

theorem processJobResume_eq_with {ρ σ : Type} (createFromRow : ρ → σ → σ × Option String)
    (outcome : ParseOutcome ρ) (finishedAt : Int) (jobs : JobMap ρ) (jobId : String) (db : σ) :
    _processJobResume createFromRow outcome finishedAt jobs jobId db =
      _processJobResumeWith (sourceImporter createFromRow) outcome finishedAt jobs jobId db := by
  unfold _processJobResume _processJobResumeWith
  rw [settleAssignments_eq_with]

/-- C11: when the parse result is a failure message, when `parseFile` rejects,
or when the import call raises, `_processJob` returns (it is a total
function: nothing is raised to the caller) and the job is finalized with
status `failed`, error the captured error text and completedAt set, its
counters left at 0; `getJobStatus` then reports exactly that. -/
theorem processJob_failure {ρ σ : Type}
    (importer : List ρ → σ → σ × Except String (ImportResults ρ))
    (outcome : ParseOutcome ρ) (jobs : JobMap ρ) (jobId filePath fileType : String)
    (startedAt finishedAt : Int) (db : σ) (text : String)
    (hfail : capturedError importer outcome db = some text) :
    getJobStatus
        (_processJobResumeWith importer outcome finishedAt
          (startParsingJob jobId startedAt jobs filePath fileType).1 jobId db).1 jobId =
      some
        { jobId := jobId
          status := "failed"
          recordsProcessed := .number 0
          recordsFailed := .number 0
          startedAt := startedAt
          completedAt := some finishedAt
          error := some text
          errors := [] } := by
  have hstart : jobsGet (startParsingJob jobId startedAt jobs filePath fileType).1 jobId =
      some (markProcessing (newJob jobId filePath fileType startedAt)) := by
    simp [startParsingJob, _processJobStart, jobsGet_jobsSet]
  rcases outcome with _ | ⟨data | error⟩ | message
  · simp [capturedError] at hfail
  · simp only [capturedError] at hfail
    rcases himp : importer data db with ⟨db', r⟩
    cases r with
    | ok importResult => simp [himp] at hfail
    | error m =>
      simp only [himp, Option.some.injEq] at hfail
      subst hfail
      simp [getJobStatus, _processJobResumeWith, hstart, jobsGet_jobsSet, settleAssignmentsWith,
        himp, markProcessing, newJob]
  · simp only [capturedError, Option.some.injEq] at hfail
    subst hfail
    simp [getJobStatus, _processJobResumeWith, hstart, jobsGet_jobsSet, settleAssignmentsWith,
      markProcessing, newJob]
  · simp only [capturedError, Option.some.injEq] at hfail
    subst hfail
    simp [getJobStatus, _processJobResumeWith, hstart, jobsGet_jobsSet, settleAssignmentsWith,
      markProcessing, newJob]

/-- C11 at the job of the unit test `should update job status on failure`,
with the import call of the source: the worker answers with a failure message
and `getJobStatus` reports `failed` with its error. -/
theorem processJob_failure_witness :
    (getJobStatus
        (_processJobResume acceptEveryRow
          (.resolved (.failure "ENOENT: no such file or directory")) 2000
          (startParsingJob "job-1" 1000 [] "/invalid/path.csv" "csv").1 "job-1" 0).1
        "job-1").map (fun st => (st.status, st.error, st.completedAt)) =
      some ("failed", some "ENOENT: no such file or directory", some 2000) := by
  rw [processJobResume_eq_with,
    processJob_failure (sourceImporter acceptEveryRow)
      (.resolved (.failure "ENOENT: no such file or directory")) [] "job-1" "/invalid/path.csv"
      "csv" 1000 2000 0 "ENOENT: no such file or directory" rfl]
  rfl

/-- When the import call raises, the job is `failed` with the message raised. -/
theorem processJob_import_raises :
    (getJobStatus
        (_processJobResumeWith raisingImporter (.resolved (.success ["row"])) 2000
          (startParsingJob "job-1" 1000 [] "data.csv" "csv").1 "job-1" 0).1
        "job-1").map (fun st => (st.status, st.error, st.completedAt)) =
      some ("failed", some "data is not iterable", some 2000) := by
  decide

end FileParserService

/-! ## Properties of MasterProcess -/

namespace MasterProcess

theorem length_modifyAt {α : Type} (f : α → α) (n : Nat) (l : List α) :
    (modifyAt f n l).length = l.length := by
  induction l generalizing n with
  | nil => cases n <;> rfl
  | cons x xs ih =>
    cases n with
    | zero => rfl
    | succ n => simp [modifyAt, ih]

theorem get?_modifyAt {α : Type} (f : α → α) (n : Nat) (l : List α) :
    (modifyAt f n l).get? n = (l.get? n).map f := by
  induction l generalizing n with
  | nil => cases n <;> rfl
  | cons x xs ih =>
    cases n with
    | zero => rfl
    | succ n => simpa [modifyAt] using ih n

theorem stopMonitoring_children (s : State) :
    (stopMonitoring s).children = s.children ∧ (stopMonitoring s).worker = s.worker ∧
      (stopMonitoring s).resolved = s.resolved ∧ (stopMonitoring s).monitoringInterval = none := by
  unfold stopMonitoring
  cases h : s.monitoringInterval <;> simp [h]

theorem startWorker_spec (pidOf : Nat → Option Nat) (s : State) :
    (startWorker pidOf s).children =
        s.children ++
          [{ pid := pidOf s.children.length, killed := false, exited := false,
             exitListeners := [.stopMonitoring] }] ∧
    (startWorker pidOf s).worker = some s.children.length ∧
    (startWorker pidOf s).monitoringInterval = some s.nextTimer ∧
    s.nextTimer ∈ (startWorker pidOf s).liveTimers ∧
    (startWorker pidOf s).resolved = s.resolved := by
  simp [startWorker, startMonitoring]

theorem runExitListener_length (pidOf : Nat → Option Nat) (s : State) (l : ExitListener) :
    (runExitListener pidOf s l).children.length =
      s.children.length + (if l.isRestart then 1 else 0) := by
  cases l with
  | stopMonitoring => simp [runExitListener, (stopMonitoring_children s).1, ExitListener.isRestart]
  | restart promise =>
    simp [runExitListener, (startWorker_spec pidOf s).1, ExitListener.isRestart]

theorem foldl_runExitListener_length (pidOf : Nat → Option Nat) (ls : List ExitListener)
    (s : State) :
    (ls.foldl (runExitListener pidOf) s).children.length =
      s.children.length + (ls.filter fun l => l.isRestart).length := by
  induction ls generalizing s with
  | nil => simp
  | cons l rest ih =>
    rw [List.foldl_cons, ih, runExitListener_length]
    cases hl : l.isRestart
    · simp [List.filter_cons, hl]
    · simp [List.filter_cons, hl]
      omega

theorem exitEvent_length (pidOf : Nat → Option Nat) (s : State) (id : Nat) (w : Worker)
    (hc : s.children.get? id = some w) (hlive : w.exited = false) :
    (exitEvent pidOf s id).children.length = s.children.length + pendingRestarts w := by
  simp only [exitEvent, hc, hlive, Bool.false_eq_true, if_false]
  rw [foldl_runExitListener_length]
  simp [length_modifyAt, pendingRestarts]

theorem exitEvent_last_restart (pidOf : Nat → Option Nat) (s : State) (id : Nat) (w : Worker)
    (before : List ExitListener) (p : Nat) (hc : s.children.get? id = some w)
    (hlive : w.exited = false) (hl : w.exitListeners = before ++ [.restart p]) :
    ∃ new timer, (exitEvent pidOf s id).worker = some new ∧
      new + 1 = (exitEvent pidOf s id).children.length ∧ s.children.length ≤ new ∧
      (exitEvent pidOf s id).children.get? new =
        some { pid := pidOf new, killed := false, exited := false,
               exitListeners := [.stopMonitoring] } ∧
      (exitEvent pidOf s id).monitoringInterval = some timer ∧
      timer ∈ (exitEvent pidOf s id).liveTimers := by
  have hexit : exitEvent pidOf s id =
      runExitListener pidOf
        (before.foldl (runExitListener pidOf)
          { s with
            children :=
              modifyAt
                (fun c =>
                  { c with
                    exited := true
                    exitListeners := c.exitListeners.filter fun l => !l.isRestart })
                id s.children })
        (.restart p) := by
    simp only [exitEvent, hc, hlive, hl, Bool.false_eq_true, if_false, List.foldl_append,
      List.foldl_cons, List.foldl_nil]
  rw [hexit]
  generalize hT : before.foldl (runExitListener pidOf)
          { s with
            children :=
              modifyAt
                (fun c =>
                  { c with
                    exited := true
                    exitListeners := c.exitListeners.filter fun l => !l.isRestart })
                id s.children } = T
  have hlen : T.children.length = s.children.length +
      (before.filter fun l => l.isRestart).length := by
    rw [← hT, foldl_runExitListener_length]
    simp [length_modifyAt]
  obtain ⟨c1, c2, c3, c4, _⟩ := startWorker_spec pidOf T
  refine ⟨T.children.length, T.nextTimer, ?_, ?_, ?_, ?_, ?_, ?_⟩
  · simpa [runExitListener] using c2
  · simp [runExitListener, c1]
  · omega
  · simp only [runExitListener, c1]
    simp
  · simpa [runExitListener] using c3
  · simpa [runExitListener] using c4

theorem restartWorker_pending (pidOf : Nat → Option Nat) (s : State) (id : Nat) (w : Worker)
    (hw : s.worker = some id) (hc : s.children.get? id = some w) (hlive : w.exited = false) :
    (restartWorker pidOf s).1.worker = some id ∧
    (restartWorker pidOf s).1.children.length = s.children.length ∧
    (restartWorker pidOf s).1.resolved = s.resolved ∧
    (restartWorker pidOf s).2 = s.nextPromise ∧
    (restartWorker pidOf s).1.children.get? id =
      some { w with exitListeners := w.exitListeners ++ [.restart s.nextPromise], killed := true } := by
  have hr : restartWorker pidOf s =
      ({ s with
          nextPromise := s.nextPromise + 1
          children :=
            modifyAt
              (fun w => kill { w with exitListeners := w.exitListeners ++ [.restart s.nextPromise] })
              id s.children },
        s.nextPromise) := by
    simp only [restartWorker, hw]
  rw [hr]
  refine ⟨hw, length_modifyAt _ _ _, rfl, rfl, ?_⟩
  show (modifyAt _ id s.children).get? id = _
  rw [get?_modifyAt, hc]
  simp [kill, hlive]

theorem iterate_restartWorker_pending (pidOf : Nat → Option Nat) (n : Nat) (s : State) (id : Nat)
    (w : Worker) (hw : s.worker = some id) (hc : s.children.get? id = some w)
    (hlive : w.exited = false) :
    ((fun t => (restartWorker pidOf t).1)^[n] s).children.length = s.children.length ∧
    ∃ w', ((fun t => (restartWorker pidOf t).1)^[n] s).children.get? id = some w' ∧
      w'.exited = false ∧ pendingRestarts w' = pendingRestarts w + n := by
  induction n generalizing s w with
  | zero => exact ⟨rfl, w, hc, hlive, rfl⟩
  | succ n ih =>
    obtain ⟨h1, h2, _, _, h5⟩ := restartWorker_pending pidOf s id w hw hc hlive
    rw [Function.iterate_succ_apply]
    obtain ⟨i1, w', i2, i3, i4⟩ := ih (restartWorker pidOf s).1 _ h1 h5 hlive
    refine ⟨i1.trans h2, w', i2, i3, ?_⟩
    rw [i4]
    simp [pendingRestarts, List.filter_append, ExitListener.isRestart]
    omega

theorem iterate_restartWorker_last (pidOf : Nat → Option Nat) (n : Nat) (s : State) (id : Nat)
    (w : Worker) (hw : s.worker = some id) (hc : s.children.get? id = some w)
    (hlive : w.exited = false)
    (hlast : 0 < n ∨ ∃ before p, w.exitListeners = before ++ [.restart p]) :
    ∃ w1 before p, ((fun t => (restartWorker pidOf t).1)^[n] s).children.get? id = some w1 ∧
      w1.exited = false ∧ w1.exitListeners = before ++ [.restart p] := by
  induction n generalizing s w with
  | zero =>
    rcases hlast with h | ⟨before, p, h⟩
    · exact absurd h (Nat.lt_irrefl 0)
    · exact ⟨w, before, p, hc, hlive, h⟩
  | succ n ih =>
    obtain ⟨h1, _, _, _, h5⟩ := restartWorker_pending pidOf s id w hw hc hlive
    rw [Function.iterate_succ_apply]
    exact ih (restartWorker pidOf s).1 _ h1 h5 hlive
      (Or.inr ⟨w.exitListeners, s.nextPromise, rfl⟩)

/-- C18, as stated, fails: after a start and two calls of `restartWorker`
before the exit of the first child, the exit of that child forks two new
children, not one, and leaves two intervals running. -/
theorem overlapping_restarts_counterexample :
    (run samplePid 70 initial [.startWorker, .restartWorker, .restartWorker]).children.length = 1 ∧
    afterOverlappingRestarts.children.length = 3 ∧
    afterOverlappingRestarts.worker = some 2 ∧
    afterOverlappingRestarts.liveTimers = [1, 2] := by
  decide

/-- C18, amended: `restartWorker` has no guard against a restart in flight.
Every call made while the current child has not exited adds one more listener
to that child's `exit` event and forks nothing itself, and when the child
exits every waiting listener forks a child of its own: after `n` calls, the
exit forks `n` new children on top of those of the restarts already waiting
(two calls in flight: two new children).  After at least one call the
supervisor then holds the child forked last, and monitoringInterval is an
interval that is running. -/
theorem exit_forks_one_child_per_restart (pidOf : Nat → Option Nat) (n : Nat) (s : State)
    (id : Nat) (w : Worker) (hw : s.worker = some id) (hc : s.children.get? id = some w)
    (hlive : w.exited = false) :
    ((fun t => (restartWorker pidOf t).1)^[n] s).children.length = s.children.length ∧
    (exitEvent pidOf ((fun t => (restartWorker pidOf t).1)^[n] s) id).children.length =
      s.children.length + pendingRestarts w + n ∧
    (0 < n →
      ∃ new timer,
        (exitEvent pidOf ((fun t => (restartWorker pidOf t).1)^[n] s) id).worker = some new ∧
        new + 1 =
          (exitEvent pidOf ((fun t => (restartWorker pidOf t).1)^[n] s) id).children.length ∧
        (exitEvent pidOf ((fun t => (restartWorker pidOf t).1)^[n] s) id).children.get? new =
          some { pid := pidOf new, killed := false, exited := false,
                 exitListeners := [.stopMonitoring] } ∧
        (exitEvent pidOf
          ((fun t => (restartWorker pidOf t).1)^[n] s) id).monitoringInterval = some timer ∧
        timer ∈ (exitEvent pidOf ((fun t => (restartWorker pidOf t).1)^[n] s) id).liveTimers) := by
  obtain ⟨h1, w', h2, h3, h4⟩ := iterate_restartWorker_pending pidOf n s id w hw hc hlive
  refine ⟨h1, ?_, ?_⟩
  · rw [exitEvent_length pidOf _ id w' h2 h3, h1, h4]
    omega
  · intro hn
    obtain ⟨w1, before, p, g1, g2, g3⟩ :=
      iterate_restartWorker_last pidOf n s id w hw hc hlive (Or.inl hn)
    obtain ⟨new, timer, e1, e2, _, e4, e5, e6⟩ :=
      exitEvent_last_restart pidOf _ id w1 before p g1 g2 g3
    exact ⟨new, timer, e1, e2, e4, e5, e6⟩

/-- C18 after a start: two calls in flight give two new children. -/
theorem exit_forks_one_child_per_restart_witness :
    (exitEvent samplePid
        ((fun t => (restartWorker samplePid t).1)^[2] (startWorker samplePid initial)) 0
      ).children.length = 3 :=
  (exit_forks_one_child_per_restart samplePid 2 (startWorker samplePid initial) 0
    { pid := some 100, killed := false, exited := false, exitListeners := [.stopMonitoring] }
    rfl rfl rfl).2.1

/-- C19, as stated, fails: after two overlapping restarts no restart is in
flight and the supervisor watches child 2, but the interval of the first of
the two new children was never cleared; when child 2 exits, monitoringInterval
becomes null and yet that interval still fires and asks for a CPU sample. -/
theorem unexpected_exit_counterexample :
    (∀ w ∈ afterOverlappingRestarts.children, pendingRestarts w = 0) ∧
    afterOverlappingRestarts.worker = some 2 ∧
    (exitEvent samplePid afterOverlappingRestarts 2).monitoringInterval = none ∧
    (exitEvent samplePid afterOverlappingRestarts 2).children.length =
      afterOverlappingRestarts.children.length ∧
    (exitEvent samplePid afterOverlappingRestarts 2).liveTimers = [1] ∧
    (tick samplePid 70 (exitEvent samplePid afterOverlappingRestarts 2) 1 none).samples =
      (exitEvent samplePid afterOverlappingRestarts 2).samples + 1 := by
  decide

/-- C19, amended: on the exit of a child with no restart waiting for it,
`MasterProcess` sets monitoringInterval to null and forks no child; and when
monitoringInterval was the only interval running (none was left behind by
overlapping restarts or repeated starts), no interval is running afterwards,
so no further CPU sample is taken. -/
theorem unexpected_exit_stops_monitoring (pidOf : Nat → Option Nat) (threshold : ℚ) (s : State)
    (id : Nat) (w : Worker) (hc : s.children.get? id = some w) (hlive : w.exited = false)
    (hnone : w.exitListeners = [.stopMonitoring]) :
    (exitEvent pidOf s id).monitoringInterval = none ∧
    (exitEvent pidOf s id).children.length = s.children.length ∧
    (exitEvent pidOf s id).worker = s.worker ∧
    (s.liveTimers = s.monitoringInterval.toList →
      (exitEvent pidOf s id).liveTimers = [] ∧
      ∀ timer sample, tick pidOf threshold (exitEvent pidOf s id) timer sample =
        exitEvent pidOf s id) := by
  have hexit : exitEvent pidOf s id =
      stopMonitoring
        { s with
          children :=
            modifyAt
              (fun c =>
                { c with
                  exited := true
                  exitListeners := c.exitListeners.filter fun l => !l.isRestart })
              id s.children } := by
    simp only [exitEvent, hc, hlive, hnone, runExitListener, Bool.false_eq_true, if_false,
      List.foldl_cons, List.foldl_nil]
  rw [hexit]
  refine ⟨(stopMonitoring_children _).2.2.2, ?_, (stopMonitoring_children _).2.1, ?_⟩
  · rw [(stopMonitoring_children _).1]
    exact length_modifyAt _ _ _
  · intro htimers
    have hempty : (stopMonitoring
        { s with
          children :=
            modifyAt
              (fun c =>
                { c with
                  exited := true
                  exitListeners := c.exitListeners.filter fun l => !l.isRestart })
              id s.children }).liveTimers = [] := by
      unfold stopMonitoring
      cases hm : s.monitoringInterval with
      | none => simpa [hm] using htimers
      | some timer => simp [hm, htimers]
    refine ⟨hempty, ?_⟩
    intro timer sample
    simp [tick, hempty]

/-- C19 after a start: the only child exits, monitoring stops and no
interval is left. -/
theorem unexpected_exit_stops_monitoring_witness :
    (exitEvent samplePid (startWorker samplePid initial) 0).monitoringInterval = none ∧
    (exitEvent samplePid (startWorker samplePid initial) 0).children.length = 1 ∧
    (exitEvent samplePid (startWorker samplePid initial) 0).liveTimers = [] :=
  have h := unexpected_exit_stops_monitoring samplePid 70 (startWorker samplePid initial) 0
    { pid := some 100, killed := false, exited := false, exitListeners := [.stopMonitoring] }
    rfl rfl rfl
  ⟨h.1, h.2.1, (h.2.2.2 rfl).1⟩

/-- C20: called while the current child has not exited, `restartWorker` signals
that child and forks nothing, its promise pending; when the child's `exit`
event is delivered the promise is resolved, and the supervisor then holds a
child forked during that event, distinct from the old one and not exited, and
monitoringInterval is an interval that is running, although the old child's
own exit listener, called first, stopped monitoring. -/
theorem restart_stops_then_starts (pidOf : Nat → Option Nat) (s : State) (id : Nat) (w : Worker)
    (hw : s.worker = some id) (hc : s.children.get? id = some w) (hlive : w.exited = false) :
    (restartWorker pidOf s).1.children.length = s.children.length ∧
    (restartWorker pidOf s).1.resolved = s.resolved ∧
    (∃ w1, (restartWorker pidOf s).1.children.get? id = some w1 ∧ w1.killed = true ∧
      w1.exited = false) ∧
    (restartWorker pidOf s).2 ∈
      (exitEvent pidOf (restartWorker pidOf s).1 id).resolved ∧
    (∃ new, (exitEvent pidOf (restartWorker pidOf s).1 id).worker = some new ∧ new ≠ id ∧
      s.children.length ≤ new ∧
      (exitEvent pidOf (restartWorker pidOf s).1 id).children.get? new =
        some { pid := pidOf new, killed := false, exited := false,
               exitListeners := [.stopMonitoring] }) ∧
    (∃ timer, (exitEvent pidOf (restartWorker pidOf s).1 id).monitoringInterval = some timer ∧
      timer ∈ (exitEvent pidOf (restartWorker pidOf s).1 id).liveTimers) := by
  obtain ⟨_, h2, h3, h4, h5⟩ := restartWorker_pending pidOf s id w hw hc hlive
  have hid : id < s.children.length := by
    rcases Nat.lt_or_ge id s.children.length with h | h
    · exact h
    · rw [List.get?_eq_none.mpr h] at hc
      cases hc
  refine ⟨h2, h3, ⟨_, h5, rfl, hlive⟩, ?_⟩
  have hexit : exitEvent pidOf (restartWorker pidOf s).1 id =
      runExitListener pidOf
        (w.exitListeners.foldl (runExitListener pidOf)
          { (restartWorker pidOf s).1 with
            children :=
              modifyAt
                (fun c =>
                  { c with
                    exited := true
                    exitListeners := c.exitListeners.filter fun l => !l.isRestart })
                id (restartWorker pidOf s).1.children })
        (.restart s.nextPromise) := by
    simp only [exitEvent, h5, hlive, Bool.false_eq_true, if_false, List.foldl_append,
      List.foldl_cons, List.foldl_nil]
  rw [hexit, h4]
  generalize hT : w.exitListeners.foldl (runExitListener pidOf)
          { (restartWorker pidOf s).1 with
            children :=
              modifyAt
                (fun c =>
                  { c with
                    exited := true
                    exitListeners := c.exitListeners.filter fun l => !l.isRestart })
                id (restartWorker pidOf s).1.children } = T
  have hlen : T.children.length = s.children.length + pendingRestarts w := by
    rw [← hT, foldl_runExitListener_length]
    simp [length_modifyAt, h2, pendingRestarts]
  obtain ⟨c1, c2, c3, c4, _⟩ := startWorker_spec pidOf T
  refine ⟨?_, ⟨T.children.length, ?_, ?_, ?_, ?_⟩, ⟨T.nextTimer, ?_, ?_⟩⟩
  · simp [runExitListener]
  · simpa [runExitListener] using c2
  · omega
  · omega
  · simp only [runExitListener, c1]
    simp
  · simpa [runExitListener] using c3
  · simpa [runExitListener] using c4

/-- C20 after a start: the restart kills child 0, and after its exit the
supervisor holds child 1 and interval 1 is running. -/
theorem restart_stops_then_starts_witness :
    (restartWorker samplePid (startWorker samplePid initial)).1.children.length = 1 ∧
    (exitEvent samplePid (restartWorker samplePid (startWorker samplePid initial)).1 0).resolved
        = [0] ∧
    (exitEvent samplePid (restartWorker samplePid (startWorker samplePid initial)).1 0).worker
        = some 1 ∧
    (exitEvent samplePid
        (restartWorker samplePid (startWorker samplePid initial)).1 0).monitoringInterval
        = some 1 := by
  have h := restart_stops_then_starts samplePid (startWorker samplePid initial) 0
    { pid := some 100, killed := false, exited := false, exitListeners := [.stopMonitoring] }
    rfl rfl rfl
  exact ⟨h.1, by decide, by decide, by decide⟩

end MasterProcess

/-! ## Properties of MasterProcess: shutdown and the monitoring cycle -/

namespace MasterProcess

theorem get?_modifyAt_ne {α : Type} (f : α → α) (n m : Nat) (l : List α) (h : m ≠ n) :
    (modifyAt f n l).get? m = l.get? m := by
  induction l generalizing n m with
  | nil => cases n <;> rfl
  | cons x xs ih =>
    cases n with
    | zero =>
      cases m with
      | zero => exact absurd rfl h
      | succ m => rfl
    | succ n =>
      cases m with
      | zero => rfl
      | succ m =>
        have hne : m ≠ n := fun e => h (by rw [e])
        simpa [modifyAt] using ih n m hne

theorem stopMonitoring_liveTimers (s : State) (timer : Nat)
    (h : s.monitoringInterval = some timer) : timer ∉ (stopMonitoring s).liveTimers := by
  simp [stopMonitoring, h, List.mem_filter]

theorem shutdown_eq (s : State) :
    shutdown s =
      match s.worker with
      | some id => { stopMonitoring s with children := modifyAt kill id s.children }
      | none => stopMonitoring s := by
  obtain ⟨hch, hwk, _, _⟩ := stopMonitoring_children s
  unfold shutdown
  simp only [hwk, hch]

/-- C21: in every supervisor state, after `shutdown` monitoringInterval is
null and its interval is cleared; no child is forked and `this.worker` is
kept; when a worker exists `kill` has been called on it, which signals it
unless it has already exited; and when no worker exists `shutdown` is just
`stopMonitoring`.  The function is total: nothing is raised. -/
theorem shutdown_stops_and_kills (s : State) :
    (shutdown s).monitoringInterval = none ∧
    (∀ timer, s.monitoringInterval = some timer → timer ∉ (shutdown s).liveTimers) ∧
    (shutdown s).worker = s.worker ∧
    (shutdown s).children.length = s.children.length ∧
    (∀ id w, s.worker = some id → s.children.get? id = some w →
      (shutdown s).children.get? id = some (kill w) ∧ (w.exited = false → (kill w).killed = true)) ∧
    (s.worker = none → shutdown s = stopMonitoring s ∧ (shutdown s).children = s.children) := by
  obtain ⟨hch, hwk, _, hmon⟩ := stopMonitoring_children s
  rw [shutdown_eq]
  cases hw : s.worker with
  | none =>
    refine ⟨hmon, fun t ht => stopMonitoring_liveTimers s t ht, by rw [hwk, hw], by rw [hch], ?_, ?_⟩
    · intro id w h
      cases h
    · intro _
      exact ⟨rfl, hch⟩
  | some id =>
    refine ⟨hmon, fun t ht => stopMonitoring_liveTimers s t ht, by simp only [hwk, hw],
      length_modifyAt _ _ _, ?_, ?_⟩
    · intro id' w hid hc
      simp only [Option.some.injEq] at hid
      subst hid
      refine ⟨?_, ?_⟩
      · show (modifyAt kill id s.children).get? id = _
        rw [get?_modifyAt, hc]
        rfl
      · intro hlive
        simp [kill, hlive]
    · intro h
      cases h

theorem restartWorker_nextPromise (pidOf : Nat → Option Nat) (s : State) :
    (restartWorker pidOf s).1.nextPromise = s.nextPromise + 1 := by
  unfold restartWorker
  cases s.worker <;> simp [startWorker, startMonitoring]

/-- C22: when an interval of the supervisor fires, a restart is triggered if
and only if `this.worker` is a child with a pid, the CPU sample succeeds and
the usage sampled is greater than or equal to the threshold; in every other
case nothing but the count of samples changes, so a failed sample and a
sample strictly below the threshold leave the worker, the children and the
monitoring timer as they were.  The callback is total: nothing is raised. -/
theorem tick_restart_iff (pidOf : Nat → Option Nat) (threshold : ℚ) (s : State) (timer : Nat)
    (sample : Option ℚ) (hlive : timer ∈ s.liveTimers) :
    (((∃ id w pid, s.worker = some id ∧ s.children.get? id = some w ∧ w.pid = some pid ∧
          pid ≠ 0) ∧ ∃ cpu, sample = some cpu ∧ cpu ≥ threshold) →
      tick pidOf threshold s timer sample =
        (restartWorker pidOf { s with samples := s.samples + 1 }).1) ∧
    (¬((∃ id w pid, s.worker = some id ∧ s.children.get? id = some w ∧ w.pid = some pid ∧
          pid ≠ 0) ∧ ∃ cpu, sample = some cpu ∧ cpu ≥ threshold) →
      tick pidOf threshold s timer sample = s ∨
        tick pidOf threshold s timer sample = { s with samples := s.samples + 1 }) ∧
    ((tick pidOf threshold s timer sample).nextPromise = s.nextPromise + 1 ↔
      (∃ id w pid, s.worker = some id ∧ s.children.get? id = some w ∧ w.pid = some pid ∧
          pid ≠ 0) ∧ ∃ cpu, sample = some cpu ∧ cpu ≥ threshold) := by
  have hcont : s.liveTimers.contains timer = true := by simpa using hlive
  have key :
      (((∃ id w pid, s.worker = some id ∧ s.children.get? id = some w ∧ w.pid = some pid ∧
            pid ≠ 0) ∧ ∃ cpu, sample = some cpu ∧ cpu ≥ threshold) ∧
        tick pidOf threshold s timer sample =
          (restartWorker pidOf { s with samples := s.samples + 1 }).1) ∨
      (¬((∃ id w pid, s.worker = some id ∧ s.children.get? id = some w ∧ w.pid = some pid ∧
            pid ≠ 0) ∧ ∃ cpu, sample = some cpu ∧ cpu ≥ threshold) ∧
        (tick pidOf threshold s timer sample = s ∨
          tick pidOf threshold s timer sample = { s with samples := s.samples + 1 })) := by
    obtain ⟨children, worker, mon, live, nt, np, res, samples⟩ := s
    unfold tick
    rw [if_pos hcont]
    cases worker with
    | none =>
      right
      refine ⟨?_, Or.inl rfl⟩
      rintro ⟨⟨_, _, _, h1, _⟩, _⟩
      cases h1
    | some id =>
      cases hc : children.get? id with
      | none =>
        right
        refine ⟨?_, Or.inl (by simp only [hc, Option.bind])⟩
        rintro ⟨⟨id', w, pid, h1, h2, _⟩, _⟩
        simp only [Option.some.injEq] at h1
        subst h1
        simp only [hc] at h2
        cases h2
      | some w =>
        obtain ⟨wpid, wkilled, wexited, wlisteners⟩ := w
        cases wpid with
        | none =>
          right
          refine ⟨?_, Or.inl (by simp only [hc, Option.bind])⟩
          rintro ⟨⟨id', w', pid, h1, h2, h3, _⟩, _⟩
          simp only [Option.some.injEq] at h1
          subst h1
          simp only [hc, Option.some.injEq] at h2
          subst h2
          cases h3
        | some pid =>
          by_cases hzero : pid = 0
          · right
            refine ⟨?_, Or.inl (by simp only [hc, Option.bind, hzero, if_true])⟩
            rintro ⟨⟨id', w', pid', h1, h2, h3, h4⟩, _⟩
            simp only [Option.some.injEq] at h1
            subst h1
            simp only [hc, Option.some.injEq] at h2
            subst h2
            simp only [Option.some.injEq] at h3
            exact h4 (h3 ▸ hzero)
          · cases sample with
            | none =>
              right
              refine ⟨?_, Or.inr (by simp only [hc, Option.bind, hzero, if_false])⟩
              rintro ⟨_, _, h1, _⟩
              cases h1
            | some cpu =>
              by_cases hcpu : cpu ≥ threshold
              · left
                exact ⟨⟨⟨id, _, pid, rfl, hc, rfl, hzero⟩, cpu, rfl, hcpu⟩,
                  by simp only [hc, Option.bind, hzero, if_false, hcpu, if_true]⟩
              · right
                refine ⟨?_, Or.inr (by simp only [hc, Option.bind, hzero, if_false, hcpu])⟩
                rintro ⟨_, cpu', h1, h2⟩
                simp only [Option.some.injEq] at h1
                exact hcpu (h1 ▸ h2)
  rcases key with ⟨hcond, htick⟩ | ⟨hcond, htick⟩
  · refine ⟨fun _ => htick, fun h => absurd hcond h, ?_⟩
    rw [htick, restartWorker_nextPromise]
    exact ⟨fun _ => hcond, fun _ => rfl⟩
  · refine ⟨fun h => absurd h hcond, fun _ => htick, ?_⟩
    constructor
    · intro h
      rcases htick with ht | ht <;> rw [ht] at h <;> simp at h
    · intro h
      exact absurd h hcond

/-- C22 after a start: a sample of 85 against the threshold 70 triggers a
restart, which signals child 0. -/
theorem tick_restart_iff_witness :
    (tick samplePid 70 (startWorker samplePid initial) 0 (some 85)).nextPromise = 1 ∧
    (tick samplePid 70 (startWorker samplePid initial) 0 (some 85)).children.length = 1 :=
  ⟨((tick_restart_iff samplePid 70 (startWorker samplePid initial) 0 (some 85)
      (by decide)).2.2).mpr
      ⟨⟨0, _, 100, rfl, rfl, rfl, by decide⟩, 85, rfl, by decide⟩,
    by decide⟩

theorem exitEvent_only_stop (pidOf : Nat → Option Nat) (s : State) (id : Nat) (w : Worker)
    (hc : s.children.get? id = some w) (hlive : w.exited = false)
    (hnone : w.exitListeners = [.stopMonitoring]) :
    (exitEvent pidOf s id).monitoringInterval = none ∧
    (exitEvent pidOf s id).worker = s.worker ∧
    (exitEvent pidOf s id).children.length = s.children.length := by
  have hexit : exitEvent pidOf s id =
      stopMonitoring
        { s with
          children :=
            modifyAt
              (fun c =>
                { c with
                  exited := true
                  exitListeners := c.exitListeners.filter fun l => !l.isRestart })
              id s.children } := by
    simp only [exitEvent, hc, hlive, hnone, runExitListener, Bool.false_eq_true, if_false,
      List.foldl_cons, List.foldl_nil]
  rw [hexit]
  refine ⟨(stopMonitoring_children _).2.2.2, (stopMonitoring_children _).2.1, ?_⟩
  rw [(stopMonitoring_children _).1]
  exact length_modifyAt _ _ _

theorem shutdown_child (s : State) (id : Nat) (w : Worker) (hw : s.worker = some id)
    (hc : s.children.get? id = some w) (hlive : w.exited = false) :
    (shutdown s).children.get? id = some { w with killed := true } ∧
    (shutdown s).children.length = s.children.length ∧
    (shutdown s).worker = some id ∧ (shutdown s).monitoringInterval = none := by
  obtain ⟨_, hwk, _, hmon⟩ := stopMonitoring_children s
  rw [shutdown_eq, hw]
  refine ⟨?_, length_modifyAt _ _ _, by simp only [hwk, hw], hmon⟩
  show (modifyAt kill id s.children).get? id = _
  rw [get?_modifyAt, hc]
  simp [kill, hlive]

/-- C29, as stated, fails: `shutdown` called while a restart is in flight
stops monitoring and signals the child, but the listener of the restart is
still registered, and when the child exits it forks a new child and starts
monitoring again. -/
theorem shutdown_during_restart_counterexample :
    shutdownDuringRestart.monitoringInterval = none ∧
    shutdownDuringRestart.children.length = 1 ∧
    (exitEvent samplePid shutdownDuringRestart 0).children.length = 2 ∧
    (exitEvent samplePid shutdownDuringRestart 0).worker = some 1 ∧
    (exitEvent samplePid shutdownDuringRestart 0).monitoringInterval = some 1 := by
  decide

/-- C29, amended: after `shutdown`, called while the current child has not
exited, monitoringInterval is null, and the later `exit` event of that child
forks one child for every restart that was waiting for it; so when no restart
is in flight the exit forks nothing, no `startWorker` call happens and
monitoringInterval remains null, and when the listener of a restart in flight
is the last one registered on the child, the supervisor afterwards holds a
newly forked child and monitoringInterval is an interval that is running. -/
theorem shutdown_then_exit (pidOf : Nat → Option Nat) (s : State) (id : Nat) (w : Worker)
    (hw : s.worker = some id) (hc : s.children.get? id = some w) (hlive : w.exited = false) :
    (shutdown s).monitoringInterval = none ∧
    (shutdown s).children.length = s.children.length ∧
    (exitEvent pidOf (shutdown s) id).children.length = s.children.length + pendingRestarts w ∧
    (w.exitListeners = [.stopMonitoring] →
      (exitEvent pidOf (shutdown s) id).children.length = s.children.length ∧
      (exitEvent pidOf (shutdown s) id).monitoringInterval = none ∧
      (exitEvent pidOf (shutdown s) id).worker = some id) ∧
    (∀ before p, w.exitListeners = before ++ [.restart p] →
      ∃ new timer,
        (exitEvent pidOf (shutdown s) id).worker = some new ∧ s.children.length ≤ new ∧
        (exitEvent pidOf (shutdown s) id).children.get? new =
          some { pid := pidOf new, killed := false, exited := false,
                 exitListeners := [.stopMonitoring] } ∧
        (exitEvent pidOf (shutdown s) id).monitoringInterval = some timer ∧
        timer ∈ (exitEvent pidOf (shutdown s) id).liveTimers) := by
  obtain ⟨h1, h2, h3, h4⟩ := shutdown_child s id w hw hc hlive
  refine ⟨h4, h2, ?_, ?_, ?_⟩
  · rw [exitEvent_length pidOf (shutdown s) id _ h1 hlive, h2]
    rfl
  · intro hnone
    obtain ⟨e1, e2, e3⟩ := exitEvent_only_stop pidOf (shutdown s) id _ h1 hlive hnone
    exact ⟨e3.trans h2, e1, e2.trans h3⟩
  · intro before p hl
    obtain ⟨new, timer, e1, _, e3, e4, e5, e6⟩ :=
      exitEvent_last_restart pidOf (shutdown s) id _ before p h1 hlive hl
    exact ⟨new, timer, e1, by omega, e4, e5, e6⟩

/-- C29 after a start: `shutdown`, then the exit of the child, forks nothing
and leaves monitoring stopped. -/
theorem shutdown_then_exit_witness :
    (exitEvent samplePid (shutdown (startWorker samplePid initial)) 0).children.length = 1 ∧
    (exitEvent samplePid (shutdown (startWorker samplePid initial)) 0).monitoringInterval = none :=
  have h := (shutdown_then_exit samplePid (startWorker samplePid initial) 0
    { pid := some 100, killed := false, exited := false, exitListeners := [.stopMonitoring] }
    rfl rfl rfl).2.2.2.1 rfl
  ⟨h.1, h.2.1⟩

/-! ## Properties of MasterProcess: a restart waits for the exit -/

theorem stopMonitoring_nextPromise (s : State) :
    (stopMonitoring s).nextPromise = s.nextPromise := by
  unfold stopMonitoring
  cases h : s.monitoringInterval <;> simp [h]

theorem get?_append_single {α : Type} (l : List α) (x : α) (j : Nat) (c : α)
    (h : (l ++ [x]).get? j = some c) : l.get? j = some c ∨ (j = l.length ∧ c = x) := by
  rcases Nat.lt_trichotomy j l.length with hlt | heq | hgt
  · left
    rw [List.get?_eq_getElem?] at h ⊢
    rwa [List.getElem?_append_left hlt] at h
  · right
    subst heq
    rw [List.get?_eq_getElem?] at h
    simp at h
    exact ⟨rfl, h.symm⟩
  · exfalso
    have : (l ++ [x]).get? j = none := List.get?_eq_none.mpr (by simp; omega)
    rw [this] at h
    cases h

theorem awaitsExit_mono {p id : Nat} {t u : State} (h : awaitsExit p id t)
    (hr : u.resolved = t.resolved) (hn : t.nextPromise ≤ u.nextPromise)
    (hc : u.children = t.children) : awaitsExit p id u := by
  unfold awaitsExit at *
  rw [hr, hc]
  exact ⟨h.1, Nat.lt_of_lt_of_le h.2.1 hn, h.2.2⟩

theorem awaitsExit_modifyAt {p id : Nat} {t u : State} (f : Worker → Worker) (k : Nat)
    (hf : ∀ c, ExitListener.restart p ∈ (f c).exitListeners →
      ExitListener.restart p ∈ c.exitListeners)
    (h : awaitsExit p id t) (hr : u.resolved = t.resolved)
    (hn : t.nextPromise ≤ u.nextPromise) (hc : u.children = modifyAt f k t.children) :
    awaitsExit p id u := by
  unfold awaitsExit at *
  rw [hr, hc]
  refine ⟨h.1, Nat.lt_of_lt_of_le h.2.1 hn, ?_⟩
  intro j c hj hm
  by_cases hjk : j = k
  · subst hjk
    rw [get?_modifyAt] at hj
    cases hcj : t.children.get? j with
    | none =>
      rw [hcj] at hj
      cases hj
    | some c0 =>
      rw [hcj] at hj
      cases hj
      exact h.2.2 j c0 hcj (hf c0 hm)
  · rw [get?_modifyAt_ne _ _ _ _ hjk] at hj
    exact h.2.2 j c hj hm

theorem awaitsExit_startWorker (pidOf : Nat → Option Nat) {p id : Nat} {t : State}
    (h : awaitsExit p id t) : awaitsExit p id (startWorker pidOf t) := by
  unfold awaitsExit at *
  refine ⟨h.1, h.2.1, ?_⟩
  intro j c hj hm
  rw [(startWorker_spec pidOf t).1] at hj
  rcases get?_append_single _ _ _ _ hj with h1 | ⟨_, h2⟩
  · exact h.2.2 j c h1 hm
  · subst h2
    simp at hm

theorem awaitsExit_stopMonitoring {p id : Nat} {t : State} (h : awaitsExit p id t) :
    awaitsExit p id (stopMonitoring t) :=
  awaitsExit_mono h (stopMonitoring_children t).2.2.1
    (Nat.le_of_eq (stopMonitoring_nextPromise t).symm) (stopMonitoring_children t).1

theorem awaitsExit_restartWorker (pidOf : Nat → Option Nat) {p id : Nat} {t : State}
    (h : awaitsExit p id t) : awaitsExit p id (restartWorker pidOf t).1 := by
  cases hw : t.worker with
  | some k =>
    have hr : (restartWorker pidOf t).1 =
        { t with
          nextPromise := t.nextPromise + 1
          children :=
            modifyAt
              (fun w =>
                kill { w with exitListeners := w.exitListeners ++ [.restart t.nextPromise] })
              k t.children } := by
      simp only [restartWorker, hw]
    rw [hr]
    refine awaitsExit_modifyAt _ k ?_ h rfl (Nat.le_succ _) rfl
    intro c hm
    have hp : p ≠ t.nextPromise := Nat.ne_of_lt h.2.1
    unfold kill at hm
    split at hm <;> simpa [hp] using hm
  | none =>
    have hr : (restartWorker pidOf t).1 =
        { startWorker pidOf { t with nextPromise := t.nextPromise + 1 } with
          resolved :=
            (startWorker pidOf { t with nextPromise := t.nextPromise + 1 }).resolved ++
              [t.nextPromise] } := by
      simp only [restartWorker, hw]
    have h1 : awaitsExit p id (startWorker pidOf { t with nextPromise := t.nextPromise + 1 }) :=
      awaitsExit_startWorker pidOf (awaitsExit_mono h rfl (Nat.le_succ _) rfl)
    rw [hr]
    unfold awaitsExit at h1 ⊢
    refine ⟨?_, h1.2.1, h1.2.2⟩
    have hp : p ≠ t.nextPromise := Nat.ne_of_lt h.2.1
    simpa [hp] using h1.1

theorem awaitsExit_runExitListener (pidOf : Nat → Option Nat) {p id : Nat} {t : State}
    (l : ExitListener) (hl : l ≠ .restart p) (h : awaitsExit p id t) :
    awaitsExit p id (runExitListener pidOf t l) := by
  cases l with
  | stopMonitoring => exact awaitsExit_stopMonitoring h
  | restart q =>
    have hq : p ≠ q := fun e => hl (by rw [e])
    have h1 := awaitsExit_startWorker pidOf h
    unfold awaitsExit at h1 ⊢
    refine ⟨?_, h1.2.1, h1.2.2⟩
    simpa [runExitListener, hq] using h1.1

theorem awaitsExit_foldl (pidOf : Nat → Option Nat) {p id : Nat} (ls : List ExitListener)
    (hl : ExitListener.restart p ∉ ls) {t : State} (h : awaitsExit p id t) :
    awaitsExit p id (ls.foldl (runExitListener pidOf) t) := by
  induction ls generalizing t with
  | nil => exact h
  | cons l rest ih =>
    rw [List.foldl_cons]
    refine ih (fun hm => hl (List.mem_cons_of_mem _ hm)) ?_
    exact awaitsExit_runExitListener pidOf l (fun e => hl (by rw [e]; exact List.mem_cons_self _ _)) h

theorem awaitsExit_exitEvent (pidOf : Nat → Option Nat) {p id : Nat} {t : State} (j : Nat)
    (hj : j ≠ id) (h : awaitsExit p id t) : awaitsExit p id (exitEvent pidOf t j) := by
  unfold exitEvent
  cases hc : t.children.get? j with
  | none => exact h
  | some w =>
    by_cases hx : w.exited = true
    · simpa [hx] using h
    · simp only [hx, if_false]
      refine awaitsExit_foldl pidOf _ (fun hm => hj (h.2.2 j w hc hm)) ?_
      refine awaitsExit_modifyAt _ j ?_ h rfl (Nat.le_refl _) rfl
      intro c hm
      exact (List.mem_filter.mp hm).1

theorem awaitsExit_shutdown {p id : Nat} {t : State} (h : awaitsExit p id t) :
    awaitsExit p id (shutdown t) := by
  rw [shutdown_eq]
  cases hw : t.worker with
  | none => exact awaitsExit_stopMonitoring h
  | some k =>
    refine awaitsExit_modifyAt kill k ?_ h (stopMonitoring_children t).2.2.1
      (Nat.le_of_eq (stopMonitoring_nextPromise t).symm) ?_
    · intro c hm
      unfold kill at hm
      split at hm <;> simpa using hm
    · rfl

theorem awaitsExit_tick (pidOf : Nat → Option Nat) (threshold : ℚ) {p id : Nat} {t : State}
    (timer : Nat) (sample : Option ℚ) (h : awaitsExit p id t) :
    awaitsExit p id (tick pidOf threshold t timer sample) := by
  have hs : awaitsExit p id { t with samples := t.samples + 1 } :=
    awaitsExit_mono h rfl (Nat.le_refl _) rfl
  unfold tick
  repeat' split
  all_goals first | exact h | exact hs | exact awaitsExit_restartWorker pidOf hs

theorem awaitsExit_step (pidOf : Nat → Option Nat) (threshold : ℚ) {p id : Nat} {t : State}
    (e : Event) (he : e ≠ .exit id) (h : awaitsExit p id t) :
    awaitsExit p id (step pidOf threshold t e) := by
  cases e with
  | startWorker => exact awaitsExit_startWorker pidOf h
  | restartWorker => exact awaitsExit_restartWorker pidOf h
  | exit j => exact awaitsExit_exitEvent pidOf j (fun e => he (by rw [e])) h
  | tick timer sample => exact awaitsExit_tick pidOf threshold timer sample h
  | shutdown => exact awaitsExit_shutdown h

theorem awaitsExit_run (pidOf : Nat → Option Nat) (threshold : ℚ) {p id : Nat}
    (events : List Event) (he : ∀ e ∈ events, e ≠ .exit id) {t : State}
    (h : awaitsExit p id t) : awaitsExit p id (run pidOf threshold t events) := by
  induction events generalizing t with
  | nil => exact h
  | cons e rest ih =>
    show awaitsExit p id (run pidOf threshold (step pidOf threshold t e) rest)
    exact ih (fun x hx => he x (List.mem_cons_of_mem _ hx))
      (awaitsExit_step pidOf threshold e (he e (List.mem_cons_self _ _)) h)

theorem get?_append_of_some {α : Type} (l m : List α) (j : Nat) (c : α)
    (h : l.get? j = some c) : (l ++ m).get? j = some c := by
  have hlt : j < l.length := by
    by_contra hn
    rw [List.get?_eq_none.mpr (Nat.le_of_not_lt hn)] at h
    cases h
  rw [List.get?_eq_getElem?] at h ⊢
  rwa [List.getElem?_append_left hlt]

theorem hasExited_congr {id : Nat} {t u : State} (h : hasExited id t)
    (hc : u.children = t.children) : hasExited id u := by
  unfold hasExited at *
  rw [hc]
  exact h

theorem hasExited_modifyAt {id : Nat} {t u : State} (f : Worker → Worker) (k : Nat)
    (hf : ∀ c, c.exited = true → (f c).exited = true) (h : hasExited id t)
    (hc : u.children = modifyAt f k t.children) : hasExited id u := by
  obtain ⟨c, h1, h2⟩ := h
  unfold hasExited
  rw [hc]
  by_cases hk : id = k
  · subst hk
    refine ⟨f c, ?_, hf c h2⟩
    rw [get?_modifyAt, h1]
    rfl
  · exact ⟨c, by rw [get?_modifyAt_ne _ _ _ _ hk]; exact h1, h2⟩

theorem hasExited_startWorker (pidOf : Nat → Option Nat) {id : Nat} {t : State}
    (h : hasExited id t) : hasExited id (startWorker pidOf t) := by
  obtain ⟨c, h1, h2⟩ := h
  refine ⟨c, ?_, h2⟩
  rw [(startWorker_spec pidOf t).1]
  exact get?_append_of_some _ _ _ _ h1

theorem hasExited_restartWorker (pidOf : Nat → Option Nat) {id : Nat} {t : State}
    (h : hasExited id t) : hasExited id (restartWorker pidOf t).1 := by
  cases hw : t.worker with
  | some k =>
    have hr : (restartWorker pidOf t).1 =
        { t with
          nextPromise := t.nextPromise + 1
          children :=
            modifyAt
              (fun w =>
                kill { w with exitListeners := w.exitListeners ++ [.restart t.nextPromise] })
              k t.children } := by
      simp only [restartWorker, hw]
    rw [hr]
    refine hasExited_modifyAt _ k ?_ h rfl
    intro c hx
    simp [kill, hx]
  | none =>
    have hr : (restartWorker pidOf t).1 =
        { startWorker pidOf { t with nextPromise := t.nextPromise + 1 } with
          resolved :=
            (startWorker pidOf { t with nextPromise := t.nextPromise + 1 }).resolved ++
              [t.nextPromise] } := by
      simp only [restartWorker, hw]
    rw [hr]
    exact hasExited_congr
      (hasExited_startWorker pidOf (hasExited_congr h (rfl : ({ t with nextPromise := t.nextPromise + 1 } : State).children = t.children))) rfl

theorem hasExited_runExitListener (pidOf : Nat → Option Nat) {id : Nat} {t : State}
    (l : ExitListener) (h : hasExited id t) : hasExited id (runExitListener pidOf t l) := by
  cases l with
  | stopMonitoring => exact hasExited_congr h (stopMonitoring_children t).1
  | restart q => exact hasExited_congr (hasExited_startWorker pidOf h) rfl

theorem hasExited_foldl (pidOf : Nat → Option Nat) {id : Nat} (ls : List ExitListener)
    {t : State} (h : hasExited id t) : hasExited id (ls.foldl (runExitListener pidOf) t) := by
  induction ls generalizing t with
  | nil => exact h
  | cons l rest ih =>
    rw [List.foldl_cons]
    exact ih (hasExited_runExitListener pidOf l h)

theorem hasExited_exitEvent (pidOf : Nat → Option Nat) {id : Nat} {t : State} (j : Nat)
    (h : hasExited id t) : hasExited id (exitEvent pidOf t j) := by
  unfold exitEvent
  cases hc : t.children.get? j with
  | none => exact h
  | some w =>
    by_cases hx : w.exited = true
    · simpa [hx] using h
    · simp only [hx, if_false]
      refine hasExited_foldl pidOf _ ?_
      exact hasExited_modifyAt _ j (fun _ _ => rfl) h rfl

theorem hasExited_shutdown {id : Nat} {t : State} (h : hasExited id t) :
    hasExited id (shutdown t) := by
  rw [shutdown_eq]
  cases hw : t.worker with
  | none => exact hasExited_congr h (stopMonitoring_children t).1
  | some k =>
    refine hasExited_modifyAt kill k ?_ h rfl
    intro c hx
    simp [kill, hx]

theorem hasExited_tick (pidOf : Nat → Option Nat) (threshold : ℚ) {id : Nat} {t : State}
    (timer : Nat) (sample : Option ℚ) (h : hasExited id t) :
    hasExited id (tick pidOf threshold t timer sample) := by
  have hs : hasExited id { t with samples := t.samples + 1 } := hasExited_congr h rfl
  unfold tick
  repeat' split
  all_goals first | exact h | exact hs | exact hasExited_restartWorker pidOf hs

theorem hasExited_step (pidOf : Nat → Option Nat) (threshold : ℚ) {id : Nat} {t : State}
    (e : Event) (h : hasExited id t) : hasExited id (step pidOf threshold t e) := by
  cases e with
  | startWorker => exact hasExited_startWorker pidOf h
  | restartWorker => exact hasExited_restartWorker pidOf h
  | exit j => exact hasExited_exitEvent pidOf j h
  | tick timer sample => exact hasExited_tick pidOf threshold timer sample h
  | shutdown => exact hasExited_shutdown h

theorem exitEvent_of_hasExited (pidOf : Nat → Option Nat) {id : Nat} {t : State}
    (h : hasExited id t) : exitEvent pidOf t id = t := by
  obtain ⟨c, h1, h2⟩ := h
  simp only [exitEvent, h1, h2, if_true]

theorem awaitsExit_run_of_hasExited (pidOf : Nat → Option Nat) (threshold : ℚ) {p id : Nat}
    (events : List Event) {t : State} (h : awaitsExit p id t) (hx : hasExited id t) :
    awaitsExit p id (run pidOf threshold t events) := by
  induction events generalizing t with
  | nil => exact h
  | cons e rest ih =>
    show awaitsExit p id (run pidOf threshold (step pidOf threshold t e) rest)
    refine ih ?_ (hasExited_step pidOf threshold e hx)
    by_cases he : e = .exit id
    · subst he
      show awaitsExit p id (exitEvent pidOf t id)
      rw [exitEvent_of_hasExited pidOf hx]
      exact h
    · exact awaitsExit_step pidOf threshold e he h

theorem listensFor_congr {p id : Nat} {t u : State} (h : listensFor p id t)
    (hc : u.children = t.children) : listensFor p id u := by
  unfold listensFor at *
  rw [hc]
  exact h

theorem listensFor_modifyAt {p id : Nat} {t u : State} (f : Worker → Worker) (k : Nat)
    (hf : ∀ c, c.exited = false → ExitListener.restart p ∈ c.exitListeners →
      (f c).exited = false ∧ ExitListener.restart p ∈ (f c).exitListeners)
    (h : listensFor p id t) (hc : u.children = modifyAt f k t.children) :
    listensFor p id u := by
  obtain ⟨c, h1, h2, h3⟩ := h
  unfold listensFor
  rw [hc]
  by_cases hk : id = k
  · subst hk
    refine ⟨f c, ?_, hf c h2 h3⟩
    rw [get?_modifyAt, h1]
    rfl
  · exact ⟨c, by rw [get?_modifyAt_ne _ _ _ _ hk]; exact h1, h2, h3⟩

theorem listensFor_startWorker (pidOf : Nat → Option Nat) {p id : Nat} {t : State}
    (h : listensFor p id t) : listensFor p id (startWorker pidOf t) := by
  obtain ⟨c, h1, h2⟩ := h
  refine ⟨c, ?_, h2⟩
  rw [(startWorker_spec pidOf t).1]
  exact get?_append_of_some _ _ _ _ h1

theorem listensFor_restartWorker (pidOf : Nat → Option Nat) {p id : Nat} {t : State}
    (h : listensFor p id t) : listensFor p id (restartWorker pidOf t).1 := by
  cases hw : t.worker with
  | some k =>
    have hr : (restartWorker pidOf t).1 =
        { t with
          nextPromise := t.nextPromise + 1
          children :=
            modifyAt
              (fun w =>
                kill { w with exitListeners := w.exitListeners ++ [.restart t.nextPromise] })
              k t.children } := by
      simp only [restartWorker, hw]
    rw [hr]
    refine listensFor_modifyAt _ k ?_ h rfl
    intro c hx hm
    simp [kill, hx, hm]
  | none =>
    have hr : (restartWorker pidOf t).1 =
        { startWorker pidOf { t with nextPromise := t.nextPromise + 1 } with
          resolved :=
            (startWorker pidOf { t with nextPromise := t.nextPromise + 1 }).resolved ++
              [t.nextPromise] } := by
      simp only [restartWorker, hw]
    rw [hr]
    exact listensFor_congr
      (listensFor_startWorker pidOf
        (listensFor_congr h
          (rfl : ({ t with nextPromise := t.nextPromise + 1 } : State).children = t.children)))
      rfl

theorem listensFor_runExitListener (pidOf : Nat → Option Nat) {p id : Nat} {t : State}
    (l : ExitListener) (h : listensFor p id t) :
    listensFor p id (runExitListener pidOf t l) := by
  cases l with
  | stopMonitoring => exact listensFor_congr h (stopMonitoring_children t).1
  | restart q => exact listensFor_congr (listensFor_startWorker pidOf h) rfl

theorem listensFor_foldl (pidOf : Nat → Option Nat) {p id : Nat} (ls : List ExitListener)
    {t : State} (h : listensFor p id t) :
    listensFor p id (ls.foldl (runExitListener pidOf) t) := by
  induction ls generalizing t with
  | nil => exact h
  | cons l rest ih =>
    rw [List.foldl_cons]
    exact ih (listensFor_runExitListener pidOf l h)

theorem listensFor_exitEvent (pidOf : Nat → Option Nat) {p id : Nat} {t : State} (j : Nat)
    (hj : j ≠ id) (h : listensFor p id t) : listensFor p id (exitEvent pidOf t j) := by
  unfold exitEvent
  cases hc : t.children.get? j with
  | none => exact h
  | some w =>
    by_cases hx : w.exited = true
    · simpa [hx] using h
    · simp only [hx, if_false]
      refine listensFor_foldl pidOf _ ?_
      obtain ⟨c, h1, h2⟩ := h
      refine ⟨c, ?_, h2⟩
      show (modifyAt _ j t.children).get? id = some c
      rw [get?_modifyAt_ne _ _ _ _ (Ne.symm hj)]
      exact h1

theorem listensFor_shutdown {p id : Nat} {t : State} (h : listensFor p id t) :
    listensFor p id (shutdown t) := by
  rw [shutdown_eq]
  cases hw : t.worker with
  | none => exact listensFor_congr h (stopMonitoring_children t).1
  | some k =>
    refine listensFor_modifyAt kill k ?_ h rfl
    intro c hx hm
    simp [kill, hx, hm]

theorem listensFor_tick (pidOf : Nat → Option Nat) (threshold : ℚ) {p id : Nat} {t : State}
    (timer : Nat) (sample : Option ℚ) (h : listensFor p id t) :
    listensFor p id (tick pidOf threshold t timer sample) := by
  have hs : listensFor p id { t with samples := t.samples + 1 } := listensFor_congr h rfl
  unfold tick
  repeat' split
  all_goals first | exact h | exact hs | exact listensFor_restartWorker pidOf hs

theorem listensFor_run (pidOf : Nat → Option Nat) (threshold : ℚ) {p id : Nat}
    (events : List Event) (he : ∀ e ∈ events, e ≠ .exit id) {t : State}
    (h : listensFor p id t) : listensFor p id (run pidOf threshold t events) := by
  induction events generalizing t with
  | nil => exact h
  | cons e rest ih =>
    show listensFor p id (run pidOf threshold (step pidOf threshold t e) rest)
    refine ih (fun x hx => he x (List.mem_cons_of_mem _ hx)) ?_
    have hne := he e (List.mem_cons_self _ _)
    cases e with
    | startWorker => exact listensFor_startWorker pidOf h
    | restartWorker => exact listensFor_restartWorker pidOf h
    | exit j => exact listensFor_exitEvent pidOf j (fun e => hne (by rw [e])) h
    | tick timer sample => exact listensFor_tick pidOf threshold timer sample h
    | shutdown => exact listensFor_shutdown h

theorem runExitListener_resolved (pidOf : Nat → Option Nat) (t : State) (l : ExitListener)
    (q : Nat) (h : q ∈ t.resolved) : q ∈ (runExitListener pidOf t l).resolved := by
  cases l with
  | stopMonitoring =>
    show q ∈ (stopMonitoring t).resolved
    rw [(stopMonitoring_children t).2.2.1]
    exact h
  | restart r =>
    show q ∈ (startWorker pidOf t).resolved ++ [r]
    exact List.mem_append_left _ h

theorem foldl_resolved_mono (pidOf : Nat → Option Nat) (ls : List ExitListener) (t : State)
    (q : Nat) (h : q ∈ t.resolved) : q ∈ (ls.foldl (runExitListener pidOf) t).resolved := by
  induction ls generalizing t with
  | nil => exact h
  | cons l rest ih =>
    rw [List.foldl_cons]
    exact ih _ (runExitListener_resolved pidOf t l q h)

theorem foldl_resolved_of_mem (pidOf : Nat → Option Nat) (ls : List ExitListener) (t : State)
    (p : Nat) (h : ExitListener.restart p ∈ ls) :
    p ∈ (ls.foldl (runExitListener pidOf) t).resolved := by
  induction ls generalizing t with
  | nil => cases h
  | cons l rest ih =>
    rw [List.foldl_cons]
    rcases List.mem_cons.mp h with heq | hrest
    · subst heq
      refine foldl_resolved_mono pidOf rest _ p ?_
      show p ∈ (startWorker pidOf t).resolved ++ [p]
      exact List.mem_append_right _ (List.mem_singleton_self p)
    · exact ih _ hrest

theorem exitEvent_of_listensFor (pidOf : Nat → Option Nat) {p id : Nat} {t : State}
    (h : listensFor p id t) :
    p ∈ (exitEvent pidOf t id).resolved ∧
    t.children.length < (exitEvent pidOf t id).children.length := by
  obtain ⟨c, h1, h2, h3⟩ := h
  refine ⟨?_, ?_⟩
  · simp only [exitEvent, h1, h2, Bool.false_eq_true, if_false]
    exact foldl_resolved_of_mem pidOf _ _ p h3
  · rw [exitEvent_length pidOf t id c h1 h2]
    have hpos : 0 < pendingRestarts c :=
      List.length_pos_of_mem (List.mem_filter.mpr ⟨h3, rfl⟩)
    omega

theorem restartWorker_of_worker (pidOf : Nat → Option Nat) (t : State) (k : Nat)
    (hw : t.worker = some k) :
    (restartWorker pidOf t).1.worker = some k ∧
    (restartWorker pidOf t).1.children.length = t.children.length ∧
    (restartWorker pidOf t).1.resolved = t.resolved ∧
    (restartWorker pidOf t).1.nextPromise = t.nextPromise + 1 ∧
    (restartWorker pidOf t).2 = t.nextPromise ∧
    (restartWorker pidOf t).1.children =
      modifyAt
        (fun w => kill { w with exitListeners := w.exitListeners ++ [.restart t.nextPromise] })
        k t.children := by
  have hr : restartWorker pidOf t =
      ({ t with
          nextPromise := t.nextPromise + 1
          children :=
            modifyAt
              (fun w =>
                kill { w with exitListeners := w.exitListeners ++ [.restart t.nextPromise] })
              k t.children },
        t.nextPromise) := by
    simp only [restartWorker, hw]
  rw [hr]
  exact ⟨hw, length_modifyAt _ _ _, rfl, rfl, rfl, rfl⟩

theorem step_without_exit (pidOf : Nat → Option Nat) (threshold : ℚ) {t : State} {k : Nat}
    (e : Event) (hw : t.worker = some k) (he : ∀ j, e ≠ .exit j) (hs : e ≠ .startWorker) :
    (step pidOf threshold t e).worker = some k ∧
    (step pidOf threshold t e).children.length = t.children.length := by
  cases e with
  | startWorker => exact absurd rfl hs
  | exit j => exact absurd rfl (he j)
  | restartWorker =>
    obtain ⟨h1, h2, _⟩ := restartWorker_of_worker pidOf t k hw
    exact ⟨h1, h2⟩
  | tick timer sample =>
    obtain ⟨h1, h2, _⟩ :=
      restartWorker_of_worker pidOf { t with samples := t.samples + 1 } k hw
    show (tick pidOf threshold t timer sample).worker = some k ∧
      (tick pidOf threshold t timer sample).children.length = t.children.length
    unfold tick
    repeat' split
    all_goals first | exact ⟨hw, rfl⟩ | exact ⟨h1, h2⟩
  | shutdown =>
    show (shutdown t).worker = some k ∧ (shutdown t).children.length = t.children.length
    rw [shutdown_eq, hw]
    exact ⟨(stopMonitoring_children t).2.1.trans hw, length_modifyAt _ _ _⟩

theorem run_without_exit (pidOf : Nat → Option Nat) (threshold : ℚ) (events : List Event)
    {t : State} {k : Nat} (hw : t.worker = some k)
    (he : ∀ e ∈ events, (∀ j, e ≠ .exit j) ∧ e ≠ .startWorker) :
    (run pidOf threshold t events).children.length = t.children.length := by
  induction events generalizing t with
  | nil => rfl
  | cons e rest ih =>
    obtain ⟨h1, h2⟩ := step_without_exit pidOf threshold e hw
      (he e (List.mem_cons_self _ _)).1 (he e (List.mem_cons_self _ _)).2
    show (run pidOf threshold (step pidOf threshold t e) rest).children.length = _
    rw [ih h1 (fun x hx => he x (List.mem_cons_of_mem _ hx)), h2]

/-- C30: in a supervisor state whose next promise is fresh, when `this.worker`
is non-null the call of `restartWorker` forks nothing and its promise is
pending; no child is forked as long as no `exit` event is delivered and
`startWorker` is not called from outside; the promise stays pending as long as
the `exit` event of that worker has not been delivered; if the worker had not
exited, the delivery of its `exit` event resolves the promise and forks a
child; if it had already exited, no such event comes and the promise stays
pending for ever.  Only when `this.worker` is null does the call fork a child
and resolve its promise at once. -/
theorem restartWorker_forks_at_exit (pidOf : Nat → Option Nat) (threshold : ℚ) (s : State)
    (hres : s.nextPromise ∉ s.resolved)
    (hlis : ∀ c ∈ s.children, ExitListener.restart s.nextPromise ∉ c.exitListeners) :
    (∀ id w, s.worker = some id → s.children.get? id = some w →
      (restartWorker pidOf s).1.children.length = s.children.length ∧
      (restartWorker pidOf s).2 ∉ (restartWorker pidOf s).1.resolved ∧
      (∀ events, (∀ e ∈ events, (∀ j, e ≠ .exit j) ∧ e ≠ .startWorker) →
        (run pidOf threshold (restartWorker pidOf s).1 events).children.length =
          s.children.length) ∧
      (∀ events, (∀ e ∈ events, e ≠ .exit id) →
        (restartWorker pidOf s).2 ∉
          (run pidOf threshold (restartWorker pidOf s).1 events).resolved) ∧
      (w.exited = false → ∀ events, (∀ e ∈ events, e ≠ .exit id) →
        (restartWorker pidOf s).2 ∈
          (exitEvent pidOf (run pidOf threshold (restartWorker pidOf s).1 events) id).resolved ∧
        (run pidOf threshold (restartWorker pidOf s).1 events).children.length <
          (exitEvent pidOf
            (run pidOf threshold (restartWorker pidOf s).1 events) id).children.length) ∧
      (w.exited = true → ∀ events,
        (restartWorker pidOf s).2 ∉
          (run pidOf threshold (restartWorker pidOf s).1 events).resolved)) ∧
    (s.worker = none →
      (restartWorker pidOf s).1.children.length = s.children.length + 1 ∧
      (restartWorker pidOf s).1.worker = some s.children.length ∧
      (restartWorker pidOf s).2 ∈ (restartWorker pidOf s).1.resolved) := by
  refine ⟨?_, ?_⟩
  · intro id w hw hc
    obtain ⟨r1, r2, r3, r4, r5, r6⟩ := restartWorker_of_worker pidOf s id hw
    have hget : (restartWorker pidOf s).1.children.get? id =
        some (kill { w with exitListeners := w.exitListeners ++ [.restart s.nextPromise] }) := by
      rw [r6, get?_modifyAt, hc]
      rfl
    have hwait : awaitsExit s.nextPromise id (restartWorker pidOf s).1 := by
      refine ⟨by rw [r3]; exact hres, by rw [r4]; exact Nat.lt_succ_self _, ?_⟩
      intro j c hj hm
      by_contra hne
      rw [r6, get?_modifyAt_ne _ _ _ _ hne] at hj
      exact hlis c (List.get?_mem hj) hm
    rw [r5]
    refine ⟨r2, hwait.1, ?_, ?_, ?_, ?_⟩
    · intro events he
      rw [run_without_exit pidOf threshold events r1 he, r2]
    · intro events he
      exact (awaitsExit_run pidOf threshold events he hwait).1
    · intro hlive events he
      have hlisten : listensFor s.nextPromise id (restartWorker pidOf s).1 := by
        refine ⟨_, hget, ?_, ?_⟩
        · simp [kill, hlive]
        · simp [kill, hlive]
      exact exitEvent_of_listensFor pidOf (listensFor_run pidOf threshold events he hlisten)
    · intro hdead events
      have hx : hasExited id (restartWorker pidOf s).1 :=
        ⟨_, hget, by simp [kill, hdead]⟩
      exact (awaitsExit_run_of_hasExited pidOf threshold events hwait hx).1
  · intro hw
    have hr : restartWorker pidOf s =
        ({ startWorker pidOf { s with nextPromise := s.nextPromise + 1 } with
            resolved :=
              (startWorker pidOf { s with nextPromise := s.nextPromise + 1 }).resolved ++
                [s.nextPromise] },
          s.nextPromise) := by
      simp only [restartWorker, hw]
    rw [hr]
    simp [startWorker, startMonitoring]

/-- C30 after a start and the exit of the only child: `this.worker` still holds
that child, a restart forks nothing and, whatever happens afterwards, its
promise is never resolved. -/
theorem restartWorker_forks_at_exit_witness :
    (restartWorker samplePid afterUnexpectedExit).1.children.length = 1 ∧
    (restartWorker samplePid afterUnexpectedExit).2 ∉
      (run samplePid 70 (restartWorker samplePid afterUnexpectedExit).1
        [.exit 0, .tick 0 (some 90), .shutdown]).resolved :=
  have h := (restartWorker_forks_at_exit samplePid 70 afterUnexpectedExit (by decide)
    (by decide)).1 0
    { pid := some 100, killed := false, exited := true, exitListeners := [.stopMonitoring] }
    rfl rfl
  ⟨h.1, h.2.2.2.2.2 rfl [.exit 0, .tick 0 (some 90), .shutdown]⟩

end MasterProcess

/-! ## Properties of the job registry, the import summary and createPolicy -/

namespace FileParserService

open PolicyService

/-- C25, as stated, fails: when `startParsingJob` returns, the record of the
new job has status `processing`, not `pending`; `_processJob`, called without
`await`, has already run up to its first `await`. -/
theorem startParsingJob_pending_counterexample :
    (startParsingJob "job-1" 0 ([] : JobMap String) "/uploads/policies.csv" "csv").2 = "job-1" ∧
    (jobsGet (startParsingJob "job-1" 0 ([] : JobMap String) "/uploads/policies.csv" "csv").1
        "job-1").map (fun job => job.status) = some "processing" ∧
    (jobsGet (startParsingJob "job-1" 0 ([] : JobMap String) "/uploads/policies.csv" "csv").1
        "job-1").map (fun job => job.status) ≠ some "pending" := by
  decide

/-- C25, amended: `startParsingJob` builds a record with status `pending`,
recordsProcessed 0 and recordsFailed 0, puts it in the registry and returns its
id without waiting for the parse; the change of status to `processing` is made
before it returns, so at the moment it returns the registry record for that id
has status `processing`, with both counters 0 and no completion time. -/
theorem startParsingJob_returns_processing {ρ : Type} (jobs : JobMap ρ)
    (jobId filePath fileType : String) (startedAt : Int) :
    (startParsingJob jobId startedAt jobs filePath fileType).2 = jobId ∧
    (newJob jobId filePath fileType startedAt : ParseJob ρ).status = "pending" ∧
    jobsGet (startParsingJob jobId startedAt jobs filePath fileType).1 jobId =
      some
        { id := jobId
          filePath := filePath
          fileType := fileType
          status := "processing"
          recordsProcessed := .number 0
          recordsFailed := .number 0
          startedAt := startedAt
          completedAt := none
          error := none
          errors := .undefined } := by
  refine ⟨rfl, rfl, ?_⟩
  simp [startParsingJob, _processJobStart, jobsGet_jobsSet, markProcessing, newJob]

end FileParserService

namespace PolicyService

open Store

theorem foldl_importStep_errors {ρ σ : Type} (createFromRow : ρ → σ → σ × Option String)
    (rows : List ρ) (acc : σ × ImportResults ρ) :
    (rows.foldl (importStep createFromRow) acc).2.errors =
      acc.2.errors ++ failures createFromRow rows acc.1 := by
  induction rows generalizing acc with
  | nil => simp [failures]
  | cons row rest ih =>
    rw [List.foldl_cons, ih]
    simp only [failures, importStep]
    rcases createFromRow row acc.1 with ⟨db1, _ | message⟩
    · rfl
    · simp

theorem failures_sublist {ρ σ : Type} (createFromRow : ρ → σ → σ × Option String)
    (rows : List ρ) (db : σ) :
    List.Sublist ((failures createFromRow rows db).map fun e => e.row) rows := by
  induction rows generalizing db with
  | nil => simp [failures]
  | cons row rest ih =>
    simp only [failures]
    rcases createFromRow row db with ⟨db1, _ | message⟩
    · exact List.Sublist.cons _ (ih db1)
    · exact List.Sublist.cons₂ _ (ih db1)

theorem failures_raised {ρ σ : Type} (createFromRow : ρ → σ → σ × Option String)
    (rows : List ρ) (db : σ) :
    ∀ e ∈ failures createFromRow rows db, ∃ db1, (createFromRow e.row db1).2 = some e.error := by
  induction rows generalizing db with
  | nil => simp [failures]
  | cons row rest ih =>
    simp only [failures]
    rcases h : createFromRow row db with ⟨db1, _ | message⟩
    · exact ih db1
    · intro e he
      rcases List.mem_cons.mp he with rfl | hrest
      · exact ⟨db, by rw [h]⟩
      · exact ih db1 e hrest

/-- C27: for every list of rows, from every store and whatever the creation of
a policy does, the summary of `importPoliciesFromData` has imported + failed
equal to the number of rows and as many entries in errors as failed; errors
is the list of the rows whose attempt raised, in input order (their rows form
a sublist of the input), each entry holding the row itself and the message of
the error its attempt raised. -/
theorem import_summary_lists_failures {ρ σ : Type} (createFromRow : ρ → σ → σ × Option String)
    (data : List ρ) (db : σ) :
    (importPoliciesFromData createFromRow data db).2.imported +
        (importPoliciesFromData createFromRow data db).2.failed = data.length ∧
    (importPoliciesFromData createFromRow data db).2.errors.length =
      (importPoliciesFromData createFromRow data db).2.failed ∧
    (importPoliciesFromData createFromRow data db).2.errors = failures createFromRow data db ∧
    List.Sublist
      ((importPoliciesFromData createFromRow data db).2.errors.map fun e => e.row) data ∧
    ∀ e ∈ (importPoliciesFromData createFromRow data db).2.errors,
      e.row ∈ data ∧ ∃ db1, (createFromRow e.row db1).2 = some e.error := by
  obtain ⟨h1, h2, _⟩ := foldl_importStep_spec createFromRow data
    (db, { success := true, imported := 0, failed := 0, errors := [] })
  have h3 := foldl_importStep_errors createFromRow data
    (db, { success := true, imported := 0, failed := 0, errors := [] })
  rw [importPoliciesFromData_eq_foldl]
  simp only [List.nil_append, List.length_nil, Nat.zero_add, Nat.add_zero] at h1 h2 h3
  have hsub := failures_sublist createFromRow data db
  refine ⟨h1, h2, h3, ?_, ?_⟩
  · rw [h3]
    exact hsub
  · rw [h3]
    intro e he
    exact ⟨hsub.subset (List.mem_map_of_mem _ he), failures_raised createFromRow data db e he⟩

theorem validate_dates (id : Nat) (data : PolicyRepository.PolicyInput) (p : Policy)
    (h : PolicyRepository.validate id data = some p) :
    data.startDate = some p.startDate ∧ data.endDate = some p.endDate := by
  unfold PolicyRepository.validate at h
  split at h
  · rename_i hs he
    split at h
    · simp at h
    · simp only [Option.some.injEq] at h
      subst h
      exact ⟨hs, he⟩
  · simp at h

theorem policy_create_dates (db db1 : Db) (data : PolicyRepository.PolicyInput) (e : String)
    (h : PolicyRepository.create db data = (db1, .error e))
    (hd : dateLe data.endDate data.startDate = false) :
    e ≠ "End date must be after start date" := by
  unfold PolicyRepository.create at h
  split at h
  · simp only [Prod.mk.injEq, Except.error.injEq] at h
    rw [← h.2]
    decide
  · rename_i policy hv
    obtain ⟨hs, he⟩ := validate_dates _ _ _ hv
    have hpre : PolicyRepository.preSave policy = none := by
      simp only [PolicyRepository.preSave]
      rw [← hs, ← he, hd]
      simp
    simp only [hpre] at h
    split at h
    · simp only [Prod.mk.injEq, Except.error.injEq] at h
      rw [← h.2]
      decide
    · simp at h

theorem createPolicy_after_checks (b : Builtins) (db : Db) (pd : PolicyData)
    (hle : pd.premiumAmount.leZero = false)
    (hd : dateLe (newDate b pd.endDate) (newDate b pd.startDate) = false) :
    ∀ e, (createPolicy b db pd).2 = .error e → e ≠ "End date must be after start date" := by
  unfold createPolicy
  simp only [hle, hd, Bool.false_eq_true, if_false]
  rcases hA : AgentRepository.findOrCreate db pd.agentName with ⟨db1, rA⟩
  obtain ⟨_, eA⟩ := agent_findOrCreate_spec db db1 _ rA hA
  cases rA with
  | error e =>
    have := eA e rfl
    subst this
    intro e he
    simp only [Except.error.injEq] at he
    subst he
    decide
  | ok agent =>
    simp only []
    rcases hU : UserRepository.findOrCreate b db1
      { name := jsOr pd.userName pd.userEmail, email := pd.userEmail, gender := pd.gender }
      with ⟨db2, rU⟩
    obtain ⟨_, eU⟩ := user_findOrCreate_spec b db1 db2 _ rU hU
    cases rU with
    | error e =>
      intro e1 he1
      simp only [Except.error.injEq] at he1
      subst he1
      rcases eU e rfl with h | h | h <;> subst h <;> decide
    | ok user =>
      simp only []
      rcases hC : PolicyCategoryRepository.findOrCreate db2 pd.categoryName with ⟨db3, rC⟩
      obtain ⟨_, eC⟩ := category_findOrCreate_spec db2 db3 _ rC hC
      cases rC with
      | error e =>
        have := eC e rfl
        subst this
        intro e he
        simp only [Except.error.injEq] at he
        subst he
        decide
      | ok category =>
        simp only []
        rcases hK : PolicyCarrierRepository.findOrCreate db3 pd.companyName with ⟨db4, rK⟩
        obtain ⟨_, eK⟩ := carrier_findOrCreate_spec db3 db4 _ rK hK
        cases rK with
        | error e =>
          have := eK e rfl
          subst this
          intro e he
          simp only [Except.error.injEq] at he
          subst he
          decide
        | ok carrier =>
          simp only []
          intro e he
          rcases hP : PolicyRepository.create db4
            { policyNumber := pd.policyNumber
              policyMode := pd.policyMode
              producer := pd.producer
              premiumAmount := pd.premiumAmount
              policyType := pd.policyType
              csr := pd.csr
              startDate := newDate b pd.startDate
              endDate := newDate b pd.endDate
              agent := agent._id
              user := user._id
              policyCategory := category._id
              policyCarrier := carrier._id } with ⟨db5, rP⟩
          rw [hP] at he
          simp only at he
          subst he
          exact policy_create_dates db4 db5 _ e hP hd

/-- C28: whenever `createPolicy` raises `Premium amount must be positive` or
`End date must be after start date`, the error comes from one of the two
checks at its start, made before any repository call: the store it leaves,
with its agents, users, categories, carriers and policies, is the store it
was given.  The same message of the `pre('save')` hook of the Policy schema
cannot come out of `createPolicy`, the check on the dates having passed. -/
theorem createPolicy_atomic_on_validation (b : Builtins) (db : Db) (pd : PolicyData)
    (h : (createPolicy b db pd).2 = .error "Premium amount must be positive" ∨
      (createPolicy b db pd).2 = .error "End date must be after start date") :
    (createPolicy b db pd).1 = db ∧
    (pd.premiumAmount.leZero = true ∨
      dateLe (newDate b pd.endDate) (newDate b pd.startDate) = true) := by
  cases hle : pd.premiumAmount.leZero with
  | true =>
    refine ⟨?_, Or.inl rfl⟩
    simp [createPolicy, hle]
  | false =>
    cases hd : dateLe (newDate b pd.endDate) (newDate b pd.startDate) with
    | true =>
      refine ⟨?_, Or.inr rfl⟩
      simp [createPolicy, hle, hd]
    | false =>
      exfalso
      rcases h with h | h
      · exact ((createPolicy_after_premium_check b db pd hle).1 _ h).1 rfl
      · exact createPolicy_after_checks b db pd hle hd _ h rfl

/-- C28 at the store of the aggregation tests: a premium of -100 and dates in
the wrong order are refused and the store is the same afterwards. -/
theorem createPolicy_atomic_on_validation_witness :
    (createPolicy sampleBuiltins aggregateDb negativePremiumData).2 =
      .error "Premium amount must be positive" ∧
    (createPolicy sampleBuiltins aggregateDb negativePremiumData).1 = aggregateDb ∧
    (createPolicy sampleBuiltins aggregateDb reversedDatesData).2 =
      .error "End date must be after start date" ∧
    (createPolicy sampleBuiltins aggregateDb reversedDatesData).1 = aggregateDb :=
  ⟨rfl,
    (createPolicy_atomic_on_validation sampleBuiltins aggregateDb negativePremiumData
      (Or.inl rfl)).1,
    rfl,
    (createPolicy_atomic_on_validation sampleBuiltins aggregateDb reversedDatesData
      (Or.inr rfl)).1⟩

/-- C26 at a user with three policies, of types Auto, Home and `constructor`:
`aggregatePoliciesByUser` counts the three policies and their premiums in the
totals, but byType has no entry for the type `constructor`, of which the user
has one policy with premium 500; `byType[type]` read the property every
object inherits, so no entry was created. -/
theorem aggregate_misses_inherited_type :
    ∃ summary,
      aggregatePoliciesByUser sampleBuiltins constructorTypeDb (some "test@example.com") =
        .ok summary ∧
      summary.totalPolicies = 3 ∧ summary.totalPremium = 3000 ∧
      summary.byType =
        [("Auto", { count := 1, totalPremium := 1000 }),
          ("Home", { count := 1, totalPremium := 1500 })] ∧
      ownProperty summary.byType "constructor" = none ∧
      typeTotals summary.policies "constructor" = { count := 1, totalPremium := 500 } := by
  refine ⟨_, rfl, ?_, ?_, ?_, ?_, ?_⟩
  · decide
  · with_unfolding_all rfl
  · with_unfolding_all rfl
  · with_unfolding_all rfl
  · with_unfolding_all rfl

end PolicyService

namespace FileParserWorker

open PolicyService

/-- C23 at a worksheet whose header row has an empty cell in column 2:
`parseXLSX` stores the value of column 3 under the header of column 4 and the
value of column 4 under `undefined`; the header of column 3, `Email`, is the
key of no value. -/
theorem parseXLSX_shifts_after_empty_header :
    firstRowCells gapSheet = [(1, "Agent"), (3, "Email"), (4, "Policy Number")] ∧
    parseXLSX gapSheet =
      [[("Agent", "John Doe"), ("Policy Number", "alice@example.com"),
        ("undefined", "POL-001")]] ∧
    parseXLSX testSheet =
      [[("Agent", "John Doe"), ("User", "Alice Smith"), ("Email", "alice@example.com"),
        ("Policy Number", "POL-001")]] := by
  decide

/-- When the cells of the header row fill the columns 1 to `n` without a gap,
the key `parseXLSX` uses for a cell of column `c` is the header of column
`c`. -/
theorem headerKey_of_contiguous_headers (sheet : Worksheet) (n : Nat)
    (hcols : (firstRowCells sheet).map Prod.fst = List.range' 1 n) (c : Nat) (header : String)
    (hmem : (c, header) ∈ firstRowCells sheet) :
    headerKey ((firstRowCells sheet).map Prod.snd) c = header := by
  obtain ⟨i, hi, hget⟩ := List.getElem_of_mem hmem
  have hlen : (List.range' 1 n).length = (firstRowCells sheet).length := by
    rw [← hcols, List.length_map]
  have hc : c = 1 + i := by
    have h1 : ((firstRowCells sheet).map Prod.fst)[i]? = some c := by
      rw [List.getElem?_map, List.getElem?_eq_getElem hi, hget]
      rfl
    rw [hcols, List.getElem?_eq_getElem (by rw [hlen]; exact hi), List.getElem_range'] at h1
    simpa using h1.symm
  have h2 : ((firstRowCells sheet).map Prod.snd).get? i = some header := by
    rw [List.get?_eq_getElem?, List.getElem?_map, List.getElem?_eq_getElem hi, hget]
    rfl
  unfold headerKey
  rw [if_neg (by omega)]
  have hsub : c - 1 = i := by omega
  rw [hsub, h2]

end FileParserWorker

/-! ## Properties of the aggregation outside the inherited names -/

namespace PolicyService

open Store

theorem ownProperty_addToProperty (byType : ByType) (k key : String) (premium : ℚ) :
    ownProperty (addToProperty byType k premium) key =
      if key = k then
        (ownProperty byType k).map fun t =>
          { count := t.count + 1, totalPremium := t.totalPremium + premium }
      else ownProperty byType key := by
  induction byType with
  | nil => simp [ownProperty, addToProperty]
  | cons entry rest ih =>
    obtain ⟨n, t⟩ := entry
    unfold ownProperty addToProperty at ih ⊢
    by_cases hk : key = k
    · subst hk
      rw [if_pos rfl] at ih ⊢
      by_cases he : n = key
      · subst he
        simp [List.find?_cons]
      · simpa [List.find?_cons, he] using ih
    · rw [if_neg hk] at ih ⊢
      by_cases he : n = k
      · subst he
        simpa [List.find?_cons, hk, Ne.symm hk] using ih
      · by_cases he2 : n = key
        · subst he2
          simp [List.find?_cons, he]
        · simpa [List.find?_cons, he, he2] using ih

theorem ownProperty_append_new (byType : ByType) (k key : String) (t : TypeTotals)
    (hnew : ownProperty byType k = none) :
    ownProperty (byType ++ [(k, t)]) key =
      if key = k then some t else ownProperty byType key := by
  unfold ownProperty at hnew ⊢
  rw [List.find?_append]
  by_cases hk : key = k
  · subst hk
    rw [if_pos rfl]
    rw [Option.map_eq_none'] at hnew
    simp [hnew]
  · rw [if_neg hk]
    cases hf : byType.find? fun entry => entry.1 == key with
    | some e => simp
    | none => simp [List.find?_cons, Ne.symm hk]

theorem ownProperty_eq_none_iff (byType : ByType) (key : String) :
    ownProperty byType key = none ↔ (byType.any fun entry => entry.1 == key) = false := by
  unfold ownProperty
  rw [Option.map_eq_none', List.find?_eq_none]
  simp

theorem typeTotals_append (seen : List Policy) (policy : Policy) (key : String) :
    typeTotals (seen ++ [policy]) key =
      if policy.policyType = key then
        { count := (typeTotals seen key).count + 1
          totalPremium := (typeTotals seen key).totalPremium + policy.premiumAmount }
      else typeTotals seen key := by
  unfold typeTotals
  by_cases h : policy.policyType = key
  · simp [List.filter_append, List.filter_cons, h]
  · simp [List.filter_append, List.filter_cons, h]

theorem groupByType_spec (byType : ByType) (policy : Policy) (key : String)
    (hkey : key ∉ objectPrototypeNames) :
    ownProperty (groupByType byType policy) key =
      if key = policy.policyType then
        match ownProperty byType key with
        | some t =>
          some { count := t.count + 1, totalPremium := t.totalPremium + policy.premiumAmount }
        | none => some { count := 0 + 1, totalPremium := 0 + policy.premiumAmount }
      else ownProperty byType key := by
  unfold groupByType
  by_cases htruthy : truthyProperty byType policy.policyType = true
  · simp only [htruthy, Bool.not_true, Bool.false_eq_true, if_false]
    rw [ownProperty_addToProperty]
    by_cases hk : key = policy.policyType
    · rw [if_pos hk, if_pos hk]
      rw [← hk] at htruthy ⊢
      have hany : (byType.any fun entry => entry.1 == key) = true := by
        unfold truthyProperty at htruthy
        rcases Bool.or_eq_true _ _ ▸ htruthy with h | h
        · exact h
        · have hmem : key ∈ objectPrototypeNames := by simpa using h
          exact absurd hmem hkey
      cases hown : ownProperty byType key with
      | none =>
        rw [(ownProperty_eq_none_iff byType key).mp hown] at hany
        cases hany
      | some t => rfl
    · rw [if_neg hk, if_neg hk]
  · have hfalse : truthyProperty byType policy.policyType = false := by
      simpa using htruthy
    simp only [hfalse, Bool.not_false, if_true]
    have hnone : ownProperty byType policy.policyType = none := by
      rw [ownProperty_eq_none_iff]
      unfold truthyProperty at hfalse
      exact (Bool.or_eq_false_iff.mp hfalse).1
    rw [ownProperty_addToProperty]
    by_cases hk : key = policy.policyType
    · rw [if_pos hk, if_pos hk, ownProperty_append_new _ _ _ _ hnone, if_pos rfl]
      rw [← hk] at hnone
      rw [hnone]
      rfl
    · rw [if_neg hk, if_neg hk, ownProperty_append_new _ _ _ _ hnone, if_neg hk]

theorem foldl_groupByType_spec (rest seen : List Policy) (byType : ByType) (key : String)
    (hkey : key ∉ objectPrototypeNames)
    (hinv : ownProperty byType key =
      if (typeTotals seen key).count = 0 then none else some (typeTotals seen key)) :
    ownProperty (rest.foldl groupByType byType) key =
      if (typeTotals (seen ++ rest) key).count = 0 then none
      else some (typeTotals (seen ++ rest) key) := by
  induction rest generalizing seen byType with
  | nil => simpa using hinv
  | cons policy rest ih =>
    rw [List.foldl_cons]
    have happ : seen ++ policy :: rest = (seen ++ [policy]) ++ rest := by simp
    rw [happ]
    apply ih
    rw [groupByType_spec byType policy key hkey, typeTotals_append, hinv]
    by_cases hk : key = policy.policyType
    · rw [if_pos hk, if_pos hk.symm]
      by_cases hzero : (typeTotals seen key).count = 0
      · have htotal : (typeTotals seen key).totalPremium = 0 := by
          unfold typeTotals at hzero ⊢
          rw [List.length_eq_zero] at hzero
          simp [hzero]
        simp [hzero, htotal]
      · simp [hzero]
    · rw [if_neg hk, if_neg (show ¬ policy.policyType = key from fun h => hk h.symm)]

theorem foldl_premium_sum (policies : List Policy) (start : ℚ) :
    policies.foldl (fun sum policy => sum + policy.premiumAmount) start =
      start + (policies.map fun p => p.premiumAmount).sum := by
  induction policies generalizing start with
  | nil => simp
  | cons policy rest ih =>
    rw [List.foldl_cons, ih]
    simp [add_assoc]

/-- Outside the names every object inherits, `aggregatePoliciesByUser` is
right: for a user that exists it returns the number of the user's policies,
the sum of their premiums, and in byType, for every policy type that is not
one of the inherited names, the number of the user's policies of that type and
the sum of their premiums (no entry when the user has none of that type); for
an email with no user it raises `User not found`. -/
theorem aggregatePoliciesByUser_spec (b : Builtins) (db : Db) (userEmail : Option String) :
    (UserRepository.findByEmail b db userEmail = .ok none →
      aggregatePoliciesByUser b db userEmail = .error "User not found") ∧
    ∀ user, UserRepository.findByEmail b db userEmail = .ok (some user) →
      ∃ summary, aggregatePoliciesByUser b db userEmail = .ok summary ∧
        summary.policies = PolicyRepository.findByUser db user._id ∧
        summary.totalPolicies = summary.policies.length ∧
        summary.totalPremium = (summary.policies.map fun p => p.premiumAmount).sum ∧
        ∀ key, key ∉ objectPrototypeNames →
          ownProperty summary.byType key =
            if (typeTotals summary.policies key).count = 0 then none
            else some (typeTotals summary.policies key) := by
  refine ⟨?_, ?_⟩
  · intro h
    simp only [aggregatePoliciesByUser, h]
  · intro user h
    have hsummary : aggregatePoliciesByUser b db userEmail =
        .ok
          { userName := user.name
            userEmail := user.email
            totalPolicies := (PolicyRepository.aggregateByUser db user._id).totalPolicies
            totalPremium := (PolicyRepository.aggregateByUser db user._id).totalPremium
            byType :=
              (PolicyRepository.aggregateByUser db user._id).policies.foldl groupByType []
            policies := (PolicyRepository.aggregateByUser db user._id).policies } := by
      simp only [aggregatePoliciesByUser, h]
    refine ⟨_, hsummary, rfl, rfl, ?_, ?_⟩
    · show (PolicyRepository.findByUser db user._id).foldl
          (fun sum policy => sum + policy.premiumAmount) 0 = _
      rw [foldl_premium_sum, zero_add]
      rfl
    · intro key hkey
      have := foldl_groupByType_spec (PolicyRepository.findByUser db user._id) [] [] key hkey
        (by simp [ownProperty, typeTotals])
      simpa using this

end PolicyService

end PolicyIngestion
